import Mathlib

/-!
# tscgit: the sequential executors, the step judge and the result aggregate

A shallow embedding of the Go packages `internal/gitutil`,
`internal/lessons`, `internal/verify`, `internal/run`, `internal/ui/verify`,
`internal/ui/run` and `cmd/tscgit`.

Conventions of the embedding.

* Everything a Go function reads from or writes to outside its arguments (the
  clock, the file system, child processes, the state of a `context.Context`)
  lives in a world of an arbitrary type `W`, passed explicitly: an effectful
  Go function `f(x) y` becomes `f : X → W → Y × W`.
* A Go pointer or interface value that may be nil is an `Option`.
* A Go slice whose nil-ness is observable is an `Option (List α)`, `none`
  being the nil slice; a slice that is only ranged over, measured or appended
  to is a `List α` (a nil slice and an empty slice both have length zero).
* Go `string` is `String`: text, compared and searched character by
  character, which for valid UTF-8 agrees with the byte-wise operations of Go.
  Go `int` and `time.Duration` are `Int` (they are only compared and
  subtracted here, never overflowed).
* A Go function value is a total function: a nil or panicking callback is
  outside the embedding.
* The calls a loop makes are recorded, in order, in a trace of `Event`s.
* Package-level variables become a structure, and the functions of the
  package that read or write them become functions on that structure.
* A Go panic (a nil pointer dereference) is `none` where a function of the
  embedding can reach it on some input.
-/

namespace tscgit

/-! ## Go runtime values -/

/-- Go `error` values, as far as this program tells them apart: the text
returned by `Error()`, whether the value is an `*exec.ExitError` (with the
result of `Sys().(syscall.WaitStatus)` and `ExitStatus()`, `none` when the type
assertion fails), and the chain built by `fmt.Errorf` with `%w`. -/
inductive GoError where
  | errorString (text : String)
  | exitError (sys : Option Int) (text : String)
  | wrapError (text : String) (inner : GoError)
  deriving DecidableEq, Repr

/-- The method `Error()` of a Go error. -/
def GoError.Error : GoError → String
  | .errorString text => text
  | .exitError _ text => text
  | .wrapError text _ => text

/-- Go `errors.As(err, &exitErr)` for `exitErr : *exec.ExitError`: the first
exit error of the chain, given by the result of its `Sys()` type assertion. -/
def GoError.asExitError : GoError → Option (Option Int)
  | .errorString _ => none
  | .exitError sys _ => some sys
  | .wrapError _ inner => inner.asExitError

/-- Go `errors.Is(err, target)`: `target` is `err` or an error that `err`
wraps, directly or through a chain. -/
def GoError.Is : GoError → GoError → Bool
  | .errorString text, target => decide (GoError.errorString text = target)
  | .exitError sys text, target => decide (GoError.exitError sys text = target)
  | .wrapError text inner, target =>
    decide (GoError.wrapError text inner = target) || inner.Is target

/-- A `context.Context` seen from the world: `Err w` is what `ctx.Err()`
returns in the world `w`; the channel `ctx.Done()` is closed exactly when that
is non-nil. -/
structure Context (W : Type) where
  Err : W → Option GoError

/-- One call made by a sequential loop: an item was executed, or a result was
handed to the emitter. -/
inductive Event (ι ρ : Type) where
  | call (item : ι)
  | emit (res : ρ)

/-- The local variables of a sequential loop between two iterations, with the
world and the calls made so far. -/
structure LoopState (W ι ρ : Type) where
  results : List ρ
  world : W
  trace : List (Event ι ρ)

/-- What a call of a sequential executor leaves behind: the two returned
values, the world after the call and the calls it made. -/
structure Outcome (W ι ρ : Type) where
  results : Option (List ρ)
  err : Option GoError
  world : W
  trace : List (Event ι ρ)

/-! ## Package `gitutil` (types only) -/

namespace gitutil

/-- Go `gitutil.Repository`. -/
structure Repository where
  Root : String
  deriving DecidableEq, Repr

end gitutil

/-! ## Package `lessons` (types) -/

namespace lessons

/-- Go `lessons.CheckResult`. -/
structure CheckResult where
  Passed : Bool
  Message : String
  Err : Option GoError
  deriving DecidableEq, Repr

/-- Go `lessons.Check`; `Verify` is the `CheckFunc`, a call of which reads
and changes the world. -/
structure Check (W : Type) where
  ID : String
  Title : String
  Description : String
  Verify : Context W → Option gitutil.Repository → W → CheckResult × W

/-- Go `lessons.Lesson`. -/
structure Lesson (W : Type) where
  ID : String
  Title : String
  Description : String
  Checks : List (Check W)

end lessons

/-! ## Package `verify` -/

namespace verify

open lessons

/-- Go `verify.ErrLessonNil`. -/
def ErrLessonNil : GoError := .errorString "verify: lesson is nil"

/-- Go `verify.ErrRepositoryNil`. -/
def ErrRepositoryNil : GoError := .errorString "verify: repository is nil"

/-- Go `verify.Result`. -/
structure Result (W : Type) where
  Check : lessons.Check W
  Outcome : CheckResult
  Duration : Int

/-- Go `verify.Emitter`: the method `Emit`, which returns nothing and may
change the world. -/
abbrev Emitter (W : Type) := Result W → W → W

/-- The body of the `for` loop of `verify.Run` after the cancellation check:
time the call of `check.Verify`, append the result, emit it. `now` is
`time.Now` read off the world. -/
def Run.iteration {W : Type} (now : W → Int) (ctx : Context W)
    (repo : Option gitutil.Repository) (emitter : Option (Emitter W))
    (s : LoopState W (Check W) (Result W)) (check : Check W) :
    LoopState W (Check W) (Result W) :=
  let start := now s.world
  let out := check.Verify ctx repo s.world
  let res : Result W :=
    { Check := check, Outcome := out.1, Duration := now out.2 - start }
  let results := s.results ++ [res]
  match emitter with
  | some em =>
    { results := results, world := em res out.2,
      trace := s.trace ++ [Event.call check, Event.emit res] }
  | none =>
    { results := results, world := out.2, trace := s.trace ++ [Event.call check] }

/-- The `for _, check := range lesson.Checks` loop of `verify.Run`. -/
def Run.loop {W : Type} (now : W → Int) (ctx : Context W)
    (repo : Option gitutil.Repository) (emitter : Option (Emitter W)) :
    List (Check W) → LoopState W (Check W) (Result W) → Outcome W (Check W) (Result W)
  | [], s => { results := some s.results, err := none, world := s.world, trace := s.trace }
  | check :: rest, s =>
    match ctx.Err s.world with
    | some e => { results := some s.results, err := some e, world := s.world, trace := s.trace }
    | none => Run.loop now ctx repo emitter rest (Run.iteration now ctx repo emitter s check)

/-- Go `verify.Run`. -/
def Run {W : Type} (now : W → Int) (ctx : Context W) (lesson : Option (Lesson W))
    (repo : Option gitutil.Repository) (emitter : Option (Emitter W)) (w : W) :
    Outcome W (Check W) (Result W) :=
  match lesson with
  | none => { results := none, err := some ErrLessonNil, world := w, trace := [] }
  | some l =>
    match repo with
    | none => { results := none, err := some ErrRepositoryNil, world := w, trace := [] }
    | some _ =>
      Run.loop now ctx repo emitter l.Checks { results := [], world := w, trace := [] }

end verify

/-! ## Go standard library pieces used by package `run` -/

namespace strings

/-- Go `strings.Contains(s, substr)`: `substr` starts at some offset of `s`. -/
def Contains (s substr : String) : Bool :=
  s.data.tails.any (fun t => substr.data.isPrefixOf t)

end strings

namespace fmt

/-- The verb `%d` of Go `fmt.Sprintf` applied to an `int`: decimal digits,
with a leading minus sign for a negative number. -/
def verbD (n : Int) : String := toString n

end fmt

/-- What the operating system and the Go standard library supply to package
`run`: the clock, `runtime.GOOS`, whether `exec.LookPath` finds a program,
what `exec.CommandContext(ctx, shell, args...).Run()` does with both output
streams captured in buffers (the captured stdout, the captured stderr and the
returned error), and the quoting done by the verb `%q` (`strconv.Quote`). -/
structure Host (W : Type) where
  now : W → Int
  GOOS : String
  lookPath : String → W → Bool
  cmdRun : Context W → String → List String → W → (String × String × Option GoError) × W
  quote : String → String

/-! ## Package `run` -/

namespace run

/-- Go `run.Step`. -/
structure Step where
  Command : String
  ExpectExitCode : Int
  ExpectStdout : List String
  deriving DecidableEq, Repr

/-- Go `run.Script`. -/
structure Script where
  ID : String
  Title : String
  Description : String
  Steps : List Step
  deriving DecidableEq, Repr

/-- Go `run.StepResult`. -/
structure StepResult where
  Step : Step
  Stdout : String
  Stderr : String
  ExitCode : Int
  Duration : Int
  Passed : Bool
  Failures : List String
  ExecError : Option GoError
  deriving DecidableEq, Repr

/-- Go `run.defaultShell`. -/
def defaultShell {W : Type} (host : Host W) (w : W) : String × List String :=
  if host.GOOS = "windows" then
    if host.lookPath "pwsh" w then
      ("pwsh", ["-NoLogo", "-NoProfile", "-Command"])
    else
      ("powershell", ["-NoLogo", "-NoProfile", "-Command"])
  else
    ("sh", ["-c"])

/-- Go `run.exitStatus`. -/
def exitStatus (err : Option GoError) : Int :=
  match err with
  | none => 0
  | some e =>
    match e.asExitError with
    | some (some status) => status
    | _ => -1

/-- The four values returned by Go `run.runCommand`. -/
structure CommandOutput where
  stdout : String
  stderr : String
  exitCode : Int
  err : Option GoError
  deriving DecidableEq, Repr

/-- Go `run.runCommand`. -/
def runCommand {W : Type} (host : Host W) (ctx : Context W) (command : String) (w : W) :
    CommandOutput × W :=
  let sh := defaultShell host w
  let args := sh.2 ++ [command]
  let ran := host.cmdRun ctx sh.1 args w
  let err := ran.1.2.2
  let exitCode := exitStatus err
  ({ stdout := ran.1.1, stderr := ran.1.2.1, exitCode := exitCode, err := err }, ran.2)

/-- The body of the loop `for _, expected := range step.ExpectStdout` of
`RunStep`. -/
def RunStep.expect {W : Type} (host : Host W) (res : StepResult) (expected : String) :
    StepResult :=
  if !strings.Contains res.Stdout expected then
    { res with Failures := res.Failures ++ ["stdout missing " ++ host.quote expected] }
  else
    res

/-- Go `run.RunStep`. -/
def RunStep {W : Type} (host : Host W) (ctx : Context W) (step : Step) (w : W) :
    StepResult × W :=
  let start := host.now w
  let out := runCommand host ctx step.Command w
  let duration := host.now out.2 - start
  let res : StepResult :=
    { Step := step, Stdout := out.1.stdout, Stderr := out.1.stderr,
      ExitCode := out.1.exitCode, Duration := duration, Passed := false,
      Failures := [], ExecError := out.1.err }
  let res :=
    match out.1.err with
    | none =>
      if step.ExpectExitCode ≥ 0 ∧ step.ExpectExitCode ≠ out.1.exitCode then
        { res with Failures := res.Failures ++
            ["expected exit code " ++ fmt.verbD step.ExpectExitCode ++ ", got "
              ++ fmt.verbD out.1.exitCode] }
      else
        res
    | some execErr => { res with Failures := res.Failures ++ [execErr.Error] }
  let res := step.ExpectStdout.foldl (RunStep.expect host) res
  ({ res with Passed := res.Failures.length == 0 }, out.2)

/-- The body of the `for` loop of `run.Execute` after the cancellation
check: run the step, append the result, emit it. -/
def Execute.iteration {W : Type} (host : Host W) (ctx : Context W)
    (emitter : Option (StepResult → W → W))
    (s : LoopState W Step StepResult) (step : Step) : LoopState W Step StepResult :=
  let ran := RunStep host ctx step s.world
  let res := ran.1
  let results := s.results ++ [res]
  match emitter with
  | some em =>
    { results := results, world := em res ran.2,
      trace := s.trace ++ [Event.call step, Event.emit res] }
  | none =>
    { results := results, world := ran.2, trace := s.trace ++ [Event.call step] }

/-- The `for _, step := range script.Steps` loop of `run.Execute`. -/
def Execute.loop {W : Type} (host : Host W) (ctx : Context W)
    (emitter : Option (StepResult → W → W)) :
    List Step → LoopState W Step StepResult → Outcome W Step StepResult
  | [], s => { results := some s.results, err := none, world := s.world, trace := s.trace }
  | step :: rest, s =>
    match ctx.Err s.world with
    | some e => { results := some s.results, err := some e, world := s.world, trace := s.trace }
    | none => Execute.loop host ctx emitter rest (Execute.iteration host ctx emitter s step)

/-- Go `run.Execute`. -/
def Execute {W : Type} (host : Host W) (ctx : Context W) (script : Option Script)
    (emitter : Option (StepResult → W → W)) (w : W) : Outcome W Step StepResult :=
  match script with
  | none =>
    { results := none, err := some (GoError.errorString "run: script is nil"),
      world := w, trace := [] }
  | some sc =>
    Execute.loop host ctx emitter sc.Steps { results := [], world := w, trace := [] }

end run

/-! ## Package `verifyui` -/

namespace verifyui

/-- Go `verifyui.Model`, without the spinner (a value of the terminal
library, used for rendering only). The lesson pointer is dereferenced by every
method, so it is a lesson here. -/
structure Model (W : Type) where
  lesson : lessons.Lesson W
  repo : Option gitutil.Repository
  results : List (verify.Result W)
  width : Int
  done : Bool

/-- The loop `for _, res := range m.results` of `Model.AllPassed`. -/
def Model.AllPassed.loop {W : Type} : List (verify.Result W) → Bool
  | [] => true
  | res :: rest =>
    if !res.Outcome.Passed || res.Outcome.Err.isSome then false
    else Model.AllPassed.loop rest

/-- Go `(*verifyui.Model).AllPassed`. -/
def Model.AllPassed {W : Type} (m : Model W) : Bool :=
  if m.results.length ≠ m.lesson.Checks.length then false
  else Model.AllPassed.loop m.results

end verifyui

/-! ## Package `runui` -/

namespace runui

/-- Go `runui.Model`, without the spinner (a value of the terminal library,
used for rendering only). The script pointer is dereferenced by every method,
so it is a script here. -/
structure Model where
  script : run.Script
  results : List run.StepResult
  done : Bool
  width : Int

/-- The loop `for _, res := range m.results` of `Model.AllPassed`. -/
def Model.AllPassed.loop : List run.StepResult → Bool
  | [] => true
  | res :: rest =>
    if !res.Passed then false
    else Model.AllPassed.loop rest

/-- Go `(*runui.Model).AllPassed`. -/
def Model.AllPassed (m : Model) : Bool :=
  if m.results.length ≠ m.script.Steps.length then false
  else Model.AllPassed.loop m.results

end runui

/-! ## Package `sort` of the Go standard library -/

namespace sort

/-- Go `sort.Strings`: the strings rearranged in ascending order. -/
def Strings (l : List String) : List String :=
  l.insertionSort (fun a b => a ≤ b)

end sort

/-! ## Package `lessons`: the catalog -/

namespace lessons

/-- The package-level variables `catalog` (a map from ID to lesson pointer:
`none` for an absent key, `some none` for a key bound to nil) and
`lessonOrder`. A lesson pointer is modelled by the lesson it points to. -/
structure Catalog (W : Type) where
  catalog : String → Option (Option (Lesson W))
  lessonOrder : List String

/-- Go `lessons.errLessonDNE`. -/
def errLessonDNE : GoError := GoError.errorString "lesson not found"

/-- Go `lessons.errCatalogSet`. -/
def errCatalogSet : GoError := GoError.errorString "lesson already registered"

/-- The package variables before any registration: an empty map and a nil
slice. -/
def Catalog.empty {W : Type} : Catalog W where
  catalog := fun _ => none
  lessonOrder := []

/-- Go `lessons.Register`: the returned error and the package variables
after the call. -/
def Catalog.Register {W : Type} (s : Catalog W) (lesson : Option (Lesson W)) :
    Option GoError × Catalog W :=
  match lesson with
  | none => (some (GoError.errorString "lesson is nil"), s)
  | some l =>
    if l.ID = "" then
      (some (GoError.errorString "lesson ID is required"), s)
    else if (s.catalog l.ID).isSome then
      (some (GoError.wrapError (errCatalogSet.Error ++ ": " ++ l.ID) errCatalogSet), s)
    else
      (none,
        { catalog := fun id => if id = l.ID then some (some l) else s.catalog id,
          lessonOrder := sort.Strings (s.lessonOrder ++ [l.ID]) })

/-- Go `lessons.Get`. -/
def Catalog.Get {W : Type} (s : Catalog W) (id : String) :
    Option (Lesson W) × Option GoError :=
  match s.catalog id with
  | none => (none, some (GoError.wrapError (errLessonDNE.Error ++ ": " ++ id) errLessonDNE))
  | some lesson => (lesson, none)

/-- The package variables after a sequence of calls of `Register`. -/
def Catalog.registerAll {W : Type} (s : Catalog W) (calls : List (Option (Lesson W))) :
    Catalog W :=
  calls.foldl (fun s c => (s.Register c).2) s

/-- The lessons successfully registered by a sequence of calls of `Register`
made from the state `s`: those of the calls that returned a nil error, in the
order of the calls. -/
def Catalog.accepted {W : Type} : List (Option (Lesson W)) → Catalog W → List (Lesson W)
  | [], _ => []
  | c :: cs, s =>
    match c, (s.Register c).1 with
    | some l, none => l :: Catalog.accepted cs (s.Register c).2
    | _, _ => Catalog.accepted cs (s.Register c).2

/-- Go `lessons.List`; indexing the map with an absent key gives nil. -/
def Catalog.List {W : Type} (s : Catalog W) : List (Option (Lesson W)) :=
  s.lessonOrder.map (fun id => (s.catalog id).getD none)

end lessons

/-! ## Package `run`: the registry -/

namespace run

/-- The package-level variables `registry` (a map from ID to script pointer:
`none` for an absent key, `some none` for a key bound to nil) and
`scriptList`. A script pointer is modelled by the script it points to. -/
structure Registry where
  registry : String → Option (Option Script)
  scriptList : List String

/-- The package variables before any registration: an empty map and a nil
slice. -/
def Registry.empty : Registry where
  registry := fun _ => none
  scriptList := []

/-- Go `run.Register`: the package variables after the call. -/
def Registry.Register (s : Registry) (script : Option Script) : Registry :=
  match script with
  | none => s
  | some sc =>
    if sc.ID = "" then s
    else if (s.registry sc.ID).isSome then s
    else
      { registry := fun id => if id = sc.ID then some (some sc) else s.registry id,
        scriptList := sort.Strings (s.scriptList ++ [sc.ID]) }

/-- Go `run.Get`; indexing the map with an absent key gives nil and false. -/
def Registry.Get (s : Registry) (id : String) : Option Script × Bool :=
  match s.registry id with
  | none => (none, false)
  | some script => (script, true)

/-- The package variables after a sequence of calls of `Register`. -/
def Registry.registerAll (s : Registry) (calls : List (Option Script)) : Registry :=
  calls.foldl (fun s c => s.Register c) s

/-- The scripts successfully registered by a sequence of calls of `Register`
made from the state `s`, in the order of the calls: a call registers its
script when `Get` of its ID answered false before the call and answers the
script after it. -/
def Registry.accepted : List (Option Script) → Registry → List Script
  | [], _ => []
  | c :: cs, s =>
    match c with
    | some sc =>
      if (s.Get sc.ID).2 = false ∧ (s.Register c).Get sc.ID = (some sc, true) then
        sc :: Registry.accepted cs (s.Register c)
      else
        Registry.accepted cs (s.Register c)
    | none => Registry.accepted cs (s.Register c)

/-- Go `run.List`. -/
def Registry.List (s : Registry) : List (Option Script) :=
  s.scriptList.map (fun id => (s.registry id).getD none)

end run

/-! ## Package `gitutil` -/

namespace strings

/-- Go `strings.TrimPrefix`. -/
def TrimPrefix (s pre : String) : String :=
  if pre.data.isPrefixOf s.data then String.mk (s.data.drop pre.data.length) else s

/-- Go `strings.Join`. -/
def Join (elems : List String) (sep : String) : String :=
  sep.intercalate elems

end strings

/-- What the operating system and the Go standard library supply to package
`gitutil` and to the default lessons: what
`exec.CommandContext(ctx, name, args...)` with `Dir = dir` and both output
streams captured does when run (captured stdout, captured stderr, returned
error), the error of `os.Stat`, whether `errors.Is(err, os.ErrNotExist)`
holds, `os.Getwd`, `filepath.Join`, `strings.TrimSpace`, `strings.EqualFold`,
the value stored and the error returned by `fmt.Sscanf(s, "%d", &n)` with `n`
zero before the call, the tokens and the final error of a `bufio.Scanner` over
a string, and the quoting of the verb `%q`. -/
structure GitHost (W : Type) where
  cmdRun : Context W → String → List String → String → W →
    (String × String × Option GoError) × W
  stat : String → W → Option GoError × W
  isNotExist : GoError → Bool
  getwd : W → (String × Option GoError) × W
  pathJoin : String → String → String
  trimSpace : String → String
  equalFold : String → String → Bool
  sscanD : String → Int × Option GoError
  scanLines : String → List String × Option GoError
  quote : String → String

namespace gitutil

/-- Go `gitutil.gitCommand`; an empty `dir` leaves `cmd.Dir` empty. -/
def gitCommand {W : Type} (host : GitHost W) (ctx : Context W) (dir : String)
    (args : List String) (w : W) : (String × Option GoError) × W :=
  let ran := host.cmdRun ctx "git" args dir w
  match ran.1.2.2 with
  | some err =>
    (("", some (GoError.wrapError
        ("git command failed: git " ++ strings.Join args " " ++ ": " ++ err.Error ++ ": "
          ++ host.trimSpace ran.1.2.1) err)), ran.2)
  | none => ((ran.1.1, none), ran.2)

/-- Go `(*Repository).git`. -/
def Repository.git {W : Type} (host : GitHost W) (r : Repository) (ctx : Context W)
    (args : List String) (w : W) : (String × Option GoError) × W :=
  gitCommand host ctx r.Root args w

/-- Go `gitutil.IsNoCommits`. -/
def IsNoCommits (err : Option GoError) : Bool :=
  match err with
  | none => false
  | some e =>
    strings.Contains e.Error "does not have any commits yet" ||
      strings.Contains e.Error "unknown revision or path not in the working tree"

/-- Go `gitutil.Open`. -/
def Open {W : Type} (host : GitHost W) (ctx : Context W) (path : String) (w : W) :
    (Option Repository × Option GoError) × W :=
  let wd : (String × Option GoError) × W :=
    if path = "" then host.getwd w else ((path, none), w)
  match wd.1.2 with
  | some err =>
    ((none, some (GoError.wrapError ("gitutil: get working directory: " ++ err.Error) err)),
      wd.2)
  | none =>
    let res := gitCommand host ctx wd.1.1 ["rev-parse", "--show-toplevel"] wd.2
    match res.1.2 with
    | some err => ((none, some (GoError.wrapError ("gitutil: " ++ err.Error) err)), res.2)
    | none =>
      let root := host.trimSpace res.1.1
      if root = "" then
        ((none, some (GoError.errorString "gitutil: repository root is empty")), res.2)
      else
        ((some { Root := root }, none), res.2)

/-- Go `(*Repository).CurrentBranch`. -/
def Repository.CurrentBranch {W : Type} (host : GitHost W) (r : Repository)
    (ctx : Context W) (w : W) : (String × Option GoError) × W :=
  let res := r.git host ctx ["rev-parse", "--abbrev-ref", "HEAD"] w
  ((host.trimSpace res.1.1, res.1.2), res.2)

/-- The loop `for scanner.Scan()` of `HasBranch`: whether some line, without
a leading `*` and surrounding space, is `name` up to case. -/
def Repository.HasBranch.found {W : Type} (host : GitHost W) (name : String) :
    List String → Bool
  | [] => false
  | line :: rest =>
    if host.equalFold (host.trimSpace (strings.TrimPrefix line "*")) name then true
    else Repository.HasBranch.found host name rest

/-- Go `(*Repository).HasBranch`. -/
def Repository.HasBranch {W : Type} (host : GitHost W) (r : Repository) (ctx : Context W)
    (name : String) (w : W) : (Bool × Option GoError) × W :=
  let res := r.git host ctx ["branch", "--list", name] w
  match res.1.2 with
  | some err => ((false, some err), res.2)
  | none =>
    let scanned := host.scanLines res.1.1
    if Repository.HasBranch.found host name scanned.1 then ((true, none), res.2)
    else
      match scanned.2 with
      | some err => ((false, some err), res.2)
      | none => ((false, none), res.2)

/-- Go `(*Repository).FileExists`. -/
def Repository.FileExists {W : Type} (host : GitHost W) (r : Repository) (relPath : String)
    (w : W) : (Bool × Option GoError) × W :=
  let st := host.stat (host.pathJoin r.Root relPath) w
  match st.1 with
  | none => ((true, none), st.2)
  | some err =>
    if host.isNotExist err then ((false, none), st.2)
    else ((false, some err), st.2)

/-- Go `(*Repository).CommitCount`. -/
def Repository.CommitCount {W : Type} (host : GitHost W) (r : Repository) (ctx : Context W)
    (w : W) : (Int × Option GoError) × W :=
  let res := r.git host ctx ["rev-list", "--count", "HEAD"] w
  match res.1.2 with
  | some err =>
    if IsNoCommits (some err) then ((0, none), res.2)
    else ((0, some err), res.2)
  | none =>
    let scanned := host.sscanD (host.trimSpace res.1.1)
    match scanned.2 with
    | some scanErr =>
      ((0, some (GoError.wrapError ("gitutil: parse commit count: " ++ scanErr.Error) scanErr)),
        res.2)
    | none => ((scanned.1, none), res.2)

/-- The loop `for scanner.Scan()` of `HasRemote`. -/
def Repository.HasRemote.found {W : Type} (host : GitHost W) (name : String) :
    List String → Bool
  | [] => false
  | line :: rest =>
    if host.trimSpace line = name then true
    else Repository.HasRemote.found host name rest

/-- Go `(*Repository).HasRemote`. -/
def Repository.HasRemote {W : Type} (host : GitHost W) (r : Repository) (ctx : Context W)
    (name : String) (w : W) : (Bool × Option GoError) × W :=
  let res := r.git host ctx ["remote"] w
  match res.1.2 with
  | some err => ((false, some err), res.2)
  | none =>
    let scanned := host.scanLines res.1.1
    if Repository.HasRemote.found host name scanned.1 then ((true, none), res.2)
    else
      match scanned.2 with
      | some err => ((false, some err), res.2)
      | none => ((false, none), res.2)

/-- Go `(*Repository).LastCommitMessage`. -/
def Repository.LastCommitMessage {W : Type} (host : GitHost W) (r : Repository)
    (ctx : Context W) (w : W) : (String × Option GoError) × W :=
  let res := r.git host ctx ["log", "-1", "--pretty=%s"] w
  if res.1.2.isSome && IsNoCommits res.1.2 then (("", none), res.2)
  else ((host.trimSpace res.1.1, res.1.2), res.2)

/-- Go `(*Repository).CommitsAhead`. -/
def Repository.CommitsAhead {W : Type} (host : GitHost W) (r : Repository) (ctx : Context W)
    (base compare : String) (w : W) : (Int × Option GoError) × W :=
  if base = "" ∨ compare = "" then
    ((0, some (GoError.errorString "gitutil: base and compare branches are required")), w)
  else
    let spec := base ++ ".." ++ compare
    let res := r.git host ctx ["rev-list", "--count", spec] w
    match res.1.2 with
    | some err => ((0, some err), res.2)
    | none =>
      let scanned := host.sscanD (host.trimSpace res.1.1)
      match scanned.2 with
      | some scanErr =>
        ((0, some (GoError.wrapError
            ("gitutil: parse commits ahead count: " ++ scanErr.Error) scanErr)), res.2)
      | none => ((scanned.1, none), res.2)

end gitutil

/-! ## Package `lessons`: the default lessons

Every `Verify` below dereferences its repository; with a nil repository the
Go code panics, which is outside the embedding: that case is given the zero
`CheckResult` and no theorem speaks about it. -/

namespace lessons

/-- The check `first-commit` of `lessonInitBasics`. -/
def lessonInitBasics.firstCommit {W : Type} (host : GitHost W) : Check W where
  ID := "first-commit"
  Title := "Create at least one commit"
  Description := "Use git add and git commit so HEAD has history."
  Verify := fun ctx repo w =>
    match repo with
    | none => ({ Passed := false, Message := "", Err := none }, w)
    | some r =>
      let q := r.CommitCount host ctx w
      match q.1.2 with
      | some err => ({ Passed := false, Message := "", Err := some err }, q.2)
      | none =>
        if q.1.1 = 0 then
          ({ Passed := false,
             Message := "No commits detected. Run git commit to create your first snapshot.",
             Err := none }, q.2)
        else
          ({ Passed := true,
             Message := "Great! You have " ++ fmt.verbD q.1.1 ++ " commit(s) so far.",
             Err := none }, q.2)

/-- The check `readme-exists` of `lessonInitBasics`. -/
def lessonInitBasics.readmeExists {W : Type} (host : GitHost W) : Check W where
  ID := "readme-exists"
  Title := "Add a README.md"
  Description := "Document what this practice repository is about."
  Verify := fun _ repo w =>
    match repo with
    | none => ({ Passed := false, Message := "", Err := none }, w)
    | some r =>
      let q := r.FileExists host "README.md" w
      match q.1.2 with
      | some err => ({ Passed := false, Message := "", Err := some err }, q.2)
      | none =>
        if !q.1.1 then
          ({ Passed := false, Message := "Couldn't find README.md at the repo root.",
             Err := none }, q.2)
        else
          ({ Passed := true, Message := "README.md found—nice documentation!",
             Err := none }, q.2)

/-- The check `commit-message` of `lessonInitBasics`; `len([]rune(trimmed))`
is the number of characters of `trimmed`. -/
def lessonInitBasics.commitMessage {W : Type} (host : GitHost W) : Check W where
  ID := "commit-message"
  Title := "Write a descriptive commit message"
  Description := "Make sure your latest commit message is at least 5 characters long."
  Verify := fun ctx repo w =>
    match repo with
    | none => ({ Passed := false, Message := "", Err := none }, w)
    | some r =>
      let q := r.LastCommitMessage host ctx w
      match q.1.2 with
      | some err => ({ Passed := false, Message := "", Err := some err }, q.2)
      | none =>
        let trimmed := host.trimSpace q.1.1
        if trimmed.length < 5 then
          ({ Passed := false,
             Message := "Try writing a longer commit message that explains the change.",
             Err := none }, q.2)
        else
          ({ Passed := true,
             Message := "Last commit message looks good: " ++ host.quote trimmed,
             Err := none }, q.2)

/-- Go `lessons.lessonInitBasics`. -/
def lessonInitBasics {W : Type} (host : GitHost W) : Lesson W where
  ID := "init-basics"
  Title := "Initialize a Git repository"
  Description :=
    "Make your first commit, add a README, and practice writing meaningful messages."
  Checks :=
    [lessonInitBasics.firstCommit host, lessonInitBasics.readmeExists host,
      lessonInitBasics.commitMessage host]

/-- The check `branch-exists` of `lessonBranchBasics`. -/
def lessonBranchBasics.branchExists {W : Type} (host : GitHost W) : Check W where
  ID := "branch-exists"
  Title := "Create feature/lesson-branch"
  Description := "Use git branch or git switch -c to create the feature branch."
  Verify := fun ctx repo w =>
    match repo with
    | none => ({ Passed := false, Message := "", Err := none }, w)
    | some r =>
      let q := r.HasBranch host ctx "feature/lesson-branch" w
      match q.1.2 with
      | some err => ({ Passed := false, Message := "", Err := some err }, q.2)
      | none =>
        if !q.1.1 then
          ({ Passed := false, Message := "Branch feature/lesson-branch not found.",
             Err := none }, q.2)
        else
          ({ Passed := true, Message := "feature/lesson-branch exists.", Err := none }, q.2)

/-- The check `branch-current` of `lessonBranchBasics`. -/
def lessonBranchBasics.branchCurrent {W : Type} (host : GitHost W) : Check W where
  ID := "branch-current"
  Title := "Check out the feature branch"
  Description := "Switch to feature/lesson-branch before committing work."
  Verify := fun ctx repo w =>
    match repo with
    | none => ({ Passed := false, Message := "", Err := none }, w)
    | some r =>
      let q := r.CurrentBranch host ctx w
      match q.1.2 with
      | some err => ({ Passed := false, Message := "", Err := some err }, q.2)
      | none =>
        if q.1.1 ≠ "feature/lesson-branch" then
          ({ Passed := false,
             Message := "Currently on " ++ q.1.1 ++ ". Switch to feature/lesson-branch.",
             Err := none }, q.2)
        else
          ({ Passed := true, Message := "Nice—you're working on the feature branch.",
             Err := none }, q.2)

/-- The check `branch-commit` of `lessonBranchBasics`. -/
def lessonBranchBasics.branchCommit {W : Type} (host : GitHost W) : Check W where
  ID := "branch-commit"
  Title := "Commit work on the feature branch"
  Description := "Create at least one commit that is ahead of main."
  Verify := fun ctx repo w =>
    match repo with
    | none => ({ Passed := false, Message := "", Err := none }, w)
    | some r =>
      let q := r.CommitsAhead host ctx "main" "feature/lesson-branch" w
      match q.1.2 with
      | some err => ({ Passed := false, Message := "", Err := some err }, q.2)
      | none =>
        if q.1.1 = 0 then
          ({ Passed := false,
             Message := "No commits found on feature/lesson-branch that aren't on main.",
             Err := none }, q.2)
        else
          ({ Passed := true,
             Message := "feature/lesson-branch is ahead of main by " ++ fmt.verbD q.1.1
               ++ " commit(s).",
             Err := none }, q.2)

/-- The check `commit-message-tag` of `lessonBranchBasics`. -/
def lessonBranchBasics.commitMessageTag {W : Type} (host : GitHost W) : Check W where
  ID := "commit-message-tag"
  Title := "Tag your commit message"
  Description := "Mention [branch] in the latest commit subject to flag branch work."
  Verify := fun ctx repo w =>
    match repo with
    | none => ({ Passed := false, Message := "", Err := none }, w)
    | some r =>
      let q := r.LastCommitMessage host ctx w
      match q.1.2 with
      | some err => ({ Passed := false, Message := "", Err := some err }, q.2)
      | none =>
        if !strings.Contains q.1.1 "[branch]" then
          ({ Passed := false,
             Message := "Add [branch] to your latest commit message for visibility.",
             Err := none }, q.2)
        else
          ({ Passed := true,
             Message := "[branch] tag detected in your latest commit message.",
             Err := none }, q.2)

/-- Go `lessons.lessonBranchBasics`. -/
def lessonBranchBasics {W : Type} (host : GitHost W) : Lesson W where
  ID := "branch-basics"
  Title := "Practice branching"
  Description := "Create a feature branch, commit work on it, and keep main clean."
  Checks :=
    [lessonBranchBasics.branchExists host, lessonBranchBasics.branchCurrent host,
      lessonBranchBasics.branchCommit host, lessonBranchBasics.commitMessageTag host]

/-- The package variables after `init`: both default lessons registered (both
calls of `Register` return nil, so `Must` does not panic). -/
def init {W : Type} (host : GitHost W) : Catalog W :=
  Catalog.registerAll Catalog.empty
    [some (lessonInitBasics host), some (lessonBranchBasics host)]

/-- The seven checks of the default lessons, each with the error returned by
the repository query that its `Verify` makes. -/
def queryErrors {W : Type} (host : GitHost W) :
    List (Check W × (Context W → gitutil.Repository → W → Option GoError)) :=
  [(lessonInitBasics.firstCommit host, fun ctx r w => (r.CommitCount host ctx w).1.2),
   (lessonInitBasics.readmeExists host, fun _ r w => (r.FileExists host "README.md" w).1.2),
   (lessonInitBasics.commitMessage host, fun ctx r w => (r.LastCommitMessage host ctx w).1.2),
   (lessonBranchBasics.branchExists host,
      fun ctx r w => (r.HasBranch host ctx "feature/lesson-branch" w).1.2),
   (lessonBranchBasics.branchCurrent host, fun ctx r w => (r.CurrentBranch host ctx w).1.2),
   (lessonBranchBasics.branchCommit host,
      fun ctx r w => (r.CommitsAhead host ctx "main" "feature/lesson-branch" w).1.2),
   (lessonBranchBasics.commitMessageTag host,
      fun ctx r w => (r.LastCommitMessage host ctx w).1.2)]

end lessons

/-! ## Package `main`: the command line -/

namespace verifyui

/-- Go `verifyui.NewModel`, without the spinner. -/
def NewModel {W : Type} (lesson : lessons.Lesson W) (repo : Option gitutil.Repository) :
    Model W :=
  { lesson := lesson, repo := repo, results := [], width := 0, done := false }

end verifyui

namespace runui

/-- Go `runui.NewModel`, without the spinner. -/
def NewModel (script : run.Script) : Model :=
  { script := script, results := [], done := false, width := 0 }

end runui

namespace flag

/-- Go `flag.ErrHelp`. -/
def ErrHelp : GoError := GoError.errorString "flag: help requested"

end flag

namespace fmt

/-- The verb `%-20s` of Go `fmt`: the string, padded with spaces on the right
to a width of `width` characters. -/
def padRight (width : Nat) (s : String) : String :=
  s ++ String.mk (List.replicate (width - s.length) ' ')

end fmt

/-- Go `context.Background()`: a context that is never cancelled. -/
def Context.Background {W : Type} : Context W where
  Err := fun _ => none

namespace main

/-- The two output streams `os.Stdout` and `os.Stderr`. -/
inductive Stream where
  | stdout
  | stderr
  deriving DecidableEq, Repr

/-- What `fs.Parse(args)` leaves behind for the flag set of `handleVerify`:
the returned error, the value of the flag `path` and `fs.Args()`. -/
structure Parsed where
  err : Option GoError
  path : String
  remaining : List String
  deriving DecidableEq, Repr

/-- What the process, the flag package and the terminal library supply to
package `main`: the host of `gitutil`, the three version variables set at
build time, writing text to a stream, `fs.Parse` and `fs.PrintDefaults` of the
flag set of `handleVerify`, and `tea.NewProgram(model).Run()`, which gives the
state of the model when the program ends and the returned error. -/
structure Env (W : Type) where
  host : GitHost W
  Version : String
  Commit : String
  Date : String
  write : Stream → String → W → W
  flagParse : List String → W → Parsed × W
  printDefaults : W → W
  runVerifyUI : verifyui.Model W → W → (verifyui.Model W × Option GoError) × W
  runRunUI : runui.Model → W → (runui.Model × Option GoError) × W

/-- The text printed by `printUsage`. -/
def usageText : String :=
  "tscgit is a Git practice companion.\n\n" ++
  "Usage:\n" ++
  "  tscgit lessons             List available lessons\n" ++
  "  tscgit verify <lesson-id>  Verify lesson progress in the current repo\n" ++
  "  tscgit run <script-id>     Run terminal practice scripts\n" ++
  "  tscgit version             Show version information\n\n" ++
  "Flags:\n" ++
  "  tscgit verify [-path DIR] <lesson-id>\n\n"

/-- Go `main.printUsage`. -/
def printUsage {W : Type} (env : Env W) (w : W) : W :=
  env.write Stream.stdout usageText w

/-- Go `main.printVersion`. -/
def printVersion {W : Type} (env : Env W) (w : W) : W :=
  let w1 := env.write Stream.stdout ("tscgit version " ++ env.Version ++ "\n") w
  let w2 := env.write Stream.stdout ("commit: " ++ env.Commit ++ "\n") w1
  env.write Stream.stdout ("built: " ++ env.Date ++ "\n") w2

/-- What `printLessons` prints for one entry: the ID and title, and the
description when it is not blank. -/
def printLessons.entry {W : Type} (env : Env W) (id title description : String) (w : W) : W :=
  let w1 := env.write Stream.stdout ("  " ++ fmt.padRight 20 id ++ " " ++ title ++ "\n") w
  let desc := env.host.trimSpace description
  if desc ≠ "" then env.write Stream.stdout ("    " ++ desc ++ "\n") w1 else w1

/-- The loop over `lessons.List()` of `printLessons`; `false` when it meets a
nil lesson, which the Go code dereferences. -/
def printLessons.lessons {W : Type} (env : Env W) : List (Option (lessons.Lesson W)) → W →
    Bool × W
  | [], w => (true, w)
  | none :: _, w => (false, w)
  | some l :: rest, w =>
    printLessons.lessons env rest (printLessons.entry env l.ID l.Title l.Description w)

/-- The loop over `runlesson.List()` of `printLessons`; `false` when it meets
a nil script, which the Go code dereferences. -/
def printLessons.scripts {W : Type} (env : Env W) : List (Option run.Script) → W → Bool × W
  | [], w => (true, w)
  | none :: _, w => (false, w)
  | some sc :: rest, w =>
    printLessons.scripts env rest (printLessons.entry env sc.ID sc.Title sc.Description w)

/-- Go `main.printLessons`; `false` when it panics. -/
def printLessons {W : Type} (env : Env W) (cat : lessons.Catalog W) (reg : run.Registry)
    (w : W) : Bool × W :=
  let w1 := env.write Stream.stdout "Verification lessons:\n\n" w
  let r1 := printLessons.lessons env cat.List w1
  if r1.1 then
    let w2 := env.write Stream.stdout "\nRun lessons:\n\n" r1.2
    printLessons.scripts env reg.List w2
  else (false, r1.2)

/-- Go `main.handleVerify`: the exit code, `none` when the Go code panics
(a nil lesson returned with a nil error). -/
def handleVerify {W : Type} (env : Env W) (cat : lessons.Catalog W) (args : List String)
    (w : W) : Option Int × W :=
  let parsed := env.flagParse args w
  match parsed.1.err with
  | some err =>
    if err.Is flag.ErrHelp then (some 0, env.printDefaults parsed.2)
    else (some 1, parsed.2)
  | none =>
    match parsed.1.remaining with
    | [] =>
      (some 1, env.write Stream.stderr
        ("verify requires a lesson ID. Try 'tscgit lessons' to list available options." ++ "\n")
        parsed.2)
    | lessonID :: _ =>
      match cat.Get lessonID with
      | (_, some err) => (some 1, env.write Stream.stderr (err.Error ++ "\n") parsed.2)
      | (none, none) => (none, parsed.2)
      | (some lesson, none) =>
        let opened := gitutil.Open env.host Context.Background parsed.1.path parsed.2
        match opened.1.2 with
        | some err =>
          (some 1, env.write Stream.stderr
            ("failed to open git repository: " ++ err.Error ++ "\n") opened.2)
        | none =>
          let ui := env.runVerifyUI (verifyui.NewModel lesson opened.1.1) opened.2
          match ui.1.2 with
          | some err =>
            (some 1, env.write Stream.stderr
              ("verification UI failed: " ++ err.Error ++ "\n") ui.2)
          | none => if ui.1.1.AllPassed then (some 0, ui.2) else (some 2, ui.2)

/-- Go `main.handleRun`: the exit code, `none` when the Go code panics (an ID
bound to a nil script). -/
def handleRun {W : Type} (env : Env W) (reg : run.Registry) (args : List String) (w : W) :
    Option Int × W :=
  match args with
  | [] =>
    (some 1, env.write Stream.stderr
      ("run requires a script ID. Try 'tscgit lessons' to list available options." ++ "\n") w)
  | scriptID :: _ =>
    match reg.Get scriptID with
    | (_, false) =>
      (some 1, env.write Stream.stderr ("unknown run script: " ++ scriptID ++ "\n") w)
    | (none, true) => (none, w)
    | (some script, true) =>
      let ui := env.runRunUI (runui.NewModel script) w
      match ui.1.2 with
      | some err => (some 1, env.write Stream.stderr ("run UI failed: " ++ err.Error ++ "\n") ui.2)
      | none => if ui.1.1.AllPassed then (some 0, ui.2) else (some 2, ui.2)

/-- Go `main.run`, given the package variables of `lessons` and `run`: the
exit code, `none` when the Go code panics. -/
def run {W : Type} (env : Env W) (cat : lessons.Catalog W) (reg : run.Registry)
    (args : List String) (w : W) : Option Int × W :=
  match args with
  | [] => (some 1, printUsage env w)
  | cmd :: rest =>
    if cmd = "help" ∨ cmd = "--help" ∨ cmd = "-h" then (some 0, printUsage env w)
    else if cmd = "version" ∨ cmd = "--version" ∨ cmd = "-v" then (some 0, printVersion env w)
    else if cmd = "lessons" ∨ cmd = "list" then
      let printed := printLessons env cat reg w
      if printed.1 then (some 0, printed.2) else (none, printed.2)
    else if cmd = "verify" then handleVerify env cat rest w
    else if cmd = "run" then handleRun env reg rest w
    else
      (some 1, printUsage env (env.write Stream.stderr ("unknown command: " ++ cmd ++ "\n\n") w))

end main

/-! ## The terminal library, as the two models use it -/

/-- Go `context.DeadlineExceeded`. -/
def Context.DeadlineExceeded : GoError := GoError.errorString "context deadline exceeded"

/-- Go `context.WithTimeout(parent, timeout)` called in the world `w`, with
the clock `now` and the timeout in nanoseconds: cancelled when the parent is,
and when the clock has reached the deadline. -/
def Context.WithTimeout {W : Type} (now : W → Int) (parent : Context W) (timeout : Int)
    (w : W) : Context W where
  Err := fun w' =>
    match parent.Err w' with
    | some e => some e
    | none => if now w + timeout ≤ now w' then some Context.DeadlineExceeded else none

namespace lessons

/-- Go `lessons.TimeoutContext`, called in the world `w`: five seconds. -/
def TimeoutContext {W : Type} (now : W → Int) (w : W) : Context W :=
  Context.WithTimeout now Context.Background (5 * 1000000000) w

end lessons

namespace tea

/-- One command handed to the runtime of the terminal library: `tea.Quit`, a
command of the spinner (its `Tick`, or whatever its `Update` returned, which
may be nothing), or a function that the runtime runs and whose message it
feeds back to `Update`. -/
inductive Atom (W M : Type) where
  | quit
  | spinner
  | exec (run : W → M × W)

/-- Go `tea.Cmd`, given by the commands it stands for; nil is the empty
list. -/
abbrev Cmd (W M : Type) : Type := List (Atom W M)

/-- Go `tea.Quit`. -/
def Quit {W M : Type} : Cmd W M := [Atom.quit]

/-- Go `tea.Batch`: all the given commands; nil commands vanish. -/
def Batch {W M : Type} (cmds : List (Cmd W M)) : Cmd W M := cmds.flatten

/-- The functions among the commands of a `tea.Cmd`, which the runtime is
to run. -/
def execs {W M : Type} : Cmd W M → List (W → M × W)
  | [] => []
  | Atom.exec run :: rest => run :: execs rest
  | Atom.quit :: rest => execs rest
  | Atom.spinner :: rest => execs rest

/-- What happens next in a running program: the runtime runs one of the
pending functions and feeds its message to `Update`, or a message arrives from
the terminal, the spinner or elsewhere. -/
inductive Input where
  | deliver (index : Nat)
  | windowSize (width : Int)
  | spinnerTick
  | key (name : String)
  | other
  deriving DecidableEq, Repr

end tea

/-! ## Package `verifyui`: `Init` and `Update` -/

namespace verifyui

/-- The messages that `Update` tells apart: `tea.WindowSizeMsg` with its
width, `spinner.TickMsg`, `tea.KeyMsg` with its `String()`, `checkResultMsg`,
and any other message. -/
inductive Msg (W : Type) where
  | windowSize (width : Int)
  | spinnerTick
  | key (name : String)
  | checkResult (result : verify.Result W)
  | other

/-- The function returned by `runCheckCmd` for a check: run it under a
timeout context and report its result. -/
def runCheckCmd.run {W : Type} (now : W → Int) (check : lessons.Check W)
    (repo : Option gitutil.Repository) (w : W) : Msg W × W :=
  let ctx := lessons.TimeoutContext now w
  let start := now w
  let out := check.Verify ctx repo w
  (Msg.checkResult { Check := check, Outcome := out.1, Duration := now out.2 - start }, out.2)

/-- Go `verifyui.runCheckCmd`; the index is a length, hence not negative. -/
def runCheckCmd {W : Type} (now : W → Int) (lesson : lessons.Lesson W)
    (repo : Option gitutil.Repository) (index : Nat) : tea.Cmd W (Msg W) :=
  if h : index < lesson.Checks.length then
    [tea.Atom.exec (runCheckCmd.run now (lesson.Checks.get ⟨index, h⟩) repo)]
  else
    []

/-- Go `(*verifyui.Model).Init`: the model after the call and the returned
command. -/
def Model.Init {W : Type} (now : W → Int) (m : Model W) : Model W × tea.Cmd W (Msg W) :=
  if m.lesson.Checks.length = 0 then
    ({ m with done := true }, tea.Quit)
  else
    (m, tea.Batch [[tea.Atom.spinner], runCheckCmd now m.lesson m.repo m.results.length])

/-- Go `(*verifyui.Model).Update`: the model after the call and the returned
command. -/
def Model.Update {W : Type} (now : W → Int) (m : Model W) (msg : Msg W) :
    Model W × tea.Cmd W (Msg W) :=
  match msg with
  | Msg.windowSize width => ({ m with width := width }, [])
  | Msg.spinnerTick =>
    if m.done then (m, [])
    else (m, [tea.Atom.spinner])
  | Msg.key name =>
    if name = "ctrl+c" ∨ name = "q" ∨ name = "esc" then (m, tea.Quit)
    else if name = "enter" then
      if m.done then (m, tea.Quit) else (m, [])
    else (m, [])
  | Msg.checkResult result =>
    let m1 : Model W := { m with results := m.results ++ [result] }
    if m1.results.length = m1.lesson.Checks.length then
      ({ m1 with done := true }, tea.Quit)
    else
      (m1, tea.Batch [[tea.Atom.spinner], runCheckCmd now m1.lesson m1.repo m1.results.length])
  | Msg.other => (m, [])

/-- A running program of the terminal library: the model, the functions
issued by `Init` and `Update` that the runtime has not run yet, and the
world. -/
structure Session (W : Type) where
  model : Model W
  pending : List (W → Msg W × W)
  world : W

/-- The program after `Update` has handled a message. -/
def Session.feed {W : Type} (now : W → Int) (s : Session W) (msg : Msg W)
    (pending : List (W → Msg W × W)) (w : W) : Session W :=
  { model := (s.model.Update now msg).1,
    pending := pending ++ tea.execs (s.model.Update now msg).2,
    world := w }

/-- The program after `NewModel` and `Init`. -/
def Session.start {W : Type} (now : W → Int) (lesson : lessons.Lesson W)
    (repo : Option gitutil.Repository) (w : W) : Session W :=
  { model := ((NewModel lesson repo).Init now).1,
    pending := tea.execs ((NewModel lesson repo).Init now).2,
    world := w }

/-- One step of a running program. -/
def Session.step {W : Type} (now : W → Int) (s : Session W) : tea.Input → Session W
  | tea.Input.deliver index =>
    match s.pending.get? index with
    | none => s
    | some run =>
      s.feed now (run s.world).1 (s.pending.eraseIdx index) (run s.world).2
  | tea.Input.windowSize width => s.feed now (Msg.windowSize width) s.pending s.world
  | tea.Input.spinnerTick => s.feed now Msg.spinnerTick s.pending s.world
  | tea.Input.key name => s.feed now (Msg.key name) s.pending s.world
  | tea.Input.other => s.feed now Msg.other s.pending s.world

/-- The program after a sequence of steps. -/
def Session.run {W : Type} (now : W → Int) (s : Session W) (inputs : List tea.Input) :
    Session W :=
  inputs.foldl (Session.step now) s

/-- The invariant of a running program: the model still holds the lesson and
the repository it was made for, the only function still to be run is the one
for the check at index `len(results)` (none when there is no such check), the
results are those of the first checks in order, and `done` is set exactly
when there are as many results as checks. -/
def Session.Sound {W : Type} (now : W → Int) (lesson : lessons.Lesson W)
    (repo : Option gitutil.Repository) (s : Session W) : Prop :=
  s.model.lesson = lesson ∧ s.model.repo = repo ∧
  s.pending = tea.execs (runCheckCmd now lesson repo s.model.results.length) ∧
  s.model.results.map (fun r => r.Check) = lesson.Checks.take s.model.results.length ∧
  (s.model.done = true ↔ s.model.results.length = lesson.Checks.length)

end verifyui

/-! ## Package `runui`: `Init` and `Update` -/

namespace runui

/-- The messages that `Update` tells apart: `tea.WindowSizeMsg` with its
width, `spinner.TickMsg`, `tea.KeyMsg` with its `String()`, `stepResultMsg`,
and any other message. -/
inductive Msg where
  | windowSize (width : Int)
  | spinnerTick
  | key (name : String)
  | stepResult (result : run.StepResult)
  | other
  deriving DecidableEq, Repr

/-- The function returned by `runStepCmd` for a step: run it under a timeout
of fifteen seconds and report its result. -/
def runStepCmd.run {W : Type} (host : Host W) (step : run.Step) (w : W) : Msg × W :=
  let ctx := Context.WithTimeout host.now Context.Background (15 * 1000000000) w
  let result := run.RunStep host ctx step w
  (Msg.stepResult result.1, result.2)

/-- Go `runui.runStepCmd`; the index is a length, hence not negative. -/
def runStepCmd {W : Type} (host : Host W) (script : run.Script) (index : Nat) :
    tea.Cmd W Msg :=
  if h : index < script.Steps.length then
    [tea.Atom.exec (runStepCmd.run host (script.Steps.get ⟨index, h⟩))]
  else
    []

/-- Go `(*runui.Model).Init`: the model after the call and the returned
command. -/
def Model.Init {W : Type} (host : Host W) (m : Model) : Model × tea.Cmd W Msg :=
  if m.script.Steps.length = 0 then
    ({ m with done := true }, tea.Quit)
  else
    (m, tea.Batch [[tea.Atom.spinner], runStepCmd host m.script 0])

/-- Go `(*runui.Model).Update`: the model after the call and the returned
command. -/
def Model.Update {W : Type} (host : Host W) (m : Model) (msg : Msg) :
    Model × tea.Cmd W Msg :=
  match msg with
  | Msg.windowSize width => ({ m with width := width }, [])
  | Msg.spinnerTick =>
    if m.done then (m, [])
    else (m, [tea.Atom.spinner])
  | Msg.key name =>
    if name = "ctrl+c" ∨ name = "q" ∨ name = "esc" then (m, tea.Quit)
    else if name = "enter" then
      if m.done then (m, tea.Quit) else (m, [])
    else (m, [])
  | Msg.stepResult result =>
    let m1 : Model := { m with results := m.results ++ [result] }
    if m1.results.length = m1.script.Steps.length then
      ({ m1 with done := true }, tea.Quit)
    else
      (m1, tea.Batch [[tea.Atom.spinner], runStepCmd host m1.script m1.results.length])
  | Msg.other => (m, [])

/-- A running program of the terminal library: the model, the functions
issued by `Init` and `Update` that the runtime has not run yet, and the
world. -/
structure Session (W : Type) where
  model : Model
  pending : List (W → Msg × W)
  world : W

/-- The program after `Update` has handled a message. -/
def Session.feed {W : Type} (host : Host W) (s : Session W) (msg : Msg)
    (pending : List (W → Msg × W)) (w : W) : Session W :=
  { model := (s.model.Update host msg).1,
    pending := pending ++ tea.execs (s.model.Update host msg).2,
    world := w }

/-- The program after `NewModel` and `Init`. -/
def Session.start {W : Type} (host : Host W) (script : run.Script) (w : W) : Session W :=
  { model := ((NewModel script).Init host).1,
    pending := tea.execs ((NewModel script).Init host).2,
    world := w }

/-- One step of a running program: the runtime runs one of the pending
functions and feeds its message to `Update`, or a message arrives from the
terminal, the spinner or elsewhere. -/
def Session.step {W : Type} (host : Host W) (s : Session W) : tea.Input → Session W
  | tea.Input.deliver index =>
    match s.pending.get? index with
    | none => s
    | some run =>
      s.feed host (run s.world).1 (s.pending.eraseIdx index) (run s.world).2
  | tea.Input.windowSize width => s.feed host (Msg.windowSize width) s.pending s.world
  | tea.Input.spinnerTick => s.feed host Msg.spinnerTick s.pending s.world
  | tea.Input.key name => s.feed host (Msg.key name) s.pending s.world
  | tea.Input.other => s.feed host Msg.other s.pending s.world

/-- The program after a sequence of steps. -/
def Session.run {W : Type} (host : Host W) (s : Session W) (inputs : List tea.Input) :
    Session W :=
  inputs.foldl (Session.step host) s

/-- The invariant of a running program: the model still holds the script it
was made for, the only function still to be run is the one for the step at
index `len(results)` (none when there is no such step), the results are those
of the first steps in order, and `done` is set exactly when there are as many
results as steps. -/
def Session.Sound {W : Type} (host : Host W) (script : run.Script) (s : Session W) : Prop :=
  s.model.script = script ∧
  s.pending = tea.execs (runStepCmd host script s.model.results.length) ∧
  s.model.results.map (fun r => r.Step) = script.Steps.take s.model.results.length ∧
  (s.model.done = true ↔ s.model.results.length = script.Steps.length)

end runui

/-! ## Concrete hosts and inputs used to evaluate the definitions -/

namespace Examples

/-- A small world: the number of checks or commands run so far, which the
clock and the contexts below read, and the number of results an emitter has
been handed. -/
abbrev World : Type := Nat × Nat

/-- A shell whose command `exit N` exits with status `N` and whose
`echo 'T'` prints `T` and a newline: the captured stdout, the captured stderr
and the error returned by `exec.Cmd.Run`, which is nil for exit status 0, an
`*exec.ExitError` with text `exit status N` for another status, and another
error when the command cannot be started. -/
def shellOutput (args : List String) : String × String × Option GoError :=
  match args with
  | ["-c", "echo 'hello world'"] => ("hello world\n", "", none)
  | ["-c", "echo 'mismatch'"] => ("mismatch\n", "", none)
  | ["-c", "exit 3"] => ("", "", some (GoError.exitError (some 3) "exit status 3"))
  | ["-c", "exit 0"] => ("", "", none)
  | _ => ("", "", some (GoError.errorString "exec: not started"))

/-- A clock that ticks with the work done and a POSIX host with the shell
above. `quote` puts plain text between double quotes, as `%q` does. -/
def shellHost : Host World where
  now := fun w => (w.1 : Int)
  GOOS := "linux"
  lookPath := fun _ _ => false
  cmdRun := fun _ _ args w => (shellOutput args, (w.1 + 1, w.2))
  quote := fun s => "\"" ++ s ++ "\""

/-- Go `context.Background()`: never cancelled. -/
def background : Context World where
  Err := fun _ => none

/-- A context that is cancelled once `n` checks or commands have run. -/
def cancelledAfter (n : Nat) : Context World where
  Err := fun w => if n ≤ w.1 then some (GoError.errorString "context canceled") else none

/-- A context whose cancel function is called by the emitter when it is
handed its first result: cancelled once a result has been emitted. -/
def cancelledOnEmit : Context World where
  Err := fun w => if 1 ≤ w.2 then some (GoError.errorString "context canceled") else none

/-- The first check of `TestRunInvokesChecks`. -/
def passCheck : lessons.Check World where
  ID := "check-1"
  Title := "Pass"
  Description := ""
  Verify := fun _ _ w => ({ Passed := true, Message := "ok", Err := none }, (w.1 + 1, w.2))

/-- The second check of `TestRunInvokesChecks`. -/
def failCheck : lessons.Check World where
  ID := "check-2"
  Title := "Fail"
  Description := ""
  Verify := fun _ _ w => ({ Passed := false, Message := "nope", Err := none }, (w.1 + 1, w.2))

/-- The lesson of `TestRunInvokesChecks`. -/
def testLesson : lessons.Lesson World where
  ID := "test"
  Title := "Test Lesson"
  Description := ""
  Checks := [passCheck, failCheck]

/-- The repository of `TestRunInvokesChecks`. -/
def testRepo : gitutil.Repository where
  Root := ""

/-- An emitter that counts the results it is handed. -/
def countingEmitter {ρ : Type} : ρ → World → World :=
  fun _ w => (w.1, w.2 + 1)

/-- The step of `TestExecuteSuccess`. -/
def helloStep : run.Step where
  Command := "echo 'hello world'"
  ExpectExitCode := 0
  ExpectStdout := ["hello world"]

/-- The step of `TestExecuteFailureOnMissingStdout`. -/
def mismatchStep : run.Step where
  Command := "echo 'mismatch'"
  ExpectExitCode := 0
  ExpectStdout := ["expected"]

/-- A step whose command exits with status 3 and whose exit code is not to be
checked. -/
def exitUnchecked : run.Step where
  Command := "exit 3"
  ExpectExitCode := -1
  ExpectStdout := []

/-- A step whose command exits with status 3 while status 0 is expected. -/
def exitMismatch : run.Step where
  Command := "exit 3"
  ExpectExitCode := 0
  ExpectStdout := []

/-- A step whose command exits with status 3, the status it expects. -/
def exitExpected : run.Step where
  Command := "exit 3"
  ExpectExitCode := 3
  ExpectStdout := []

/-- A step whose command exits with status 0 while status 3 is expected. -/
def exitZeroMismatch : run.Step where
  Command := "exit 0"
  ExpectExitCode := 3
  ExpectStdout := []

/-- A script of two steps. -/
def testScript : run.Script where
  ID := "test"
  Title := "Test"
  Description := ""
  Steps := [helloStep, mismatchStep]

/-- A result whose check reported an error although `Passed` is set. -/
def erroredResult : verify.Result World where
  Check := passCheck
  Outcome := { Passed := true, Message := "", Err := some (GoError.errorString "git failed") }
  Duration := 0

/-- A host on which every git command fails the way git fails on `HEAD` in a
repository without commits, and on which no file can be inspected. -/
def emptyRepoHost : GitHost World where
  cmdRun := fun _ _ _ _ w =>
    (("", "fatal: ambiguous argument: unknown revision or path not in the working tree.",
      some (GoError.exitError (some 128) "exit status 128")), (w.1 + 1, w.2))
  stat := fun _ w => (some (GoError.errorString "permission denied"), w)
  isNotExist := fun _ => false
  getwd := fun w => (("/tmp", none), w)
  pathJoin := fun a b => a ++ "/" ++ b
  trimSpace := fun s => s
  equalFold := fun a b => decide (a = b)
  sscanD := fun _ => (0, some (GoError.errorString "EOF"))
  scanLines := fun _ => ([], none)
  quote := fun s => "\"" ++ s ++ "\""

/-- A command-line environment without flags, on the host above, whose
terminal programs end at once, leaving the model as it was. -/
def cliEnv : main.Env World where
  host := emptyRepoHost
  Version := "dev"
  Commit := "none"
  Date := "unknown"
  write := fun _ _ w => w
  flagParse := fun args w => ({ err := none, path := "", remaining := args }, w)
  printDefaults := fun w => w
  runVerifyUI := fun m w => ((m, none), w)
  runRunUI := fun m w => ((m, none), w)

/-- A lesson without checks. -/
def emptyLesson : lessons.Lesson World where
  ID := "empty"
  Title := "Empty"
  Description := ""
  Checks := []

/-- A script without steps. -/
def emptyScript : run.Script where
  ID := "empty"
  Title := "Empty"
  Description := ""
  Steps := []

/-- A step whose command cannot be started and whose expected output is
therefore missing. -/
def unstartedStep : run.Step where
  Command := "nonesuch"
  ExpectExitCode := 0
  ExpectStdout := ["hello", "world"]

/-- A lesson with the ID of `testLesson` and another title. -/
def duplicateLesson : lessons.Lesson World where
  ID := "test"
  Title := "Duplicate"
  Description := ""
  Checks := []

/-- A lesson with another ID. -/
def otherLesson : lessons.Lesson World where
  ID := "other"
  Title := "Other"
  Description := ""
  Checks := [passCheck]

/-- A script with the ID of `testScript` and another title. -/
def duplicateScript : run.Script where
  ID := "test"
  Title := "Duplicate"
  Description := ""
  Steps := []

/-- A script with another ID. -/
def otherScript : run.Script where
  ID := "other"
  Title := "Other"
  Description := ""
  Steps := [helloStep]

end Examples

/-! ## The sequential loop, once, for the proofs -/

namespace Seq

variable {W ι ρ : Type}

/-- The items executed, in order, according to a trace. -/
def calls : List (Event ι ρ) → List ι
  | [] => []
  | Event.call x :: t => x :: calls t
  | Event.emit _ :: t => calls t

/-- The results handed to the emitter, in order, according to a trace. -/
def emits : List (Event ι ρ) → List ρ
  | [] => []
  | Event.call _ :: t => emits t
  | Event.emit r :: t => r :: emits t

/-- The trace of a loop that executes an item, emits its result, and only
then turns to the next item. -/
def alternating (item : ρ → ι) : List ρ → List (Event ι ρ)
  | [] => []
  | r :: rs => Event.call (item r) :: Event.emit r :: alternating item rs

/-- One iteration of a sequential loop whose items are executed by `exec`. -/
def iteration (exec : ι → W → ρ × W) (emitter : Option (ρ → W → W))
    (s : LoopState W ι ρ) (x : ι) : LoopState W ι ρ :=
  match emitter with
  | some em =>
    { results := s.results ++ [(exec x s.world).1],
      world := em (exec x s.world).1 (exec x s.world).2,
      trace := s.trace ++ [Event.call x, Event.emit (exec x s.world).1] }
  | none =>
    { results := s.results ++ [(exec x s.world).1], world := (exec x s.world).2,
      trace := s.trace ++ [Event.call x] }

/-- A sequential loop with a cancellation check before every iteration. -/
def loop (cancelled : W → Option GoError) (it : LoopState W ι ρ → ι → LoopState W ι ρ) :
    List ι → LoopState W ι ρ → Outcome W ι ρ
  | [], s => { results := some s.results, err := none, world := s.world, trace := s.trace }
  | x :: rest, s =>
    match cancelled s.world with
    | some e => { results := some s.results, err := some e, world := s.world, trace := s.trace }
    | none => loop cancelled it rest (it s x)

end Seq

namespace verify

/-- How `verify.Run` executes one check in a world: the result it builds and
the world after the call of `Verify`. -/
def Run.exec {W : Type} (now : W → Int) (ctx : Context W) (repo : Option gitutil.Repository)
    (check : lessons.Check W) (w : W) : Result W × W :=
  ({ Check := check, Outcome := (check.Verify ctx repo w).1,
     Duration := now (check.Verify ctx repo w).2 - now w },
   (check.Verify ctx repo w).2)

/-- The state in which the loop of `verify.Run` reaches the cancellation
check made before the item of index `i` (counted from 0), when no earlier
cancellation check stopped it. -/
def Run.stateAt {W : Type} (now : W → Int) (ctx : Context W)
    (repo : Option gitutil.Repository) (emitter : Option (Emitter W))
    (checks : List (lessons.Check W)) (w : W) (i : Nat) :
    LoopState W (lessons.Check W) (Result W) :=
  (checks.take i).foldl (Run.iteration now ctx repo emitter)
    { results := [], world := w, trace := [] }

end verify

namespace run

/-- The state in which the loop of `run.Execute` reaches the cancellation
check made before the step of index `i` (counted from 0), when no earlier
cancellation check stopped it. -/
def Execute.stateAt {W : Type} (host : Host W) (ctx : Context W)
    (emitter : Option (StepResult → W → W)) (steps : List Step) (w : W) (i : Nat) :
    LoopState W Step StepResult :=
  (steps.take i).foldl (Execute.iteration host ctx emitter)
    { results := [], world := w, trace := [] }

end run

/-! ## A keyed store, once, for the proofs about both registries -/

namespace Keyed

variable {α : Type}

/-- A map from ID to pointer with the sorted list of its IDs. -/
structure Store (α : Type) where
  map : String → Option (Option α)
  order : List String

/-- Registration, as both registries do it: ignored for nil, for an empty ID
and for an ID that is bound already. -/
def add (key : α → String) (s : Store α) (x : Option α) : Store α :=
  match x with
  | none => s
  | some a =>
    if key a = "" then s
    else if (s.map (key a)).isSome then s
    else
      { map := fun id => if id = key a then some (some a) else s.map id,
        order := sort.Strings (s.order ++ [key a]) }

/-- The store after a sequence of registrations. -/
def addAll (key : α → String) (s : Store α) (calls : List (Option α)) : Store α :=
  calls.foldl (add key) s

/-- The values that a sequence of registrations puts into the store. -/
def taken (key : α → String) : List (Option α) → Store α → List α
  | [], _ => []
  | c :: cs, s =>
    match c with
    | some a =>
      if key a = "" then taken key cs (add key s c)
      else if (s.map (key a)).isSome then taken key cs (add key s c)
      else a :: taken key cs (add key s c)
    | none => taken key cs (add key s c)

/-- The values of the store in the order of its list of IDs. -/
def listing (s : Store α) : List (Option α) :=
  s.order.map (fun id => (s.map id).getD none)

end Keyed

namespace lessons

/-- The catalog as a keyed store. -/
def Catalog.toStore {W : Type} (s : Catalog W) : Keyed.Store (Lesson W) where
  map := s.catalog
  order := s.lessonOrder

end lessons

namespace run

/-- The registry as a keyed store. -/
def Registry.toStore (s : Registry) : Keyed.Store Script where
  map := s.registry
  order := s.scriptList

end run

/-! ## The sequential loop: lemmas -/

namespace Seq

variable {W ι ρ : Type}

theorem calls_append (t u : List (Event ι ρ)) : calls (t ++ u) = calls t ++ calls u := by
  induction t with
  | nil => rfl
  | cons e t ih => cases e <;> simp [calls, ih]

theorem emits_append (t u : List (Event ι ρ)) : emits (t ++ u) = emits t ++ emits u := by
  induction t with
  | nil => rfl
  | cons e t ih => cases e <;> simp [emits, ih]

theorem alternating_append (item : ρ → ι) (rs qs : List ρ) :
    alternating item (rs ++ qs) = alternating item rs ++ alternating item qs := by
  induction rs with
  | nil => rfl
  | cons r rs ih => simp [alternating, ih]

theorem calls_alternating (item : ρ → ι) (rs : List ρ) :
    calls (alternating item rs) = rs.map item := by
  induction rs with
  | nil => rfl
  | cons r rs ih => simp [alternating, calls, ih]

theorem emits_alternating (item : ρ → ι) (rs : List ρ) :
    emits (alternating item rs) = rs := by
  induction rs with
  | nil => rfl
  | cons r rs ih => simp [alternating, emits, ih]

/-- The loop runs through a first part of its items when none of the
cancellation checks made there fires. -/
theorem loop_append (cancelled : W → Option GoError)
    (it : LoopState W ι ρ → ι → LoopState W ι ρ) (pre post : List ι) (s : LoopState W ι ρ)
    (h : ∀ j, j < pre.length → cancelled ((pre.take j).foldl it s).world = none) :
    loop cancelled it (pre ++ post) s = loop cancelled it post (pre.foldl it s) := by
  induction pre generalizing s with
  | nil => rfl
  | cons x pre ih =>
    have h0 : cancelled s.world = none := by simpa using h 0 (by simp)
    have hs : ∀ j, j < pre.length → cancelled ((pre.take j).foldl it (it s x)).world = none := by
      intro j hj
      simpa using h (j + 1) (by simpa using hj)
    simp only [List.cons_append, loop, h0, List.foldl_cons]
    exact ih (it s x) hs

/-- The loop stops at the first cancellation check that fires. -/
theorem loop_cancelled (cancelled : W → Option GoError)
    (it : LoopState W ι ρ → ι → LoopState W ι ρ) (x : ι) (rest : List ι) (s : LoopState W ι ρ)
    (e : GoError) (h : cancelled s.world = some e) :
    loop cancelled it (x :: rest) s =
      { results := some s.results, err := some e, world := s.world, trace := s.trace } := by
  simp only [loop, h]

theorem foldl_snoc (it : LoopState W ι ρ → ι → LoopState W ι ρ) (xs : List ι) (x : ι)
    (s : LoopState W ι ρ) : (xs ++ [x]).foldl it s = it (xs.foldl it s) x := by
  simp

theorem iteration_results (exec : ι → W → ρ × W) (emitter : Option (ρ → W → W))
    (s : LoopState W ι ρ) (x : ι) :
    (iteration exec emitter s x).results = s.results ++ [(exec x s.world).1] := by
  cases emitter <;> rfl

theorem foldl_results_length (exec : ι → W → ρ × W) (emitter : Option (ρ → W → W))
    (xs : List ι) (s : LoopState W ι ρ) :
    (xs.foldl (iteration exec emitter) s).results.length = s.results.length + xs.length := by
  induction xs generalizing s with
  | nil => simp
  | cons x xs ih =>
    rw [List.foldl_cons, ih, iteration_results]
    simp only [List.length_append, List.length_cons, List.length_nil]
    omega

/-- The result at position `i` is the one produced for the item at position
`i`, executed in the world the loop had reached before that item. -/
theorem foldl_results_get (exec : ι → W → ρ × W) (emitter : Option (ρ → W → W))
    (xs : List ι) (s : LoopState W ι ρ) (i : Nat) (x : ι) (hx : xs[i]? = some x) :
    (xs.foldl (iteration exec emitter) s).results[s.results.length + i]? =
      some (exec x ((xs.take i).foldl (iteration exec emitter) s).world).1 := by
  induction xs using List.reverseRecOn generalizing i x with
  | nil => simp at hx
  | append_singleton xs y ih =>
    rw [foldl_snoc, iteration_results]
    have hlen := foldl_results_length exec emitter xs s
    by_cases hi : i < xs.length
    · have hx2 : xs[i]? = some x := by
        rw [List.getElem?_append_left hi] at hx
        exact hx
      rw [List.getElem?_append_left (by omega), ih i x hx2]
      rw [List.take_append_of_le_length (by omega)]
    · have hlt : i < (xs ++ [y]).length := by
        by_contra hc
        rw [List.getElem?_eq_none (by omega)] at hx
        exact Option.noConfusion hx
      have hieq : i = xs.length := by
        simp only [List.length_append, List.length_cons, List.length_nil] at hlt
        omega
      subst hieq
      have hxy : x = y := by
        simp at hx
        exact hx.symm
      subst hxy
      rw [List.getElem?_append_right (by omega)]
      have h0 : s.results.length + xs.length -
          (List.foldl (iteration exec emitter) s xs).results.length = 0 := by omega
      rw [h0]
      simp

theorem foldl_results_map (exec : ι → W → ρ × W) (emitter : Option (ρ → W → W))
    (item : ρ → ι) (hitem : ∀ x w, item (exec x w).1 = x)
    (xs : List ι) (s : LoopState W ι ρ) :
    (xs.foldl (iteration exec emitter) s).results.map item = s.results.map item ++ xs := by
  induction xs generalizing s with
  | nil => simp
  | cons x xs ih =>
    rw [List.foldl_cons, ih, iteration_results]
    simp [hitem]

/-- With an emitter, execution and emission alternate in the trace. -/
theorem foldl_trace_some (exec : ι → W → ρ × W) (em : ρ → W → W)
    (item : ρ → ι) (hitem : ∀ x w, item (exec x w).1 = x)
    (xs : List ι) (s : LoopState W ι ρ) (hs : s.trace = alternating item s.results) :
    (xs.foldl (iteration exec (some em)) s).trace =
      alternating item (xs.foldl (iteration exec (some em)) s).results := by
  induction xs generalizing s with
  | nil => simpa using hs
  | cons x xs ih =>
    rw [List.foldl_cons]
    apply ih
    simp [iteration, alternating_append, alternating, hs, hitem]

/-- Without an emitter, the trace holds the executions only. -/
theorem foldl_trace_none (exec : ι → W → ρ × W)
    (item : ρ → ι) (hitem : ∀ x w, item (exec x w).1 = x)
    (xs : List ι) (s : LoopState W ι ρ)
    (hs : s.trace = s.results.map (fun r => Event.call (item r))) :
    (xs.foldl (iteration exec none) s).trace =
      (xs.foldl (iteration exec none) s).results.map (fun r => Event.call (item r)) := by
  induction xs generalizing s with
  | nil => simpa using hs
  | cons x xs ih =>
    rw [List.foldl_cons]
    apply ih
    simp [iteration, hs, hitem]

theorem calls_map_call (item : ρ → ι) (rs : List ρ) :
    calls (rs.map (fun r => (Event.call (item r) : Event ι ρ))) = rs.map item := by
  induction rs with
  | nil => rfl
  | cons r rs ih => simp [calls, ih]

theorem emits_map_call (item : ρ → ι) (rs : List ρ) :
    emits (rs.map (fun r => (Event.call (item r) : Event ι ρ))) = [] := by
  induction rs with
  | nil => rfl
  | cons r rs ih => simp [emits, ih]

end Seq

/-! ## Both executors are instances of the sequential loop -/

namespace verify

theorem Run_iteration_eq {W : Type} (now : W → Int) (ctx : Context W)
    (repo : Option gitutil.Repository) (emitter : Option (Emitter W)) :
    Run.iteration now ctx repo emitter = Seq.iteration (Run.exec now ctx repo) emitter := by
  funext s check
  cases emitter <;> rfl

theorem Run_loop_eq {W : Type} (now : W → Int) (ctx : Context W)
    (repo : Option gitutil.Repository) (emitter : Option (Emitter W))
    (checks : List (lessons.Check W)) (s : LoopState W (lessons.Check W) (Result W)) :
    Run.loop now ctx repo emitter checks s =
      Seq.loop ctx.Err (Run.iteration now ctx repo emitter) checks s := by
  induction checks generalizing s with
  | nil => rfl
  | cons c rest ih =>
    simp only [Run.loop, Seq.loop]
    cases ctx.Err s.world with
    | none => exact ih _
    | some e => rfl

end verify

namespace run

theorem Execute_iteration_eq {W : Type} (host : Host W) (ctx : Context W)
    (emitter : Option (StepResult → W → W)) :
    Execute.iteration host ctx emitter = Seq.iteration (RunStep host ctx) emitter := by
  funext s step
  cases emitter <;> rfl

theorem Execute_loop_eq {W : Type} (host : Host W) (ctx : Context W)
    (emitter : Option (StepResult → W → W))
    (steps : List Step) (s : LoopState W Step StepResult) :
    Execute.loop host ctx emitter steps s =
      Seq.loop ctx.Err (Execute.iteration host ctx emitter) steps s := by
  induction steps generalizing s with
  | nil => rfl
  | cons c rest ih =>
    simp only [Execute.loop, Seq.loop]
    cases ctx.Err s.world with
    | none => exact ih _
    | some e => rfl

theorem RunStep_step {W : Type} (host : Host W) (ctx : Context W) (step : Step) (w : W) :
    (RunStep host ctx step w).1.Step = step := by
  have h : ∀ (l : List String) (r : StepResult),
      (l.foldl (RunStep.expect host) r).Step = r.Step := by
    intro l
    induction l with
    | nil => intro r; rfl
    | cons e l ih =>
      intro r
      rw [List.foldl_cons, ih]
      unfold RunStep.expect
      split <;> rfl
  simp only [RunStep]
  rw [h]
  split
  · split <;> rfl
  · rfl

theorem expect_foldl_stdout {W : Type} (host : Host W) (l : List String) (r : StepResult) :
    (l.foldl (RunStep.expect host) r).Stdout = r.Stdout := by
  induction l generalizing r with
  | nil => rfl
  | cons e l ih =>
    rw [List.foldl_cons, ih]
    unfold RunStep.expect
    split <;> rfl

theorem expect_foldl_execError {W : Type} (host : Host W) (l : List String) (r : StepResult) :
    (l.foldl (RunStep.expect host) r).ExecError = r.ExecError := by
  induction l generalizing r with
  | nil => rfl
  | cons e l ih =>
    rw [List.foldl_cons, ih]
    unfold RunStep.expect
    split <;> rfl

/-- The loop over `ExpectStdout` appends one reason for each expected string
that the captured stdout does not contain, in order, and nothing else. -/
theorem expect_foldl_failures {W : Type} (host : Host W) (l : List String) (r : StepResult) :
    (l.foldl (RunStep.expect host) r).Failures =
      r.Failures ++ (l.filter (fun e => !strings.Contains r.Stdout e)).map
        (fun e => "stdout missing " ++ host.quote e) := by
  induction l generalizing r with
  | nil => simp
  | cons e l ih =>
    rw [List.foldl_cons, ih]
    unfold RunStep.expect
    by_cases hc : strings.Contains r.Stdout e = true
    · simp [hc]
    · simp [hc]

/-- The reasons recorded by the exit-status block of `RunStep`. -/
theorem RunStep_failures {W : Type} (host : Host W) (ctx : Context W) (step : Step) (w : W) :
    (RunStep host ctx step w).1.Failures =
      (match (runCommand host ctx step.Command w).1.err with
        | none =>
          if step.ExpectExitCode ≥ 0 ∧
              step.ExpectExitCode ≠ (runCommand host ctx step.Command w).1.exitCode then
            ["expected exit code " ++ fmt.verbD step.ExpectExitCode ++ ", got "
              ++ fmt.verbD (runCommand host ctx step.Command w).1.exitCode]
          else []
        | some execErr => [execErr.Error]) ++
      (step.ExpectStdout.filter
          (fun e => !strings.Contains (runCommand host ctx step.Command w).1.stdout e)).map
        (fun e => "stdout missing " ++ host.quote e) := by
  simp only [RunStep]
  rw [expect_foldl_failures]
  cases hE : (runCommand host ctx step.Command w).1.err with
  | none =>
    simp only []
    split <;> simp
  | some e => simp

theorem RunStep_passed {W : Type} (host : Host W) (ctx : Context W) (step : Step) (w : W) :
    (RunStep host ctx step w).1.Passed = ((RunStep host ctx step w).1.Failures.length == 0) :=
  rfl

theorem RunStep_execError {W : Type} (host : Host W) (ctx : Context W) (step : Step) (w : W) :
    (RunStep host ctx step w).1.ExecError = (runCommand host ctx step.Command w).1.err := by
  simp only [RunStep]
  rw [expect_foldl_execError]
  split
  · split <;> rfl
  · rfl

theorem RunStep_stdout {W : Type} (host : Host W) (ctx : Context W) (step : Step) (w : W) :
    (RunStep host ctx step w).1.Stdout = (runCommand host ctx step.Command w).1.stdout := by
  simp only [RunStep]
  rw [expect_foldl_stdout]
  split
  · split <;> rfl
  · rfl

theorem runCommand_exitCode {W : Type} (host : Host W) (ctx : Context W) (command : String)
    (w : W) :
    (runCommand host ctx command w).1.exitCode =
      exitStatus (runCommand host ctx command w).1.err :=
  rfl

end run

namespace strings

/-- `Contains` decides whether `substr` is a contiguous part of `s`. -/
theorem Contains_iff (s substr : String) :
    Contains s substr = true ↔ substr.data <:+: s.data := by
  unfold Contains
  rw [List.any_eq_true]
  constructor
  · rintro ⟨t, ht, hp⟩
    rw [List.mem_tails] at ht
    rw [List.isPrefixOf_iff_prefix] at hp
    exact List.infix_iff_prefix_suffix.2 ⟨t, hp, ht⟩
  · intro h
    obtain ⟨t, hp, ht⟩ := List.infix_iff_prefix_suffix.1 h
    exact ⟨t, (List.mem_tails _ _).2 ht, List.isPrefixOf_iff_prefix.2 hp⟩

end strings

/-! ## How far the loop gets -/

namespace Seq

variable {W ι ρ : Type}

/-- The loop gets to item `m` when none of the cancellation checks made
before the items in front of it fires. -/
theorem loop_run_to (cancelled : W → Option GoError)
    (it : LoopState W ι ρ → ι → LoopState W ι ρ) (xs : List ι) (s : LoopState W ι ρ) (m : Nat)
    (h : ∀ j, j < m → cancelled ((xs.take j).foldl it s).world = none) :
    loop cancelled it xs s = loop cancelled it (xs.drop m) ((xs.take m).foldl it s) := by
  have key := loop_append cancelled it (xs.take m) (xs.drop m) s (by
    intro j hj
    rw [List.length_take] at hj
    have hjm : j < m := lt_of_lt_of_le hj (min_le_left _ _)
    rw [List.take_take, min_eq_left (le_of_lt hjm)]
    exact h j hjm)
  rwa [List.take_append_drop] at key

theorem loop_complete (cancelled : W → Option GoError)
    (it : LoopState W ι ρ → ι → LoopState W ι ρ) (xs : List ι) (s : LoopState W ι ρ)
    (h : ∀ j, j < xs.length → cancelled ((xs.take j).foldl it s).world = none) :
    loop cancelled it xs s =
      { results := some (xs.foldl it s).results, err := none,
        world := (xs.foldl it s).world, trace := (xs.foldl it s).trace } := by
  have key := loop_run_to cancelled it xs s xs.length h
  rw [List.drop_length, List.take_length] at key
  rw [key]
  rfl

theorem loop_stops_at (cancelled : W → Option GoError)
    (it : LoopState W ι ρ → ι → LoopState W ι ρ) (xs : List ι) (s : LoopState W ι ρ) (m : Nat)
    (e : GoError) (hm : m < xs.length)
    (h : ∀ j, j < m → cancelled ((xs.take j).foldl it s).world = none)
    (hat : cancelled ((xs.take m).foldl it s).world = some e) :
    loop cancelled it xs s =
      { results := some ((xs.take m).foldl it s).results, err := some e,
        world := ((xs.take m).foldl it s).world, trace := ((xs.take m).foldl it s).trace } := by
  rw [loop_run_to cancelled it xs s m h, List.drop_eq_getElem_cons hm]
  exact loop_cancelled cancelled it _ _ _ e hat

/-- Cancelled or not, the loop returns the state it had reached before some
item, or after the last one. -/
theorem loop_exists_stop (cancelled : W → Option GoError)
    (it : LoopState W ι ρ → ι → LoopState W ι ρ) (xs : List ι) (s : LoopState W ι ρ) :
    ∃ m, m ≤ xs.length ∧
      (loop cancelled it xs s).results = some ((xs.take m).foldl it s).results ∧
      (loop cancelled it xs s).world = ((xs.take m).foldl it s).world ∧
      (loop cancelled it xs s).trace = ((xs.take m).foldl it s).trace := by
  induction xs generalizing s with
  | nil => exact ⟨0, le_refl _, rfl, rfl, rfl⟩
  | cons x xs ih =>
    cases hc : cancelled s.world with
    | some e =>
      refine ⟨0, Nat.zero_le _, ?_, ?_, ?_⟩ <;> simp [loop, hc]
    | none =>
      obtain ⟨m, hm, h1, h2, h3⟩ := ih (it s x)
      refine ⟨m + 1, by simpa using hm, ?_, ?_, ?_⟩
      · simpa [loop, hc] using h1
      · simpa [loop, hc] using h2
      · simpa [loop, hc] using h3

theorem take_foldl_results_get (exec : ι → W → ρ × W) (emitter : Option (ρ → W → W))
    (xs : List ι) (w : W) (m i : Nat) (x : ι) (hi : i < m) (hx : xs[i]? = some x) :
    ((xs.take m).foldl (iteration exec emitter)
        { results := [], world := w, trace := [] }).results[i]? =
      some (exec x ((xs.take i).foldl (iteration exec emitter)
        { results := [], world := w, trace := [] }).world).1 := by
  have key := foldl_results_get exec emitter (xs.take m)
    { results := [], world := w, trace := [] } i x (by
      rw [List.getElem?_take_of_lt hi]
      exact hx)
  rw [List.take_take, min_eq_left (le_of_lt hi)] at key
  simpa using key

theorem take_foldl_results_length (exec : ι → W → ρ × W) (emitter : Option (ρ → W → W))
    (xs : List ι) (w : W) (m : Nat) (hm : m ≤ xs.length) :
    ((xs.take m).foldl (iteration exec emitter)
        { results := [], world := w, trace := [] }).results.length = m := by
  rw [foldl_results_length, List.length_take, min_eq_left hm]
  simp

theorem foldl_calls (exec : ι → W → ρ × W) (emitter : Option (ρ → W → W))
    (xs : List ι) (s : LoopState W ι ρ) :
    calls (xs.foldl (iteration exec emitter) s).trace = calls s.trace ++ xs := by
  induction xs generalizing s with
  | nil => simp
  | cons x xs ih =>
    rw [List.foldl_cons, ih]
    cases emitter <;> simp [iteration, calls_append, calls]

/-- Whether or not results are emitted, the same results are returned when
nothing that the cancellation check and the execution of an item read is
changed by the emitter. -/
theorem loop_emitter_irrelevant {V : Type} (view : W → V) (cancelled : W → Option GoError)
    (exec : ι → W → ρ × W) (em : ρ → W → W) (xs : List ι)
    (hc : ∀ w w', view w = view w' → cancelled w = cancelled w')
    (hexec : ∀ x ∈ xs, ∀ w w', view w = view w' →
      (exec x w).1 = (exec x w').1 ∧ view (exec x w).2 = view (exec x w').2)
    (hem : ∀ r w, view (em r w) = view w)
    (s s' : LoopState W ι ρ) (hr : s.results = s'.results)
    (hw : view s.world = view s'.world) :
    (loop cancelled (iteration exec none) xs s).results =
      (loop cancelled (iteration exec (some em)) xs s').results ∧
    (loop cancelled (iteration exec none) xs s).err =
      (loop cancelled (iteration exec (some em)) xs s').err := by
  induction xs generalizing s s' with
  | nil => simp [loop, hr]
  | cons x xs ih =>
    have hcs := hc _ _ hw
    cases hs : cancelled s'.world with
    | some e =>
      rw [hs] at hcs
      simp [loop, hs, hcs, hr]
    | none =>
      rw [hs] at hcs
      simp only [loop, hs, hcs]
      have hx := hexec x (List.mem_cons_self _ _) _ _ hw
      apply ih (fun y hy => hexec y (List.mem_cons_of_mem _ hy))
      · simp [iteration, hr, hx.1]
      · simp only [iteration]
        rw [hem]
        exact hx.2

end Seq

/-! ## The states of the two executors -/

namespace verify

theorem Run_exec_check {W : Type} (now : W → Int) (ctx : Context W)
    (repo : Option gitutil.Repository) (check : lessons.Check W) (w : W) :
    (Run.exec now ctx repo check w).1.Check = check :=
  rfl

theorem Run_eq_loop {W : Type} (now : W → Int) (ctx : Context W) (lesson : lessons.Lesson W)
    (repo : gitutil.Repository) (emitter : Option (Emitter W)) (w : W) :
    Run now ctx (some lesson) (some repo) emitter w =
      Seq.loop ctx.Err (Seq.iteration (Run.exec now ctx (some repo)) emitter) lesson.Checks
        { results := [], world := w, trace := [] } := by
  simp only [Run]
  rw [Run_loop_eq, Run_iteration_eq]

theorem Run_stateAt_eq {W : Type} (now : W → Int) (ctx : Context W)
    (repo : Option gitutil.Repository) (emitter : Option (Emitter W))
    (checks : List (lessons.Check W)) (w : W) (i : Nat) :
    Run.stateAt now ctx repo emitter checks w i =
      (checks.take i).foldl (Seq.iteration (Run.exec now ctx repo) emitter)
        { results := [], world := w, trace := [] } := by
  simp only [Run.stateAt]
  rw [Run_iteration_eq]

end verify

namespace run

theorem Execute_eq_loop {W : Type} (host : Host W) (ctx : Context W) (script : Script)
    (emitter : Option (StepResult → W → W)) (w : W) :
    Execute host ctx (some script) emitter w =
      Seq.loop ctx.Err (Seq.iteration (RunStep host ctx) emitter) script.Steps
        { results := [], world := w, trace := [] } := by
  simp only [Execute]
  rw [Execute_loop_eq, Execute_iteration_eq]

theorem Execute_stateAt_eq {W : Type} (host : Host W) (ctx : Context W)
    (emitter : Option (StepResult → W → W)) (steps : List Step) (w : W) (i : Nat) :
    Execute.stateAt host ctx emitter steps w i =
      (steps.take i).foldl (Seq.iteration (RunStep host ctx) emitter)
        { results := [], world := w, trace := [] } := by
  simp only [Execute.stateAt]
  rw [Execute_iteration_eq]

end run

/-! ## Result aggregation -/

namespace verifyui

theorem checks_loop_iff {W : Type} (rs : List (verify.Result W)) :
    Model.AllPassed.loop rs = true ↔
      ∀ r ∈ rs, r.Outcome.Passed = true ∧ r.Outcome.Err = none := by
  induction rs with
  | nil => simp [Model.AllPassed.loop]
  | cons r rs ih =>
    unfold Model.AllPassed.loop
    cases hp : r.Outcome.Passed <;> cases he : r.Outcome.Err <;> simp [hp, he, ih]

end verifyui

namespace runui

theorem steps_loop_iff (rs : List run.StepResult) :
    Model.AllPassed.loop rs = true ↔ ∀ r ∈ rs, r.Passed = true := by
  induction rs with
  | nil => simp [Model.AllPassed.loop]
  | cons r rs ih =>
    unfold Model.AllPassed.loop
    cases hp : r.Passed <;> simp [hp, ih]

end runui

/-! ## The keyed store: lemmas -/

namespace sort

theorem Strings_perm (l : List String) : (Strings l).Perm l :=
  List.perm_insertionSort _ l

theorem Strings_sorted (l : List String) : (Strings l).Sorted (fun a b => a ≤ b) :=
  List.sorted_insertionSort _ l

end sort

namespace Keyed

variable {α : Type}

theorem add_none (key : α → String) (s : Store α) : add key s none = s := rfl

theorem add_of_empty_key (key : α → String) (s : Store α) (a : α) (h : key a = "") :
    add key s (some a) = s := by
  simp [add, h]

theorem add_of_bound (key : α → String) (s : Store α) (a : α)
    (h : (s.map (key a)).isSome = true) : add key s (some a) = s := by
  simp [add, h]

theorem add_of_fresh (key : α → String) (s : Store α) (a : α) (hk : key a ≠ "")
    (h : s.map (key a) = none) :
    add key s (some a) =
      { map := fun id => if id = key a then some (some a) else s.map id,
        order := sort.Strings (s.order ++ [key a]) } := by
  simp [add, hk, h]

/-- A bound ID keeps its value. -/
theorem add_map_of_bound (key : α → String) (s : Store α) (c : Option α) (id : String)
    (h : (s.map id).isSome = true) : (add key s c).map id = s.map id := by
  cases c with
  | none => rfl
  | some a =>
    by_cases hk : key a = ""
    · rw [add_of_empty_key key s a hk]
    · by_cases hb : (s.map (key a)).isSome = true
      · rw [add_of_bound key s a hb]
      · have hn : s.map (key a) = none := by
          cases hm : s.map (key a) with
          | none => rfl
          | some v => simp [hm] at hb
        rw [add_of_fresh key s a hk hn]
        have hne : id ≠ key a := by
          intro he
          rw [he, hn] at h
          exact Bool.noConfusion h
        simp [hne]

theorem addAll_map_of_bound (key : α → String) (calls : List (Option α)) (s : Store α)
    (id : String) (h : (s.map id).isSome = true) : (addAll key s calls).map id = s.map id := by
  induction calls generalizing s with
  | nil => rfl
  | cons c cs ih =>
    have h1 := add_map_of_bound key s c id h
    have h2 : ((add key s c).map id).isSome = true := by rw [h1]; exact h
    simp only [addAll, List.foldl_cons] at ih ⊢
    rw [ih (add key s c) h2, h1]

theorem addAll_cons (key : α → String) (c : Option α) (cs : List (Option α)) (s : Store α) :
    addAll key s (c :: cs) = addAll key (add key s c) cs := rfl

theorem addAll_append (key : α → String) (cs ds : List (Option α)) (s : Store α) :
    addAll key s (cs ++ ds) = addAll key (addAll key s cs) ds := by
  simp [addAll, List.foldl_append]

theorem taken_cons_fresh (key : α → String) (a : α) (cs : List (Option α)) (s : Store α)
    (hk : key a ≠ "") (h : s.map (key a) = none) :
    taken key (some a :: cs) s = a :: taken key cs (add key s (some a)) := by
  simp [taken, hk, h]

theorem taken_cons_stale (key : α → String) (c : Option α) (cs : List (Option α))
    (s : Store α) (h : ∀ a, c = some a → ¬ (key a ≠ "" ∧ s.map (key a) = none)) :
    taken key (c :: cs) s = taken key cs s ∧ add key s c = s := by
  cases c with
  | none => exact ⟨rfl, rfl⟩
  | some a =>
    have hn := h a rfl
    have hadd : add key s (some a) = s := by
      by_cases hk : key a = ""
      · exact add_of_empty_key key s a hk
      · apply add_of_bound
        cases hm : s.map (key a) with
        | none => exact absurd ⟨hk, hm⟩ hn
        | some v => rfl
    refine ⟨?_, hadd⟩
    simp only [taken]
    rw [hadd]
    by_cases hk : key a = ""
    · rw [if_pos hk]
    · rw [if_neg hk]
      cases hm : s.map (key a) with
      | none => exact absurd ⟨hk, hm⟩ hn
      | some v => simp

/-- Case analysis on one registration: it is either fresh or ignored. -/
theorem fresh_or_stale (key : α → String) (c : Option α) (s : Store α) :
    (∃ a, c = some a ∧ key a ≠ "" ∧ s.map (key a) = none) ∨
    (∀ a, c = some a → ¬ (key a ≠ "" ∧ s.map (key a) = none)) := by
  cases c with
  | none => right; intro a h; exact Option.noConfusion h
  | some a =>
    by_cases h : key a ≠ "" ∧ s.map (key a) = none
    · exact Or.inl ⟨a, rfl, h.1, h.2⟩
    · right
      intro b hb
      cases hb
      exact h

theorem add_fresh_map_self (key : α → String) (s : Store α) (a : α) (hk : key a ≠ "")
    (h : s.map (key a) = none) : (add key s (some a)).map (key a) = some (some a) := by
  rw [add_of_fresh key s a hk h]
  simp

theorem add_fresh_map_other (key : α → String) (s : Store α) (a : α) (hk : key a ≠ "")
    (h : s.map (key a) = none) (id : String) (hne : id ≠ key a) :
    (add key s (some a)).map id = s.map id := by
  rw [add_of_fresh key s a hk h]
  simp [hne]

/-- An ID that is unbound after a registration was unbound before it. -/
theorem map_none_of_add (key : α → String) (s : Store α) (c : Option α) (id : String)
    (h : (add key s c).map id = none) : s.map id = none := by
  cases hm : s.map id with
  | none => rfl
  | some v =>
    have hb : (s.map id).isSome = true := by rw [hm]; rfl
    rw [add_map_of_bound key s c id hb, hm] at h
    exact Option.noConfusion h

/-- A value is taken only under a non-empty ID that was unbound at the
start. -/
theorem taken_fresh (key : α → String) (calls : List (Option α)) (s : Store α) (a : α)
    (h : a ∈ taken key calls s) : key a ≠ "" ∧ s.map (key a) = none := by
  induction calls generalizing s with
  | nil => simp [taken] at h
  | cons c cs ih =>
    rcases fresh_or_stale key c s with ⟨b, rfl, hk, hb⟩ | hst
    · rw [taken_cons_fresh key b cs s hk hb] at h
      rcases List.mem_cons.1 h with rfl | h'
      · exact ⟨hk, hb⟩
      · have := ih _ h'
        exact ⟨this.1, map_none_of_add key s _ _ this.2⟩
    · rw [(taken_cons_stale key c cs s hst).1] at h
      exact ih s h

theorem taken_keys_nodup (key : α → String) (calls : List (Option α)) (s : Store α) :
    ((taken key calls s).map key).Nodup := by
  induction calls generalizing s with
  | nil => simp [taken]
  | cons c cs ih =>
    rcases fresh_or_stale key c s with ⟨b, rfl, hk, hb⟩ | hst
    · rw [taken_cons_fresh key b cs s hk hb, List.map_cons, List.nodup_cons]
      refine ⟨?_, ih _⟩
      intro hmem
      obtain ⟨a, ha, hab⟩ := List.mem_map.1 hmem
      have hfree := (taken_fresh key cs _ a ha).2
      rw [hab, add_fresh_map_self key s b hk hb] at hfree
      exact Option.noConfusion hfree
    · rw [(taken_cons_stale key c cs s hst).1]
      exact ih s

/-- A taken value is what its ID is bound to in the end. -/
theorem taken_bound (key : α → String) (calls : List (Option α)) (s : Store α) (a : α)
    (h : a ∈ taken key calls s) : (addAll key s calls).map (key a) = some (some a) := by
  induction calls generalizing s with
  | nil => simp [taken] at h
  | cons c cs ih =>
    rw [addAll_cons]
    rcases fresh_or_stale key c s with ⟨b, rfl, hk, hb⟩ | hst
    · rw [taken_cons_fresh key b cs s hk hb] at h
      rcases List.mem_cons.1 h with rfl | h'
      · have hself := add_fresh_map_self key s a hk hb
        rw [addAll_map_of_bound key cs _ _ (by rw [hself]; rfl), hself]
      · exact ih _ h'
    · rw [(taken_cons_stale key c cs s hst).1] at h
      rw [(taken_cons_stale key c cs s hst).2]
      exact ih s h

/-- An ID under which nothing is taken keeps what it was bound to. -/
theorem addAll_map_of_not_taken (key : α → String) (calls : List (Option α)) (s : Store α)
    (id : String) (h : ∀ a ∈ taken key calls s, key a ≠ id) :
    (addAll key s calls).map id = s.map id := by
  induction calls generalizing s with
  | nil => rfl
  | cons c cs ih =>
    rw [addAll_cons]
    rcases fresh_or_stale key c s with ⟨b, rfl, hk, hb⟩ | hst
    · rw [taken_cons_fresh key b cs s hk hb] at h
      have hne : id ≠ key b := fun he => h b (List.mem_cons_self _ _) he.symm
      rw [ih _ (fun a ha => h a (List.mem_cons_of_mem _ ha))]
      exact add_fresh_map_other key s b hk hb id hne
    · rw [(taken_cons_stale key c cs s hst).1] at h
      rw [(taken_cons_stale key c cs s hst).2]
      exact ih s h

theorem addAll_order_perm (key : α → String) (calls : List (Option α)) (s : Store α) :
    (addAll key s calls).order.Perm (s.order ++ (taken key calls s).map key) := by
  induction calls generalizing s with
  | nil => simp [addAll, taken]
  | cons c cs ih =>
    rw [addAll_cons]
    rcases fresh_or_stale key c s with ⟨b, rfl, hk, hb⟩ | hst
    · rw [taken_cons_fresh key b cs s hk hb]
      refine (ih _).trans ?_
      rw [add_of_fresh key s b hk hb]
      simp only [List.map_cons]
      have h1 := (sort.Strings_perm (s.order ++ [key b])).append_right
        ((taken key cs (add key s (some b))).map key)
      rw [add_of_fresh key s b hk hb] at h1
      refine h1.trans ?_
      simp
    · rw [(taken_cons_stale key c cs s hst).1, (taken_cons_stale key c cs s hst).2]
      exact ih s

theorem addAll_order_sorted (key : α → String) (calls : List (Option α)) (s : Store α)
    (hs : s.order.Sorted (fun a b => a ≤ b)) :
    (addAll key s calls).order.Sorted (fun a b => a ≤ b) := by
  induction calls generalizing s with
  | nil => exact hs
  | cons c cs ih =>
    rw [addAll_cons]
    apply ih
    rcases fresh_or_stale key c s with ⟨b, rfl, hk, hb⟩ | hst
    · rw [add_of_fresh key s b hk hb]
      exact sort.Strings_sorted _
    · rw [(taken_cons_stale key c cs s hst).2]
      exact hs

theorem taken_append (key : α → String) (cs ds : List (Option α)) (s : Store α) :
    taken key (cs ++ ds) s = taken key cs s ++ taken key ds (addAll key s cs) := by
  induction cs generalizing s with
  | nil => rfl
  | cons c cs ih =>
    rw [List.cons_append, addAll_cons]
    rcases fresh_or_stale key c s with ⟨b, rfl, hk, hb⟩ | hst
    · rw [taken_cons_fresh key b _ s hk hb, taken_cons_fresh key b _ s hk hb, ih]
      rfl
    · rw [(taken_cons_stale key c _ s hst).1, (taken_cons_stale key c _ s hst).1,
        (taken_cons_stale key c cs s hst).2]
      exact ih s

/-- A list of lookups that all succeed is a list of values. -/
theorem exists_values (key : α → String) (f : String → Option α) (ids : List String)
    (h : ∀ id ∈ ids, ∃ a, f id = some a ∧ key a = id) :
    ∃ ls : List α, ids.map f = ls.map some ∧ ls.map key = ids := by
  induction ids with
  | nil => exact ⟨[], rfl, rfl⟩
  | cons id ids ih =>
    obtain ⟨a, ha, hk⟩ := h id (List.mem_cons_self _ _)
    obtain ⟨ls, h1, h2⟩ := ih (fun i hi => h i (List.mem_cons_of_mem _ hi))
    exact ⟨a :: ls, by simp [ha, h1], by simp [hk, h2]⟩

/-- Starting from the empty store, the listing holds exactly the taken
values, each once, in strictly ascending order of their IDs. -/
theorem listing_addAll_empty (key : α → String) (calls : List (Option α)) :
    (listing (addAll key { map := fun _ => none, order := [] } calls)).Perm
      ((taken key calls { map := fun _ => none, order := [] }).map some) ∧
    ((taken key calls { map := fun _ => none, order := [] }).map key).Nodup ∧
    ∃ ls : List α,
      listing (addAll key { map := fun _ => none, order := [] } calls) = ls.map some ∧
      ls.map key = (addAll key { map := fun _ => none, order := [] } calls).order ∧
      (ls.map key).Sorted (fun a b => a < b) := by
  have hperm := addAll_order_perm key calls { map := fun _ => none, order := [] }
  simp only [List.nil_append] at hperm
  have hnodup := taken_keys_nodup key calls { map := fun _ => none, order := [] }
  have hsorted := addAll_order_sorted key calls { map := fun _ => none, order := [] }
    List.sorted_nil
  refine ⟨?_, hnodup, ?_⟩
  · have h1 := hperm.map
      (fun id => ((addAll key { map := fun _ => none, order := [] } calls).map id).getD none)
    refine h1.trans ?_
    rw [List.map_map]
    apply List.Perm.of_eq
    apply List.map_congr_left
    intro a ha
    simp [taken_bound key calls _ a ha]
  · obtain ⟨ls, h1, h2⟩ := exists_values key
      (fun id => ((addAll key { map := fun _ => none, order := [] } calls).map id).getD none)
      (addAll key { map := fun _ => none, order := [] } calls).order (by
        intro id hid
        obtain ⟨a, ha, hka⟩ := List.mem_map.1 (hperm.subset hid)
        exact ⟨a, by simp [← hka, taken_bound key calls _ a ha], hka⟩)
    refine ⟨ls, h1, h2, ?_⟩
    rw [h2]
    exact hsorted.lt_of_le (hperm.nodup_iff.2 hnodup)

/-- Starting from the empty store, the IDs listed are the IDs bound. -/
theorem mem_order_iff_bound (key : α → String) (calls : List (Option α)) (id : String) :
    id ∈ (addAll key { map := fun _ => none, order := [] } calls).order ↔
      ((addAll key { map := fun _ => none, order := [] } calls).map id).isSome = true := by
  have hperm := addAll_order_perm key calls { map := fun _ => none, order := [] }
  simp only [List.nil_append] at hperm
  constructor
  · intro hid
    obtain ⟨a, ha, hka⟩ := List.mem_map.1 (hperm.subset hid)
    rw [← hka, taken_bound key calls _ a ha]
    rfl
  · intro hb
    by_contra hnot
    have hnt : ∀ a ∈ taken key calls { map := fun _ => none, order := [] }, key a ≠ id := by
      intro a ha he
      exact hnot (hperm.symm.subset (List.mem_map.2 ⟨a, ha, he⟩))
    rw [addAll_map_of_not_taken key calls _ id hnt] at hb
    exact Bool.noConfusion hb

end Keyed

/-! ## Both registries are keyed stores -/

namespace lessons

theorem toStore_Register {W : Type} (s : Catalog W) (c : Option (Lesson W)) :
    (s.Register c).2.toStore = Keyed.add (fun l => l.ID) s.toStore c := by
  cases c with
  | none => rfl
  | some l =>
    by_cases hk : l.ID = ""
    · simp [Catalog.Register, Keyed.add, hk]
    · by_cases hb : (s.catalog l.ID).isSome = true
      · simp [Catalog.Register, Keyed.add, hk, hb, Catalog.toStore]
      · simp [Catalog.Register, Keyed.add, hk, hb, Catalog.toStore]

theorem toStore_registerAll {W : Type} (calls : List (Option (Lesson W))) (s : Catalog W) :
    (s.registerAll calls).toStore = Keyed.addAll (fun l => l.ID) s.toStore calls := by
  induction calls generalizing s with
  | nil => rfl
  | cons c cs ih =>
    have h := ih (s.Register c).2
    rw [toStore_Register] at h
    exact h

/-- `Register` returns a nil error exactly for a lesson with a non-empty ID
that is not bound yet. -/
theorem Register_nil_iff {W : Type} (s : Catalog W) (c : Option (Lesson W)) :
    (s.Register c).1 = none ↔ ∃ l, c = some l ∧ l.ID ≠ "" ∧ s.catalog l.ID = none := by
  cases c with
  | none => simp [Catalog.Register]
  | some l =>
    by_cases hk : l.ID = ""
    · simp [Catalog.Register, hk]
    · cases hm : s.catalog l.ID with
      | none => simp [Catalog.Register, hk, hm]
      | some v => simp [Catalog.Register, hk, hm]

theorem accepted_eq_taken {W : Type} (calls : List (Option (Lesson W))) (s : Catalog W) :
    Catalog.accepted calls s = Keyed.taken (fun l => l.ID) calls s.toStore := by
  induction calls generalizing s with
  | nil => rfl
  | cons c cs ih =>
    have hst := toStore_Register s c
    rcases Keyed.fresh_or_stale (fun l : Lesson W => l.ID) c s.toStore with
      ⟨l, rfl, hk, hb⟩ | hstale
    · rw [Keyed.taken_cons_fresh _ l cs _ hk hb, ← hst, ← ih]
      have hnil : (s.Register (some l)).1 = none :=
        (Register_nil_iff s (some l)).2 ⟨l, rfl, hk, hb⟩
      simp only [Catalog.accepted, hnil]
    · rw [(Keyed.taken_cons_stale _ c cs _ hstale).1]
      have hsame : (s.Register c).2.toStore = s.toStore := by
        rw [hst]
        exact (Keyed.taken_cons_stale _ c cs _ hstale).2
      have hne : (s.Register c).1 ≠ none := by
        intro hnil
        obtain ⟨l, hl, hk, hb⟩ := (Register_nil_iff s c).1 hnil
        exact hstale l hl ⟨hk, hb⟩
      have hrec : Catalog.accepted (c :: cs) s = Catalog.accepted cs (s.Register c).2 := by
        cases c with
        | none => rfl
        | some l =>
          cases he : (s.Register (some l)).1 with
          | none => exact absurd he hne
          | some e => simp only [Catalog.accepted, he]
      rw [hrec, ih, hsame]

theorem Register_unchanged_of_err {W : Type} (s : Catalog W) (c : Option (Lesson W))
    (h : (s.Register c).1 ≠ none) : (s.Register c).2 = s := by
  cases c with
  | none => rfl
  | some l =>
    by_cases hk : l.ID = ""
    · simp [Catalog.Register, hk]
    · cases hm : s.catalog l.ID with
      | none => simp [Catalog.Register, hk, hm] at h
      | some v => simp [Catalog.Register, hk, hm]

end lessons

namespace run

theorem registry_toStore_Register (s : Registry) (c : Option Script) :
    (s.Register c).toStore = Keyed.add (fun sc => sc.ID) s.toStore c := by
  cases c with
  | none => rfl
  | some sc =>
    by_cases hk : sc.ID = ""
    · simp [Registry.Register, Keyed.add, hk]
    · by_cases hb : (s.registry sc.ID).isSome = true
      · simp [Registry.Register, Keyed.add, hk, hb, Registry.toStore]
      · simp [Registry.Register, Keyed.add, hk, hb, Registry.toStore]

theorem registry_toStore_registerAll (calls : List (Option Script)) (s : Registry) :
    (s.registerAll calls).toStore = Keyed.addAll (fun sc => sc.ID) s.toStore calls := by
  induction calls generalizing s with
  | nil => rfl
  | cons c cs ih =>
    have h := ih (s.Register c)
    rw [registry_toStore_Register] at h
    exact h

/-- A call of `Register` is observed to register its script exactly when the
script has a non-empty ID that is not bound yet. -/
theorem registers_iff (s : Registry) (sc : Script) :
    ((s.Get sc.ID).2 = false ∧ (s.Register (some sc)).Get sc.ID = (some sc, true)) ↔
      (sc.ID ≠ "" ∧ s.registry sc.ID = none) := by
  by_cases hk : sc.ID = ""
  · cases hm : s.registry sc.ID with
    | none =>
      have hm2 := hm
      rw [hk] at hm2
      simp [Registry.Get, Registry.Register, hk, hm2]
    | some v =>
      have hm2 := hm
      rw [hk] at hm2
      simp [Registry.Get, Registry.Register, hk, hm2]
  · cases hm : s.registry sc.ID with
    | none => simp [Registry.Get, Registry.Register, hk, hm]
    | some v => simp [Registry.Get, Registry.Register, hk, hm]

theorem scripts_accepted_eq_taken (calls : List (Option Script)) (s : Registry) :
    Registry.accepted calls s = Keyed.taken (fun sc => sc.ID) calls s.toStore := by
  induction calls generalizing s with
  | nil => rfl
  | cons c cs ih =>
    have hst := registry_toStore_Register s c
    rcases Keyed.fresh_or_stale (fun sc : Script => sc.ID) c s.toStore with
      ⟨sc, rfl, hk, hb⟩ | hstale
    · rw [Keyed.taken_cons_fresh _ sc cs _ hk hb, ← hst, ← ih]
      simp only [Registry.accepted]
      rw [if_pos ((registers_iff s sc).2 ⟨hk, hb⟩)]
    · rw [(Keyed.taken_cons_stale _ c cs _ hstale).1]
      have hsame : (s.Register c).toStore = s.toStore := by
        rw [hst]
        exact (Keyed.taken_cons_stale _ c cs _ hstale).2
      have hrec : Registry.accepted (c :: cs) s = Registry.accepted cs (s.Register c) := by
        cases c with
        | none => rfl
        | some sc =>
          simp only [Registry.accepted]
          rw [if_neg (fun h => hstale sc rfl ((registers_iff s sc).1 h))]
      rw [hrec, ih, hsame]

end run

/-! ## What a reachable registry binds -/

namespace Keyed

variable {α : Type}

/-- Starting from the empty store, a bound ID is bound to a taken value with
that ID, and it is not empty. -/
theorem bound_is_taken (key : α → String) (calls : List (Option α)) (id : String)
    (h : ((addAll key { map := fun _ => none, order := [] } calls).map id).isSome = true) :
    ∃ a, a ∈ taken key calls { map := fun _ => none, order := [] } ∧ key a = id ∧ id ≠ "" ∧
      (addAll key { map := fun _ => none, order := [] } calls).map id = some (some a) := by
  by_contra hnot
  have hnt : ∀ a ∈ taken key calls { map := fun _ => none, order := [] }, key a ≠ id := by
    intro a ha he
    apply hnot
    refine ⟨a, ha, he, ?_, ?_⟩
    · rw [← he]
      exact (taken_fresh key calls _ a ha).1
    · rw [← he]
      exact taken_bound key calls _ a ha
  rw [addAll_map_of_not_taken key calls _ id hnt] at h
  exact Bool.noConfusion h

end Keyed

namespace lessons

theorem catalog_registerAll {W : Type} (calls : List (Option (Lesson W))) (s : Catalog W) :
    (s.registerAll calls).catalog = (Keyed.addAll (fun l => l.ID) s.toStore calls).map := by
  rw [← toStore_registerAll]
  rfl

theorem lessonOrder_registerAll {W : Type} (calls : List (Option (Lesson W)))
    (s : Catalog W) :
    (s.registerAll calls).lessonOrder =
      (Keyed.addAll (fun l => l.ID) s.toStore calls).order := by
  rw [← toStore_registerAll]
  rfl

end lessons

namespace run

theorem registry_registerAll (calls : List (Option Script)) (s : Registry) :
    (s.registerAll calls).registry = (Keyed.addAll (fun sc => sc.ID) s.toStore calls).map := by
  rw [← registry_toStore_registerAll]
  rfl

theorem scriptList_registerAll (calls : List (Option Script)) (s : Registry) :
    (s.registerAll calls).scriptList =
      (Keyed.addAll (fun sc => sc.ID) s.toStore calls).order := by
  rw [← registry_toStore_registerAll]
  rfl

end run

/-! ## The command line: lemmas -/

namespace main

theorem lessons_loop_ok {W : Type} (env : Env W) (ls : List (lessons.Lesson W)) (w : W) :
    (printLessons.lessons env (ls.map some) w).1 = true := by
  induction ls generalizing w with
  | nil => rfl
  | cons l ls ih => exact ih _

theorem scripts_loop_ok {W : Type} (env : Env W) (ls : List run.Script) (w : W) :
    (printLessons.scripts env (ls.map some) w).1 = true := by
  induction ls generalizing w with
  | nil => rfl
  | cons l ls ih => exact ih _

/-- On registries reached from the empty ones, `printLessons` does not
panic. -/
theorem printLessons_ok {W : Type} (env : Env W) (calls : List (Option (lessons.Lesson W)))
    (scripts : List (Option run.Script)) (w : W) :
    (printLessons env (lessons.Catalog.registerAll lessons.Catalog.empty calls)
      (run.Registry.registerAll run.Registry.empty scripts) w).1 = true := by
  have h1 : ∃ ls : List (lessons.Lesson W),
      (lessons.Catalog.registerAll lessons.Catalog.empty calls).List = ls.map some := by
    obtain ⟨_, _, ls, h, _⟩ :=
      Keyed.listing_addAll_empty (fun l : lessons.Lesson W => l.ID) calls
    refine ⟨ls, ?_⟩
    rw [← h]
    have := lessons.toStore_registerAll calls (lessons.Catalog.empty : lessons.Catalog W)
    rw [show (lessons.Catalog.empty : lessons.Catalog W).toStore =
      { map := fun _ => none, order := [] } from rfl] at this
    rw [← this]
    rfl
  have h2 : ∃ ls : List run.Script,
      (run.Registry.registerAll run.Registry.empty scripts).List = ls.map some := by
    obtain ⟨_, _, ls, h, _⟩ :=
      Keyed.listing_addAll_empty (fun sc : run.Script => sc.ID) scripts
    refine ⟨ls, ?_⟩
    rw [← h]
    have := run.registry_toStore_registerAll scripts run.Registry.empty
    rw [show run.Registry.empty.toStore =
      { map := fun _ => none, order := [] } from rfl] at this
    rw [← this]
    rfl
  obtain ⟨ls1, hl1⟩ := h1
  obtain ⟨ls2, hl2⟩ := h2
  simp only [printLessons, hl1, hl2, lessons_loop_ok, if_true]
  exact scripts_loop_ok env ls2 _

end main

/-! ## The invariant of a keyed store -/

namespace Keyed

variable {α : Type}

/-- Starting from the empty store: the list of IDs is sorted and without
duplicates, it holds exactly the bound IDs, every bound ID is bound to a
non-nil value with that ID, and the listing has one non-nil element for each
listed ID, as many as values were taken. -/
theorem invariant_addAll_empty (key : α → String) (calls : List (Option α)) :
    (addAll key { map := fun _ => none, order := [] } calls).order.Sorted
      (fun a b => a ≤ b) ∧
    (addAll key { map := fun _ => none, order := [] } calls).order.Nodup ∧
    (∀ id : String, id ∈ (addAll key { map := fun _ => none, order := [] } calls).order ↔
      ((addAll key { map := fun _ => none, order := [] } calls).map id).isSome = true) ∧
    (∀ (id : String) (p : Option α),
      (addAll key { map := fun _ => none, order := [] } calls).map id = some p →
      ∃ a : α, p = some a ∧ key a = id) ∧
    (∃ ls : List α,
      listing (addAll key { map := fun _ => none, order := [] } calls) = ls.map some ∧
      ls.map key = (addAll key { map := fun _ => none, order := [] } calls).order) ∧
    (listing (addAll key { map := fun _ => none, order := [] } calls)).length =
      (taken key calls { map := fun _ => none, order := [] }).length := by
  have hperm := addAll_order_perm key calls { map := fun _ => none, order := [] }
  simp only [List.nil_append] at hperm
  obtain ⟨hlp, hnd, ls, h1, h2, _⟩ := listing_addAll_empty key calls
  refine ⟨addAll_order_sorted key calls _ List.sorted_nil, hperm.nodup_iff.2 hnd,
    mem_order_iff_bound key calls, ?_, ⟨ls, h1, h2⟩, ?_⟩
  · intro id p hp
    have hb : ((addAll key { map := fun _ => none, order := [] } calls).map id).isSome
        = true := by rw [hp]; rfl
    obtain ⟨a, _, hka, _, hmap⟩ := bound_is_taken key calls id hb
    refine ⟨a, ?_, hka⟩
    rw [hp] at hmap
    exact Option.some.inj hmap
  · rw [hlp.length_eq, List.length_map]

end Keyed

namespace lessons

theorem store_registerAll_empty {W : Type} (calls : List (Option (Lesson W))) :
    (Catalog.registerAll (Catalog.empty : Catalog W) calls).toStore =
      Keyed.addAll (fun l => l.ID) { map := fun _ => none, order := [] } calls :=
  toStore_registerAll calls Catalog.empty

end lessons

namespace run

theorem registry_store_registerAll_empty (calls : List (Option Script)) :
    (Registry.registerAll Registry.empty calls).toStore =
      Keyed.addAll (fun sc => sc.ID) { map := fun _ => none, order := [] } calls :=
  registry_toStore_registerAll calls Registry.empty

end run

/-! ## The two terminal programs: lemmas -/

namespace tea

theorem execs_Quit {W M : Type} : execs (Quit : Cmd W M) = [] := rfl

theorem execs_Batch_spinner {W M : Type} (c : Cmd W M) :
    execs (Batch [[Atom.spinner], c]) = execs c := by
  simp [Batch, execs]

end tea

namespace verifyui

theorem execs_runCheckCmd_lt {W : Type} (now : W → Int) (lesson : lessons.Lesson W)
    (repo : Option gitutil.Repository) (index : Nat) (h : index < lesson.Checks.length) :
    tea.execs (runCheckCmd now lesson repo index) =
      [runCheckCmd.run now (lesson.Checks.get ⟨index, h⟩) repo] := by
  simp [runCheckCmd, h, tea.execs]

theorem execs_runCheckCmd_ge {W : Type} (now : W → Int) (lesson : lessons.Lesson W)
    (repo : Option gitutil.Repository) (index : Nat) (h : ¬ index < lesson.Checks.length) :
    tea.execs (runCheckCmd now lesson repo index) = [] := by
  simp [runCheckCmd, h, tea.execs]

theorem start_sound {W : Type} (now : W → Int) (lesson : lessons.Lesson W)
    (repo : Option gitutil.Repository) (w : W) :
    Session.Sound now lesson repo (Session.start now lesson repo w) := by
  by_cases h0 : lesson.Checks.length = 0
  · have hge : ¬ 0 < lesson.Checks.length := by omega
    have e1 : (NewModel lesson repo).Init now =
        ({ NewModel lesson repo with done := true }, tea.Quit) := by
      simp [Model.Init, NewModel, h0]
    unfold Session.Sound Session.start
    rw [e1]
    refine ⟨rfl, rfl, ?_, ?_, ?_⟩
    · show tea.execs tea.Quit = tea.execs (runCheckCmd now lesson repo 0)
      rw [tea.execs_Quit, execs_runCheckCmd_ge now lesson repo 0 hge]
    · show List.map (fun r : verify.Result W => r.Check) [] = List.take 0 lesson.Checks
      simp
    · show true = true ↔ 0 = lesson.Checks.length
      simp [h0]
  · have e1 : (NewModel lesson repo).Init now =
        (NewModel lesson repo,
          tea.Batch [[tea.Atom.spinner], runCheckCmd now lesson repo 0]) := by
      simp [Model.Init, NewModel, h0]
    unfold Session.Sound Session.start
    rw [e1]
    refine ⟨rfl, rfl, ?_, ?_, ?_⟩
    · show tea.execs (tea.Batch [[tea.Atom.spinner], runCheckCmd now lesson repo 0]) =
        tea.execs (runCheckCmd now lesson repo 0)
      rw [tea.execs_Batch_spinner]
    · show List.map (fun r : verify.Result W => r.Check) [] = List.take 0 lesson.Checks
      simp
    · show false = true ↔ 0 = lesson.Checks.length
      constructor
      · intro h; exact Bool.noConfusion h
      · intro h; exact absurd h.symm h0

/-- A message that is not a check result leaves the lesson, the repository,
the results and `done` alone and issues no function. -/
theorem Update_passive {W : Type} (now : W → Int) (m : Model W) (msg : Msg W)
    (h : ∀ r, msg ≠ Msg.checkResult r) :
    (m.Update now msg).1.lesson = m.lesson ∧ (m.Update now msg).1.repo = m.repo ∧
    (m.Update now msg).1.results = m.results ∧ (m.Update now msg).1.done = m.done ∧
    tea.execs (m.Update now msg).2 = [] := by
  cases msg with
  | windowSize width => exact ⟨rfl, rfl, rfl, rfl, rfl⟩
  | spinnerTick =>
    simp only [Model.Update]
    split <;> exact ⟨rfl, rfl, rfl, rfl, rfl⟩
  | key name =>
    simp only [Model.Update]
    split
    · exact ⟨rfl, rfl, rfl, rfl, rfl⟩
    · split
      · split <;> exact ⟨rfl, rfl, rfl, rfl, rfl⟩
      · exact ⟨rfl, rfl, rfl, rfl, rfl⟩
  | checkResult r => exact absurd rfl (h r)
  | other => exact ⟨rfl, rfl, rfl, rfl, rfl⟩

theorem feed_passive_sound {W : Type} (now : W → Int) (lesson : lessons.Lesson W)
    (repo : Option gitutil.Repository) (s : Session W) (msg : Msg W)
    (h : ∀ r, msg ≠ Msg.checkResult r) (hs : Session.Sound now lesson repo s) :
    Session.Sound now lesson repo (s.feed now msg s.pending s.world) := by
  obtain ⟨h1, h2, h3, h4, h5⟩ := Update_passive now s.model msg h
  obtain ⟨s1, s2, s3, s4, s5⟩ := hs
  simp only [Session.Sound, Session.feed, h1, h2, h3, h4, h5, List.append_nil]
  exact ⟨s1, s2, s3, s4, s5⟩

/-- Feeding back the result of the check at index `len(results)` keeps the
invariant. -/
theorem feed_result_sound {W : Type} (now : W → Int) (lesson : lessons.Lesson W)
    (repo : Option gitutil.Repository) (s : Session W) (res : verify.Result W) (w : W)
    (hs : Session.Sound now lesson repo s)
    (hlt : s.model.results.length < lesson.Checks.length)
    (hres : res.Check = lesson.Checks.get ⟨s.model.results.length, hlt⟩) :
    Session.Sound now lesson repo (s.feed now (Msg.checkResult res) [] w) := by
  obtain ⟨s1, s2, _, s4, s5⟩ := hs
  have hmap : List.map (fun r : verify.Result W => r.Check) (s.model.results ++ [res]) =
      lesson.Checks.take (s.model.results.length + 1) := by
    rw [List.map_append, s4, List.take_succ, List.getElem?_eq_getElem hlt]
    simp [hres]
  have hnd : s.model.done = false := by
    cases hd : s.model.done with
    | false => rfl
    | true =>
      have := s5.1 hd
      omega
  by_cases hfin : s.model.results.length + 1 = lesson.Checks.length
  · have hU : s.model.Update now (Msg.checkResult res) =
        ({ s.model with results := s.model.results ++ [res], done := true }, tea.Quit) := by
      simp [Model.Update, s1, hfin]
    unfold Session.Sound Session.feed
    rw [hU]
    refine ⟨s1, s2, ?_, ?_, ?_⟩
    · show [] ++ tea.execs tea.Quit =
        tea.execs (runCheckCmd now lesson repo (s.model.results ++ [res]).length)
      rw [tea.execs_Quit, execs_runCheckCmd_ge now lesson repo _ (by
        simp only [List.length_append, List.length_cons, List.length_nil]
        omega)]
      rfl
    · show List.map (fun r : verify.Result W => r.Check) (s.model.results ++ [res]) =
        lesson.Checks.take (s.model.results ++ [res]).length
      rw [hmap]
      simp
    · show true = true ↔ (s.model.results ++ [res]).length = lesson.Checks.length
      simp only [List.length_append, List.length_cons, List.length_nil, true_iff]
      exact hfin
  · have hU : s.model.Update now (Msg.checkResult res) =
        ({ s.model with results := s.model.results ++ [res] },
          tea.Batch [[tea.Atom.spinner],
            runCheckCmd now lesson repo (s.model.results ++ [res]).length]) := by
      simp [Model.Update, s1, s2, hfin]
    unfold Session.Sound Session.feed
    rw [hU]
    refine ⟨s1, s2, ?_, ?_, ?_⟩
    · show [] ++ tea.execs (tea.Batch [[tea.Atom.spinner],
          runCheckCmd now lesson repo (s.model.results ++ [res]).length]) =
        tea.execs (runCheckCmd now lesson repo (s.model.results ++ [res]).length)
      rw [tea.execs_Batch_spinner]
      rfl
    · show List.map (fun r : verify.Result W => r.Check) (s.model.results ++ [res]) =
        lesson.Checks.take (s.model.results ++ [res]).length
      rw [hmap]
      simp
    · show s.model.done = true ↔ (s.model.results ++ [res]).length = lesson.Checks.length
      simp only [List.length_append, List.length_cons, List.length_nil]
      rw [hnd]
      constructor
      · intro h; exact Bool.noConfusion h
      · intro h; exact absurd h hfin

theorem step_sound {W : Type} (now : W → Int) (lesson : lessons.Lesson W)
    (repo : Option gitutil.Repository) (s : Session W) (input : tea.Input)
    (hs : Session.Sound now lesson repo s) :
    Session.Sound now lesson repo (s.step now input) := by
  cases input with
  | deliver index =>
    by_cases hlt : s.model.results.length < lesson.Checks.length
    · have hp : s.pending =
          [runCheckCmd.run now (lesson.Checks.get ⟨s.model.results.length, hlt⟩) repo] := by
        rw [hs.2.2.1, execs_runCheckCmd_lt now lesson repo _ hlt]
      cases index with
      | zero =>
        have hstep : s.step now (tea.Input.deliver 0) =
            s.feed now (Msg.checkResult
              { Check := lesson.Checks.get ⟨s.model.results.length, hlt⟩,
                Outcome := ((lesson.Checks.get ⟨s.model.results.length, hlt⟩).Verify
                  (lessons.TimeoutContext now s.world) repo s.world).1,
                Duration := now ((lesson.Checks.get ⟨s.model.results.length, hlt⟩).Verify
                  (lessons.TimeoutContext now s.world) repo s.world).2 - now s.world })
              []
              ((lesson.Checks.get ⟨s.model.results.length, hlt⟩).Verify
                (lessons.TimeoutContext now s.world) repo s.world).2 := by
          simp only [Session.step, hp]
          rfl
        rw [hstep]
        exact feed_result_sound now lesson repo s _ _ hs hlt rfl
      | succ k =>
        have hstep : s.step now (tea.Input.deliver (k + 1)) = s := by
          simp only [Session.step, hp]
          rfl
        rw [hstep]
        exact hs
    · have hp : s.pending = [] := by
        rw [hs.2.2.1, execs_runCheckCmd_ge now lesson repo _ hlt]
      have hstep : s.step now (tea.Input.deliver index) = s := by
        simp only [Session.step, hp]
        rfl
      rw [hstep]
      exact hs
  | windowSize width =>
    exact feed_passive_sound now lesson repo s _ (fun r h => Msg.noConfusion h) hs
  | spinnerTick =>
    exact feed_passive_sound now lesson repo s _ (fun r h => Msg.noConfusion h) hs
  | key name =>
    exact feed_passive_sound now lesson repo s _ (fun r h => Msg.noConfusion h) hs
  | other =>
    exact feed_passive_sound now lesson repo s _ (fun r h => Msg.noConfusion h) hs

/-- Every state of a running program satisfies the invariant. -/
theorem run_sound {W : Type} (now : W → Int) (lesson : lessons.Lesson W)
    (repo : Option gitutil.Repository) (inputs : List tea.Input) (s : Session W)
    (hs : Session.Sound now lesson repo s) :
    Session.Sound now lesson repo (s.run now inputs) := by
  induction inputs generalizing s with
  | nil => exact hs
  | cons input rest ih => exact ih _ (step_sound now lesson repo s input hs)

end verifyui

namespace runui

theorem execs_runStepCmd_lt {W : Type} (host : Host W) (script : run.Script) (index : Nat)
    (h : index < script.Steps.length) :
    tea.execs (runStepCmd host script index) =
      [runStepCmd.run host (script.Steps.get ⟨index, h⟩)] := by
  simp [runStepCmd, h, tea.execs]

theorem execs_runStepCmd_ge {W : Type} (host : Host W) (script : run.Script) (index : Nat)
    (h : ¬ index < script.Steps.length) :
    tea.execs (runStepCmd host script index) = [] := by
  simp [runStepCmd, h, tea.execs]

theorem script_start_sound {W : Type} (host : Host W) (script : run.Script) (w : W) :
    Session.Sound host script (Session.start host script w) := by
  by_cases h0 : script.Steps.length = 0
  · have hge : ¬ 0 < script.Steps.length := by omega
    have e1 : (NewModel script).Init host =
        (({ NewModel script with done := true } : Model), (tea.Quit : tea.Cmd W Msg)) := by
      simp [Model.Init, NewModel, h0]
    unfold Session.Sound Session.start
    rw [e1]
    refine ⟨rfl, ?_, ?_, ?_⟩
    · show tea.execs tea.Quit = tea.execs (runStepCmd host script 0)
      rw [tea.execs_Quit, execs_runStepCmd_ge host script 0 hge]
    · show List.map (fun r : run.StepResult => r.Step) [] = List.take 0 script.Steps
      simp
    · show true = true ↔ 0 = script.Steps.length
      simp [h0]
  · have e1 : (NewModel script).Init host =
        (NewModel script, tea.Batch [[tea.Atom.spinner], runStepCmd host script 0]) := by
      simp [Model.Init, NewModel, h0]
    unfold Session.Sound Session.start
    rw [e1]
    refine ⟨rfl, ?_, ?_, ?_⟩
    · show tea.execs (tea.Batch [[tea.Atom.spinner], runStepCmd host script 0]) =
        tea.execs (runStepCmd host script 0)
      rw [tea.execs_Batch_spinner]
    · show List.map (fun r : run.StepResult => r.Step) [] = List.take 0 script.Steps
      simp
    · show false = true ↔ 0 = script.Steps.length
      constructor
      · intro h; exact Bool.noConfusion h
      · intro h; exact absurd h.symm h0

/-- A message that is not a step result leaves the script, the results and
`done` alone and issues no function. -/
theorem script_Update_passive {W : Type} (host : Host W) (m : Model) (msg : Msg)
    (h : ∀ r, msg ≠ Msg.stepResult r) :
    (m.Update host msg).1.script = m.script ∧
    (m.Update host msg).1.results = m.results ∧ (m.Update host msg).1.done = m.done ∧
    tea.execs (m.Update host msg).2 = [] := by
  cases msg with
  | windowSize width => exact ⟨rfl, rfl, rfl, rfl⟩
  | spinnerTick =>
    simp only [Model.Update]
    split <;> exact ⟨rfl, rfl, rfl, rfl⟩
  | key name =>
    simp only [Model.Update]
    split
    · exact ⟨rfl, rfl, rfl, rfl⟩
    · split
      · split <;> exact ⟨rfl, rfl, rfl, rfl⟩
      · exact ⟨rfl, rfl, rfl, rfl⟩
  | stepResult r => exact absurd rfl (h r)
  | other => exact ⟨rfl, rfl, rfl, rfl⟩

theorem script_feed_passive_sound {W : Type} (host : Host W) (script : run.Script)
    (s : Session W) (msg : Msg) (h : ∀ r, msg ≠ Msg.stepResult r)
    (hs : Session.Sound host script s) :
    Session.Sound host script (s.feed host msg s.pending s.world) := by
  obtain ⟨h1, h3, h4, h5⟩ := script_Update_passive host s.model msg h
  obtain ⟨s1, s3, s4, s5⟩ := hs
  simp only [Session.Sound, Session.feed, h1, h3, h4, h5, List.append_nil]
  exact ⟨s1, s3, s4, s5⟩

/-- Feeding back the result of the step at index `len(results)` keeps the
invariant. -/
theorem script_feed_result_sound {W : Type} (host : Host W) (script : run.Script)
    (s : Session W) (res : run.StepResult) (w : W)
    (hs : Session.Sound host script s)
    (hlt : s.model.results.length < script.Steps.length)
    (hres : res.Step = script.Steps.get ⟨s.model.results.length, hlt⟩) :
    Session.Sound host script (s.feed host (Msg.stepResult res) [] w) := by
  obtain ⟨s1, _, s4, s5⟩ := hs
  have hmap : List.map (fun r : run.StepResult => r.Step) (s.model.results ++ [res]) =
      script.Steps.take (s.model.results.length + 1) := by
    rw [List.map_append, s4, List.take_succ, List.getElem?_eq_getElem hlt]
    simp [hres]
  have hnd : s.model.done = false := by
    cases hd : s.model.done with
    | false => rfl
    | true =>
      have := s5.1 hd
      omega
  by_cases hfin : s.model.results.length + 1 = script.Steps.length
  · have hU : s.model.Update host (Msg.stepResult res) =
        (({ s.model with results := s.model.results ++ [res], done := true } : Model),
          (tea.Quit : tea.Cmd W Msg)) := by
      simp [Model.Update, s1, hfin]
    unfold Session.Sound Session.feed
    rw [hU]
    refine ⟨s1, ?_, ?_, ?_⟩
    · show [] ++ tea.execs tea.Quit =
        tea.execs (runStepCmd host script (s.model.results ++ [res]).length)
      rw [tea.execs_Quit, execs_runStepCmd_ge host script _ (by
        simp only [List.length_append, List.length_cons, List.length_nil]
        omega)]
      rfl
    · show List.map (fun r : run.StepResult => r.Step) (s.model.results ++ [res]) =
        script.Steps.take (s.model.results ++ [res]).length
      rw [hmap]
      simp
    · show true = true ↔ (s.model.results ++ [res]).length = script.Steps.length
      simp only [List.length_append, List.length_cons, List.length_nil, true_iff]
      exact hfin
  · have hU : s.model.Update host (Msg.stepResult res) =
        (({ s.model with results := s.model.results ++ [res] } : Model),
          tea.Batch [[tea.Atom.spinner],
            runStepCmd host script (s.model.results ++ [res]).length]) := by
      simp [Model.Update, s1, hfin]
    unfold Session.Sound Session.feed
    rw [hU]
    refine ⟨s1, ?_, ?_, ?_⟩
    · show [] ++ tea.execs (tea.Batch [[tea.Atom.spinner],
          runStepCmd host script (s.model.results ++ [res]).length]) =
        tea.execs (runStepCmd host script (s.model.results ++ [res]).length)
      rw [tea.execs_Batch_spinner]
      rfl
    · show List.map (fun r : run.StepResult => r.Step) (s.model.results ++ [res]) =
        script.Steps.take (s.model.results ++ [res]).length
      rw [hmap]
      simp
    · show s.model.done = true ↔ (s.model.results ++ [res]).length = script.Steps.length
      simp only [List.length_append, List.length_cons, List.length_nil]
      rw [hnd]
      constructor
      · intro h; exact Bool.noConfusion h
      · intro h; exact absurd h hfin

theorem script_step_sound {W : Type} (host : Host W) (script : run.Script) (s : Session W)
    (input : tea.Input) (hs : Session.Sound host script s) :
    Session.Sound host script (s.step host input) := by
  cases input with
  | deliver index =>
    by_cases hlt : s.model.results.length < script.Steps.length
    · have hp : s.pending =
          [runStepCmd.run host (script.Steps.get ⟨s.model.results.length, hlt⟩)] := by
        rw [hs.2.1, execs_runStepCmd_lt host script _ hlt]
      cases index with
      | zero =>
        have hstep : s.step host (tea.Input.deliver 0) =
            s.feed host
              (runStepCmd.run host (script.Steps.get ⟨s.model.results.length, hlt⟩)
                s.world).1
              []
              (runStepCmd.run host (script.Steps.get ⟨s.model.results.length, hlt⟩)
                s.world).2 := by
          simp only [Session.step, hp]
          rfl
        rw [hstep]
        exact script_feed_result_sound host script s _ _ hs hlt
          (run.RunStep_step host _ _ s.world)
      | succ k =>
        have hstep : s.step host (tea.Input.deliver (k + 1)) = s := by
          simp only [Session.step, hp]
          rfl
        rw [hstep]
        exact hs
    · have hp : s.pending = [] := by
        rw [hs.2.1, execs_runStepCmd_ge host script _ hlt]
      have hstep : s.step host (tea.Input.deliver index) = s := by
        simp only [Session.step, hp]
        rfl
      rw [hstep]
      exact hs
  | windowSize width =>
    exact script_feed_passive_sound host script s _ (fun r h => Msg.noConfusion h) hs
  | spinnerTick =>
    exact script_feed_passive_sound host script s _ (fun r h => Msg.noConfusion h) hs
  | key name =>
    exact script_feed_passive_sound host script s _ (fun r h => Msg.noConfusion h) hs
  | other =>
    exact script_feed_passive_sound host script s _ (fun r h => Msg.noConfusion h) hs

/-- Every state of a running program satisfies the invariant. -/
theorem script_run_sound {W : Type} (host : Host W) (script : run.Script)
    (inputs : List tea.Input) (s : Session W) (hs : Session.Sound host script s) :
    Session.Sound host script (s.run host inputs) := by
  induction inputs generalizing s with
  | nil => exact hs
  | cons input rest ih => exact ih _ (script_step_sound host script s input hs)

end runui

/-! ## The claims -/

/-- C1: with a context that is never cancelled, `verify.Run` on a lesson and
a repository returns a nil error and as many results as the lesson has checks;
the result at each position holds the check at that position and the outcome
that the `Verify` of that check returned when called in the world the loop had
reached; the checks called are the checks of the lesson, each once and in
order. `run.Execute` on a script does the same with steps and `RunStep`.
Nothing here depends on what the outcomes are. -/
theorem C1_uncancelled_run_returns_every_result {W : Type} (now : W → Int) (host : Host W)
    (ctx : Context W) (lesson : lessons.Lesson W) (repo : gitutil.Repository)
    (emitter : Option (verify.Emitter W)) (script : run.Script)
    (stepEmitter : Option (run.StepResult → W → W)) (w : W)
    (hctx : ∀ w, ctx.Err w = none) :
    ((verify.Run now ctx (some lesson) (some repo) emitter w).err = none ∧
      ∃ rs : List (verify.Result W), (verify.Run now ctx (some lesson) (some repo) emitter w).results = some rs ∧
        rs.length = lesson.Checks.length ∧
        (∀ (i : Nat) (check : lessons.Check W), lesson.Checks[i]? = some check →
          ∃ r : verify.Result W, rs[i]? = some r ∧ r.Check = check ∧
            r.Outcome = (check.Verify ctx (some repo)
              (verify.Run.stateAt now ctx (some repo) emitter lesson.Checks w i).world).1) ∧
        Seq.calls (verify.Run now ctx (some lesson) (some repo) emitter w).trace
          = lesson.Checks) ∧
    ((run.Execute host ctx (some script) stepEmitter w).err = none ∧
      ∃ rs : List run.StepResult, (run.Execute host ctx (some script) stepEmitter w).results = some rs ∧
        rs.length = script.Steps.length ∧
        (∀ (i : Nat) (step : run.Step), script.Steps[i]? = some step →
          ∃ r : run.StepResult, rs[i]? = some r ∧ r.Step = step ∧
            r = (run.RunStep host ctx step
              (run.Execute.stateAt host ctx stepEmitter script.Steps w i).world).1) ∧
        Seq.calls (run.Execute host ctx (some script) stepEmitter w).trace
          = script.Steps) := by
  constructor
  · rw [verify.Run_eq_loop, Seq.loop_complete _ _ _ _ (fun j _ => hctx _)]
    refine ⟨rfl, _, rfl, ?_, ?_, ?_⟩
    · simp [Seq.foldl_results_length]
    · intro i check hi
      have hlt : i < lesson.Checks.length := by
        by_contra hc
        rw [List.getElem?_eq_none (by omega)] at hi
        exact Option.noConfusion hi
      have key := Seq.take_foldl_results_get (verify.Run.exec now ctx (some repo)) emitter
        lesson.Checks w lesson.Checks.length i check hlt hi
      rw [List.take_length] at key
      rw [verify.Run_stateAt_eq]
      exact ⟨_, key, rfl, rfl⟩
    · simp only []
      rw [Seq.foldl_calls]
      rfl
  · rw [run.Execute_eq_loop, Seq.loop_complete _ _ _ _ (fun j _ => hctx _)]
    refine ⟨rfl, _, rfl, ?_, ?_, ?_⟩
    · simp [Seq.foldl_results_length]
    · intro i step hi
      have hlt : i < script.Steps.length := by
        by_contra hc
        rw [List.getElem?_eq_none (by omega)] at hi
        exact Option.noConfusion hi
      have key := Seq.take_foldl_results_get (run.RunStep host ctx) stepEmitter
        script.Steps w script.Steps.length i step hlt hi
      rw [List.take_length] at key
      rw [run.Execute_stateAt_eq]
      exact ⟨_, key, run.RunStep_step _ _ _ _, rfl⟩
    · simp only []
      rw [Seq.foldl_calls]
      rfl

/-- C1, evaluated on the lesson of `TestRunInvokesChecks` (one passing and
one failing check) and on a script of two steps, with the background
context: no error, two results, the first passed and the second not. -/
theorem C1_uncancelled_run_witness :
    ((verify.Run Examples.shellHost.now Examples.background (some Examples.testLesson)
        (some Examples.testRepo) (some Examples.countingEmitter) (0, 0)).err = none ∧
      ((verify.Run Examples.shellHost.now Examples.background (some Examples.testLesson)
        (some Examples.testRepo) (some Examples.countingEmitter) (0, 0)).results.map
          (fun rs => rs.map (fun r => r.Outcome.Passed))) = some [true, false]) ∧
    ((run.Execute Examples.shellHost Examples.background (some Examples.testScript)
        none (0, 0)).err = none ∧
      ((run.Execute Examples.shellHost Examples.background (some Examples.testScript)
        none (0, 0)).results.map (fun rs => rs.map (fun r => r.Passed)))
          = some [true, false]) :=
  ⟨⟨(C1_uncancelled_run_returns_every_result Examples.shellHost.now Examples.shellHost
      Examples.background Examples.testLesson Examples.testRepo
      (some Examples.countingEmitter) Examples.testScript none (0, 0) (fun _ => rfl)).1.1,
    by decide⟩,
   ⟨(C1_uncancelled_run_returns_every_result Examples.shellHost.now Examples.shellHost
      Examples.background Examples.testLesson Examples.testRepo
      (some Examples.countingEmitter) Examples.testScript none (0, 0) (fun _ => rfl)).2.1,
    by decide⟩⟩

/-- C2: when the context is not cancelled at the checks made before items
1 to k-1 and is cancelled, with error `e`, at the check made before item k,
`verify.Run` returns `e` together with exactly k-1 results, the result at each
position holding the check at that position and the outcome its `Verify`
returned; the checks called are the first k-1 checks of the lesson and no
other. `run.Execute` does the same with steps and `RunStep`. -/
theorem C2_cancelled_before_item_k {Wv Wr : Type}
    (now : Wv → Int) (ctxv : Context Wv) (lesson : lessons.Lesson Wv)
    (repo : gitutil.Repository) (emitter : Option (verify.Emitter Wv)) (wv : Wv)
    (kv : Nat) (ev : GoError)
    (host : Host Wr) (ctxr : Context Wr) (script : run.Script)
    (stepEmitter : Option (run.StepResult → Wr → Wr)) (wr : Wr) (kr : Nat) (er : GoError)
    (hkv : 1 ≤ kv ∧ kv ≤ lesson.Checks.length)
    (hvBefore : ∀ j, j < kv - 1 →
      ctxv.Err (verify.Run.stateAt now ctxv (some repo) emitter lesson.Checks wv j).world = none)
    (hvAt : ctxv.Err
      (verify.Run.stateAt now ctxv (some repo) emitter lesson.Checks wv (kv - 1)).world = some ev)
    (hkr : 1 ≤ kr ∧ kr ≤ script.Steps.length)
    (hrBefore : ∀ j, j < kr - 1 →
      ctxr.Err (run.Execute.stateAt host ctxr stepEmitter script.Steps wr j).world = none)
    (hrAt : ctxr.Err
      (run.Execute.stateAt host ctxr stepEmitter script.Steps wr (kr - 1)).world = some er) :
    ((verify.Run now ctxv (some lesson) (some repo) emitter wv).err = some ev ∧
      ∃ rs : List (verify.Result Wv),
        (verify.Run now ctxv (some lesson) (some repo) emitter wv).results = some rs ∧
        rs.length = kv - 1 ∧
        (∀ (i : Nat) (check : lessons.Check Wv), i < kv - 1 →
          lesson.Checks[i]? = some check →
          ∃ r : verify.Result Wv, rs[i]? = some r ∧ r.Check = check ∧
            r.Outcome = (check.Verify ctxv (some repo)
              (verify.Run.stateAt now ctxv (some repo) emitter lesson.Checks wv i).world).1) ∧
        Seq.calls (verify.Run now ctxv (some lesson) (some repo) emitter wv).trace
          = lesson.Checks.take (kv - 1)) ∧
    ((run.Execute host ctxr (some script) stepEmitter wr).err = some er ∧
      ∃ rs : List run.StepResult,
        (run.Execute host ctxr (some script) stepEmitter wr).results = some rs ∧
        rs.length = kr - 1 ∧
        (∀ (i : Nat) (step : run.Step), i < kr - 1 → script.Steps[i]? = some step →
          ∃ r : run.StepResult, rs[i]? = some r ∧ r.Step = step ∧
            r = (run.RunStep host ctxr step
              (run.Execute.stateAt host ctxr stepEmitter script.Steps wr i).world).1) ∧
        Seq.calls (run.Execute host ctxr (some script) stepEmitter wr).trace
          = script.Steps.take (kr - 1)) := by
  constructor
  · simp only [verify.Run_stateAt_eq] at hvBefore hvAt
    rw [verify.Run_eq_loop,
      Seq.loop_stops_at _ _ _ _ (kv - 1) ev (by omega) hvBefore hvAt]
    refine ⟨rfl, _, rfl, ?_, ?_, ?_⟩
    · exact Seq.take_foldl_results_length _ _ _ _ _ (by omega)
    · intro i check hlt hi
      have key := Seq.take_foldl_results_get (verify.Run.exec now ctxv (some repo)) emitter
        lesson.Checks wv (kv - 1) i check hlt hi
      rw [verify.Run_stateAt_eq]
      exact ⟨_, key, rfl, rfl⟩
    · simp only []
      rw [Seq.foldl_calls]
      rfl
  · simp only [run.Execute_stateAt_eq] at hrBefore hrAt
    rw [run.Execute_eq_loop,
      Seq.loop_stops_at _ _ _ _ (kr - 1) er (by omega) hrBefore hrAt]
    refine ⟨rfl, _, rfl, ?_, ?_, ?_⟩
    · exact Seq.take_foldl_results_length _ _ _ _ _ (by omega)
    · intro i step hlt hi
      have key := Seq.take_foldl_results_get (run.RunStep host ctxr) stepEmitter
        script.Steps wr (kr - 1) i step hlt hi
      rw [run.Execute_stateAt_eq]
      exact ⟨_, key, run.RunStep_step _ _ _ _, rfl⟩
    · simp only []
      rw [Seq.foldl_calls]
      rfl

/-- C2, evaluated with a context that is cancelled once one item has run, on
the lesson of two checks and the script of two steps, with k = 2: the
cancellation error, and one result. -/
theorem C2_cancelled_before_item_k_witness :
    ((verify.Run Examples.shellHost.now (Examples.cancelledAfter 1) (some Examples.testLesson)
        (some Examples.testRepo) (some Examples.countingEmitter) (0, 0)).err
        = some (GoError.errorString "context canceled") ∧
      ((verify.Run Examples.shellHost.now (Examples.cancelledAfter 1)
        (some Examples.testLesson) (some Examples.testRepo)
        (some Examples.countingEmitter) (0, 0)).results.map List.length) = some 1) ∧
    ((run.Execute Examples.shellHost (Examples.cancelledAfter 1) (some Examples.testScript)
        (some Examples.countingEmitter) (0, 0)).err
        = some (GoError.errorString "context canceled") ∧
      ((run.Execute Examples.shellHost (Examples.cancelledAfter 1) (some Examples.testScript)
        (some Examples.countingEmitter) (0, 0)).results.map List.length) = some 1) :=
  have h := C2_cancelled_before_item_k Examples.shellHost.now (Examples.cancelledAfter 1)
    Examples.testLesson Examples.testRepo (some Examples.countingEmitter) (0, 0) 2
    (GoError.errorString "context canceled")
    Examples.shellHost (Examples.cancelledAfter 1) Examples.testScript
    (some Examples.countingEmitter) (0, 0) 2 (GoError.errorString "context canceled")
    (by decide) (by decide) (by decide) (by decide) (by decide) (by decide)
  ⟨⟨h.1.1, by decide⟩, ⟨h.2.1, by decide⟩⟩

/-- C3: `AllPassed` of the verification model is true exactly when there are
as many results as checks and every result has `Passed` set and no error;
`AllPassed` of the run model is true exactly when there are as many results as
steps and every result has `Passed` set. So it is false for a short result
list, and false when a result carries an error, whatever its `Passed`. -/
theorem C3_AllPassed_iff {W : Type} (m : verifyui.Model W) (n : runui.Model) :
    (m.AllPassed = true ↔
      m.results.length = m.lesson.Checks.length ∧
        ∀ r ∈ m.results, r.Outcome.Passed = true ∧ r.Outcome.Err = none) ∧
    (n.AllPassed = true ↔
      n.results.length = n.script.Steps.length ∧ ∀ r ∈ n.results, r.Passed = true) ∧
    (m.results.length < m.lesson.Checks.length → m.AllPassed = false) ∧
    (n.results.length < n.script.Steps.length → n.AllPassed = false) ∧
    (∀ r ∈ m.results, r.Outcome.Err ≠ none → m.AllPassed = false) := by
  have hm : m.AllPassed = true ↔
      m.results.length = m.lesson.Checks.length ∧
        ∀ r ∈ m.results, r.Outcome.Passed = true ∧ r.Outcome.Err = none := by
    unfold verifyui.Model.AllPassed
    by_cases hl : m.results.length = m.lesson.Checks.length
    · simp [hl, verifyui.checks_loop_iff]
    · simp [hl]
  have hn : n.AllPassed = true ↔
      n.results.length = n.script.Steps.length ∧ ∀ r ∈ n.results, r.Passed = true := by
    unfold runui.Model.AllPassed
    by_cases hl : n.results.length = n.script.Steps.length
    · simp [hl, runui.steps_loop_iff]
    · simp [hl]
  refine ⟨hm, hn, ?_, ?_, ?_⟩
  · intro hlt
    cases h : m.AllPassed with
    | false => rfl
    | true => exact absurd (hm.1 h).1 (by omega)
  · intro hlt
    cases h : n.AllPassed with
    | false => rfl
    | true => exact absurd (hn.1 h).1 (by omega)
  · intro r hr herr
    cases h : m.AllPassed with
    | false => rfl
    | true => exact absurd ((hm.1 h).2 r hr).2 herr

/-- C3, evaluated: one result for a lesson of two checks is not a pass, and
one result with an error for a lesson of one check is not a pass although its
`Passed` is true. -/
theorem C3_AllPassed_witness :
    (verifyui.Model.AllPassed
        { lesson := Examples.testLesson, repo := some Examples.testRepo,
          results := [Examples.erroredResult], width := 0, done := false } = false) ∧
    (verifyui.Model.AllPassed
        { lesson := { Examples.testLesson with Checks := [Examples.passCheck] },
          repo := some Examples.testRepo,
          results := [Examples.erroredResult], width := 0, done := true } = false) :=
  ⟨(C3_AllPassed_iff
      { lesson := Examples.testLesson, repo := some Examples.testRepo,
        results := [Examples.erroredResult], width := 0, done := false }
      { script := Examples.testScript, results := [], done := false, width := 0 }).2.2.1
      (by decide),
   (C3_AllPassed_iff
      { lesson := { Examples.testLesson with Checks := [Examples.passCheck] },
        repo := some Examples.testRepo,
        results := [Examples.erroredResult], width := 0, done := true }
      { script := Examples.testScript, results := [], done := false, width := 0 }).2.2.2.2
      Examples.erroredResult (by simp) (by simp [Examples.erroredResult])⟩

/-- C4: the result of `RunStep` has `Passed` set exactly when its `Failures`
list is empty, and that is exactly when running the command returned no
error, `ExpectExitCode` is negative or equals the exit code, and every string
of `ExpectStdout` is a contiguous part of the captured stdout. A step that
expects exit code 0 and the output `hello world`, run on a command that exits
with 0 and prints text containing `hello world`, passes with no failure
reason. -/
theorem C4_RunStep_passed_iff_no_failures {W : Type} (host : Host W) (ctx : Context W)
    (step : run.Step) (w : W) :
    ((run.RunStep host ctx step w).1.Passed = true ↔
      (run.RunStep host ctx step w).1.Failures = []) ∧
    ((run.RunStep host ctx step w).1.Failures = [] ↔
      (run.runCommand host ctx step.Command w).1.err = none ∧
      (step.ExpectExitCode < 0 ∨
        step.ExpectExitCode = (run.runCommand host ctx step.Command w).1.exitCode) ∧
      ∀ e ∈ step.ExpectStdout,
        e.data <:+: (run.runCommand host ctx step.Command w).1.stdout.data) ∧
    (step.ExpectExitCode = 0 → step.ExpectStdout = ["hello world"] →
      (run.runCommand host ctx step.Command w).1.err = none →
      (run.runCommand host ctx step.Command w).1.exitCode = 0 →
      "hello world".data <:+: (run.runCommand host ctx step.Command w).1.stdout.data →
      (run.RunStep host ctx step w).1.Passed = true ∧
        (run.RunStep host ctx step w).1.Failures = []) := by
  have hpass : (run.RunStep host ctx step w).1.Passed = true ↔
      (run.RunStep host ctx step w).1.Failures = [] := by
    rw [run.RunStep_passed]
    simp [List.length_eq_zero]
  have hfail : (run.RunStep host ctx step w).1.Failures = [] ↔
      (run.runCommand host ctx step.Command w).1.err = none ∧
      (step.ExpectExitCode < 0 ∨
        step.ExpectExitCode = (run.runCommand host ctx step.Command w).1.exitCode) ∧
      ∀ e ∈ step.ExpectStdout,
        e.data <:+: (run.runCommand host ctx step.Command w).1.stdout.data := by
    rw [run.RunStep_failures, List.append_eq_nil, List.map_eq_nil_iff, List.filter_eq_nil_iff]
    have hsub : (∀ a ∈ step.ExpectStdout,
        ¬ (!strings.Contains (run.runCommand host ctx step.Command w).1.stdout a) = true) ↔
        ∀ e ∈ step.ExpectStdout,
          e.data <:+: (run.runCommand host ctx step.Command w).1.stdout.data := by
      constructor
      · intro h e he
        have := h e he
        rw [← strings.Contains_iff]
        simpa using this
      · intro h e he
        have := (strings.Contains_iff _ _).2 (h e he)
        simp [this]
    rw [hsub]
    cases hE : (run.runCommand host ctx step.Command w).1.err with
    | some e => simp
    | none =>
      simp only [true_and]
      by_cases hc : step.ExpectExitCode ≥ 0 ∧
          step.ExpectExitCode ≠ (run.runCommand host ctx step.Command w).1.exitCode
      · rw [if_pos hc]
        have hno : ¬ (step.ExpectExitCode < 0 ∨
            step.ExpectExitCode = (run.runCommand host ctx step.Command w).1.exitCode) := by
          rintro (h | h)
          · omega
          · exact hc.2 h
        simp [hno]
      · rw [if_neg hc]
        have hyes : step.ExpectExitCode < 0 ∨
            step.ExpectExitCode = (run.runCommand host ctx step.Command w).1.exitCode := by
          by_cases hneg : step.ExpectExitCode < 0
          · exact Or.inl hneg
          · right
            by_contra hne
            exact hc ⟨by omega, hne⟩
        simp [hyes]
  refine ⟨hpass, hfail, ?_⟩
  intro h0 hexp herr hcode hsub
  have hF : (run.RunStep host ctx step w).1.Failures = [] := by
    rw [hfail]
    refine ⟨herr, Or.inr (by rw [h0, hcode]), ?_⟩
    intro e he
    rw [hexp] at he
    simp only [List.mem_singleton] at he
    rw [he]
    exact hsub
  exact ⟨hpass.2 hF, hF⟩

/-- C4, evaluated on the step of `TestExecuteSuccess`: the command prints
`hello world` and exits with 0, the step passes with no failure reason. -/
theorem C4_RunStep_hello_world_witness :
    (run.RunStep Examples.shellHost Examples.background Examples.helloStep (0, 0)).1.Passed
        = true ∧
    (run.RunStep Examples.shellHost Examples.background Examples.helloStep (0, 0)).1.Failures
        = [] :=
  (C4_RunStep_passed_iff_no_failures Examples.shellHost Examples.background
    Examples.helloStep (0, 0)).2.2 rfl rfl rfl rfl
    ((strings.Contains_iff "hello world\n" "hello world").1 (by decide))

/-- C5, evaluated where it fails: a step with `ExpectExitCode = -1` whose
command runs to completion and exits with status 3 is reported as not passed,
with the text of the exit error as its only failure reason. -/
theorem C5_unchecked_exit_code_still_fails :
    (run.RunStep Examples.shellHost Examples.background Examples.exitUnchecked (0, 0)).1.ExitCode
        = 3 ∧
    (run.RunStep Examples.shellHost Examples.background Examples.exitUnchecked (0, 0)).1.Passed
        = false ∧
    (run.RunStep Examples.shellHost Examples.background Examples.exitUnchecked (0, 0)).1.Failures
        = ["exit status 3"] := by
  decide

/-- C6, evaluated where it fails: when status 0 is expected and the command
exits with 3, the only failure reason is the text of the exit error and the
reason `expected exit code 0, got 3` is absent; when status 3 is expected and
the command exits with 3, the step does not pass. When status 3 is expected
and the command exits with 0, the reason is recorded. -/
theorem C6_exit_code_mismatch_reason_missing :
    ((run.RunStep Examples.shellHost Examples.background Examples.exitMismatch (0, 0)).1.Failures
        = ["exit status 3"] ∧
      "expected exit code 0, got 3" ∉
        (run.RunStep Examples.shellHost Examples.background Examples.exitMismatch
          (0, 0)).1.Failures) ∧
    ((run.RunStep Examples.shellHost Examples.background Examples.exitExpected (0, 0)).1.ExitCode
        = 3 ∧
      (run.RunStep Examples.shellHost Examples.background Examples.exitExpected (0, 0)).1.Passed
        = false) ∧
    (run.RunStep Examples.shellHost Examples.background Examples.exitZeroMismatch
        (0, 0)).1.Failures = ["expected exit code 3, got 0"] := by
  decide

/-- C7: when running the command of a step returns an error, the result of
`RunStep` is not passed, holds that error in `ExecError`, and has the text
of the error among its `Failures`, whatever the expectations of the step and
the captured output are. -/
theorem C7_exec_error_fails_step {W : Type} (host : Host W) (ctx : Context W)
    (step : run.Step) (w : W) (execErr : GoError)
    (h : (run.runCommand host ctx step.Command w).1.err = some execErr) :
    (run.RunStep host ctx step w).1.Passed = false ∧
    (run.RunStep host ctx step w).1.ExecError = some execErr ∧
    execErr.Error ∈ (run.RunStep host ctx step w).1.Failures := by
  have hmem : execErr.Error ∈ (run.RunStep host ctx step w).1.Failures := by
    rw [run.RunStep_failures, h]
    simp
  refine ⟨?_, ?_, hmem⟩
  · rw [run.RunStep_passed]
    have hpos : 0 < (run.RunStep host ctx step w).1.Failures.length :=
      List.length_pos_of_mem hmem
    simp only [beq_eq_false_iff_ne, ne_eq]
    omega
  · rw [run.RunStep_execError, h]

/-- C7, evaluated: a command that cannot be started fails a step that expects
no output and does not check the exit code. -/
theorem C7_exec_error_witness :
    (run.RunStep Examples.shellHost Examples.background
        { Command := "nonesuch", ExpectExitCode := -1, ExpectStdout := [] } (0, 0)).1.Passed
      = false ∧
    (run.RunStep Examples.shellHost Examples.background
        { Command := "nonesuch", ExpectExitCode := -1, ExpectStdout := [] } (0, 0)).1.ExecError
      = some (GoError.errorString "exec: not started") ∧
    (GoError.errorString "exec: not started").Error ∈
      (run.RunStep Examples.shellHost Examples.background
        { Command := "nonesuch", ExpectExitCode := -1, ExpectStdout := [] } (0, 0)).1.Failures :=
  C7_exec_error_fails_step Examples.shellHost Examples.background
    { Command := "nonesuch", ExpectExitCode := -1, ExpectStdout := [] } (0, 0)
    (GoError.errorString "exec: not started") (by decide)

/-- C8: for every string of `ExpectStdout` that is not a contiguous part of
the captured stdout, the result of `RunStep` is not passed and its `Failures`
hold `stdout missing ` followed by the quoted string. After at most one reason
about the exit status, `Failures` consists of exactly one such reason per
missing string, in the order of `ExpectStdout`, so none is recorded for a
string that stdout contains. When `%q` renders `expected` between double
quotes, the expectation `expected` against the output `mismatch` gives the
reason `stdout missing "expected"`. -/
theorem C8_missing_stdout_reason {W : Type} (host : Host W) (ctx : Context W)
    (step : run.Step) (w : W) :
    (∀ e ∈ step.ExpectStdout,
      ¬ e.data <:+: (run.runCommand host ctx step.Command w).1.stdout.data →
      (run.RunStep host ctx step w).1.Passed = false ∧
        ("stdout missing " ++ host.quote e) ∈ (run.RunStep host ctx step w).1.Failures) ∧
    (∃ status : List String, status.length ≤ 1 ∧
      (run.RunStep host ctx step w).1.Failures =
        status ++
          (step.ExpectStdout.filter
            (fun e => !strings.Contains (run.runCommand host ctx step.Command w).1.stdout e)).map
            (fun e => "stdout missing " ++ host.quote e)) ∧
    (host.quote "expected" = "\"expected\"" → step.ExpectStdout = ["expected"] →
      (run.runCommand host ctx step.Command w).1.stdout = "mismatch" →
      (run.RunStep host ctx step w).1.Passed = false ∧
        "stdout missing \"expected\"" ∈ (run.RunStep host ctx step w).1.Failures) := by
  have hgen : ∀ e ∈ step.ExpectStdout,
      ¬ e.data <:+: (run.runCommand host ctx step.Command w).1.stdout.data →
      (run.RunStep host ctx step w).1.Passed = false ∧
        ("stdout missing " ++ host.quote e) ∈ (run.RunStep host ctx step w).1.Failures := by
    intro e he hnot
    have hc : strings.Contains (run.runCommand host ctx step.Command w).1.stdout e = false := by
      cases hb : strings.Contains (run.runCommand host ctx step.Command w).1.stdout e with
      | false => rfl
      | true => exact absurd ((strings.Contains_iff _ _).1 hb) hnot
    have hmem : ("stdout missing " ++ host.quote e) ∈
        (run.RunStep host ctx step w).1.Failures := by
      rw [run.RunStep_failures]
      apply List.mem_append_right
      rw [List.mem_map]
      exact ⟨e, List.mem_filter.2 ⟨he, by simp [hc]⟩, rfl⟩
    refine ⟨?_, hmem⟩
    rw [run.RunStep_passed]
    have hpos : 0 < (run.RunStep host ctx step w).1.Failures.length :=
      List.length_pos_of_mem hmem
    simp only [beq_eq_false_iff_ne, ne_eq]
    omega
  refine ⟨hgen, ?_, ?_⟩
  · rw [run.RunStep_failures]
    refine ⟨_, ?_, rfl⟩
    cases (run.runCommand host ctx step.Command w).1.err with
    | some e => simp
    | none =>
      simp only []
      split <;> simp
  · intro hq hexp hout
    have h := hgen "expected" (by rw [hexp]; simp) (by
      rw [hout, ← strings.Contains_iff]
      decide)
    rw [hq] at h
    exact h

/-- C8, evaluated on the step of `TestExecuteFailureOnMissingStdout`: the
command prints `mismatch`, the step expects `expected`. -/
theorem C8_missing_stdout_witness :
    (run.RunStep Examples.shellHost Examples.background Examples.mismatchStep (0, 0)).1.Passed
      = false ∧
    ("stdout missing " ++ Examples.shellHost.quote "expected") ∈
      (run.RunStep Examples.shellHost Examples.background Examples.mismatchStep
        (0, 0)).1.Failures :=
  (C8_missing_stdout_reason Examples.shellHost Examples.background Examples.mismatchStep
    (0, 0)).1 "expected" (by decide)
    (by
      rw [← strings.Contains_iff]
      decide)

/-- C9: with an emitter, cancelled or not, the results handed to the emitter
of `verify.Run` are the returned results, element for element and in order,
and in the trace the call of each check is followed by the emission of its
result before the next check is called; the same holds for `run.Execute`.
Without an emitter the returned results and error are the same, provided the
emitter changes nothing of what the clock, the context and the checks (or the
steps) read from the world. -/
theorem C9_emitter_sees_returned_results {Wv Wr : Type}
    (now : Wv → Int) (ctxv : Context Wv) (lesson : lessons.Lesson Wv)
    (repo : gitutil.Repository) (em : verify.Emitter Wv) (wv : Wv)
    (host : Host Wr) (ctxr : Context Wr) (script : run.Script)
    (stepEm : run.StepResult → Wr → Wr) (wr : Wr) :
    (∃ rs : List (verify.Result Wv),
      (verify.Run now ctxv (some lesson) (some repo) (some em) wv).results = some rs ∧
      Seq.emits (verify.Run now ctxv (some lesson) (some repo) (some em) wv).trace = rs ∧
      (verify.Run now ctxv (some lesson) (some repo) (some em) wv).trace =
        Seq.alternating (fun r => r.Check) rs) ∧
    (∃ rs : List run.StepResult,
      (run.Execute host ctxr (some script) (some stepEm) wr).results = some rs ∧
      Seq.emits (run.Execute host ctxr (some script) (some stepEm) wr).trace = rs ∧
      (run.Execute host ctxr (some script) (some stepEm) wr).trace =
        Seq.alternating (fun r => r.Step) rs) ∧
    (∀ (V : Type) (view : Wv → V),
      (∀ w w', view w = view w' → now w = now w') →
      (∀ w w', view w = view w' → ctxv.Err w = ctxv.Err w') →
      (∀ c ∈ lesson.Checks, ∀ w w', view w = view w' →
        (c.Verify ctxv (some repo) w).1 = (c.Verify ctxv (some repo) w').1 ∧
        view (c.Verify ctxv (some repo) w).2 = view (c.Verify ctxv (some repo) w').2) →
      (∀ r w, view (em r w) = view w) →
      (verify.Run now ctxv (some lesson) (some repo) none wv).results =
        (verify.Run now ctxv (some lesson) (some repo) (some em) wv).results ∧
      (verify.Run now ctxv (some lesson) (some repo) none wv).err =
        (verify.Run now ctxv (some lesson) (some repo) (some em) wv).err) ∧
    (∀ (V : Type) (view : Wr → V),
      (∀ w w', view w = view w' → ctxr.Err w = ctxr.Err w') →
      (∀ step ∈ script.Steps, ∀ w w', view w = view w' →
        (run.RunStep host ctxr step w).1 = (run.RunStep host ctxr step w').1 ∧
        view (run.RunStep host ctxr step w).2 = view (run.RunStep host ctxr step w').2) →
      (∀ r w, view (stepEm r w) = view w) →
      (run.Execute host ctxr (some script) none wr).results =
        (run.Execute host ctxr (some script) (some stepEm) wr).results ∧
      (run.Execute host ctxr (some script) none wr).err =
        (run.Execute host ctxr (some script) (some stepEm) wr).err) := by
  refine ⟨?_, ?_, ?_, ?_⟩
  · rw [verify.Run_eq_loop]
    obtain ⟨m, _, h1, _, h3⟩ := Seq.loop_exists_stop ctxv.Err
      (Seq.iteration (verify.Run.exec now ctxv (some repo)) (some em)) lesson.Checks
      { results := [], world := wv, trace := [] }
    have ht := Seq.foldl_trace_some (verify.Run.exec now ctxv (some repo)) em
      (fun r => r.Check) (fun _ _ => rfl) (lesson.Checks.take m)
      { results := [], world := wv, trace := [] } rfl
    refine ⟨_, h1, ?_, ?_⟩
    · rw [h3, ht, Seq.emits_alternating]
    · rw [h3, ht]
  · rw [run.Execute_eq_loop]
    obtain ⟨m, _, h1, _, h3⟩ := Seq.loop_exists_stop ctxr.Err
      (Seq.iteration (run.RunStep host ctxr) (some stepEm)) script.Steps
      { results := [], world := wr, trace := [] }
    have ht := Seq.foldl_trace_some (run.RunStep host ctxr) stepEm
      (fun r => r.Step) (fun _ _ => run.RunStep_step _ _ _ _) (script.Steps.take m)
      { results := [], world := wr, trace := [] } rfl
    refine ⟨_, h1, ?_, ?_⟩
    · rw [h3, ht, Seq.emits_alternating]
    · rw [h3, ht]
  · intro V view hnow hctx hverify hem
    rw [verify.Run_eq_loop, verify.Run_eq_loop]
    refine Seq.loop_emitter_irrelevant view ctxv.Err (verify.Run.exec now ctxv (some repo)) em
      lesson.Checks hctx ?_ hem _ _ rfl rfl
    intro c hc w w' hw
    obtain ⟨ho, hv⟩ := hverify c hc w w' hw
    refine ⟨?_, hv⟩
    simp only [verify.Run.exec]
    rw [ho, hnow _ _ hv, hnow _ _ hw]
  · intro V view hctx hstep hem
    rw [run.Execute_eq_loop, run.Execute_eq_loop]
    exact Seq.loop_emitter_irrelevant view ctxr.Err (run.RunStep host ctxr) stepEm
      script.Steps hctx hstep hem _ _ rfl rfl

/-- C9, evaluated with the counting emitter, which leaves the count of work
done alone, and a context cancelled once one item has run: with and without
the emitter, `verify.Run` and `run.Execute` return the same results. -/
theorem C9_emitter_witness :
    ((verify.Run Examples.shellHost.now (Examples.cancelledAfter 1) (some Examples.testLesson)
        (some Examples.testRepo) none (0, 0)).results =
      (verify.Run Examples.shellHost.now (Examples.cancelledAfter 1) (some Examples.testLesson)
        (some Examples.testRepo) (some Examples.countingEmitter) (0, 0)).results) ∧
    ((run.Execute Examples.shellHost Examples.background (some Examples.testScript)
        none (0, 0)).results =
      (run.Execute Examples.shellHost Examples.background (some Examples.testScript)
        (some Examples.countingEmitter) (0, 0)).results) :=
  have h := C9_emitter_sees_returned_results Examples.shellHost.now (Examples.cancelledAfter 1)
    Examples.testLesson Examples.testRepo Examples.countingEmitter (0, 0)
    Examples.shellHost Examples.background Examples.testScript
    Examples.countingEmitter (0, 0)
  ⟨(h.2.2.1 Nat Prod.fst
      (by intro w w' hw; simp [Examples.shellHost, hw])
      (by intro w w' hw; simp [Examples.cancelledAfter, hw])
      (by
        intro c hc w w' hw
        simp only [Examples.testLesson, List.mem_cons, List.mem_singleton,
          List.not_mem_nil, or_false] at hc
        rcases hc with rfl | rfl <;> simp [Examples.passCheck, Examples.failCheck, hw])
      (by intro r w; rfl)).1,
   (h.2.2.2 Nat Prod.fst
      (by intro w w' hw; rfl)
      (by
        intro step _ w w' hw
        simp [run.RunStep, run.runCommand, run.defaultShell, Examples.shellHost, hw])
      (by intro r w; rfl)).1⟩

/-- C9 as stated fails in its last sentence: with an emitter that cancels the
context when it is handed its first result, `verify.Run` and `run.Execute`
return one result and the cancellation error, while without an emitter they
return both results and no error. -/
theorem C9_nil_emitter_results_differ :
    ((verify.Run Examples.shellHost.now Examples.cancelledOnEmit (some Examples.testLesson)
        (some Examples.testRepo) none (0, 0)).results.map List.length = some 2 ∧
      (verify.Run Examples.shellHost.now Examples.cancelledOnEmit (some Examples.testLesson)
        (some Examples.testRepo) (some Examples.countingEmitter) (0, 0)).results.map List.length
        = some 1 ∧
      (verify.Run Examples.shellHost.now Examples.cancelledOnEmit (some Examples.testLesson)
        (some Examples.testRepo) none (0, 0)).results ≠
      (verify.Run Examples.shellHost.now Examples.cancelledOnEmit (some Examples.testLesson)
        (some Examples.testRepo) (some Examples.countingEmitter) (0, 0)).results) ∧
    ((run.Execute Examples.shellHost Examples.cancelledOnEmit (some Examples.testScript)
        none (0, 0)).results.map List.length = some 2 ∧
      (run.Execute Examples.shellHost Examples.cancelledOnEmit (some Examples.testScript)
        (some Examples.countingEmitter) (0, 0)).results.map List.length = some 1 ∧
      (run.Execute Examples.shellHost Examples.cancelledOnEmit (some Examples.testScript)
        none (0, 0)).results ≠
      (run.Execute Examples.shellHost Examples.cancelledOnEmit (some Examples.testScript)
        (some Examples.countingEmitter) (0, 0)).results) := by
  refine ⟨⟨by decide, by decide, ?_⟩, ⟨by decide, by decide, by decide⟩⟩
  intro h
  exact absurd (congrArg (Option.map List.length) h) (by decide)

/-- C10: `verify.Run` returns a nil result list with `ErrLessonNil` for a nil
lesson, whatever the repository, and with `ErrRepositoryNil` for a lesson
without a repository; `run.Execute` returns a nil result list with an error
for a nil script. In all three cases nothing is executed or emitted and the
world is left as it was, whatever the state of the context. -/
theorem C10_nil_arguments_rejected {W : Type} (now : W → Int) (host : Host W)
    (ctx : Context W) (lesson : lessons.Lesson W) (repo : Option gitutil.Repository)
    (emitter : Option (verify.Emitter W)) (stepEmitter : Option (run.StepResult → W → W))
    (w : W) :
    verify.Run now ctx none repo emitter w =
      { results := none, err := some verify.ErrLessonNil, world := w, trace := [] } ∧
    verify.Run now ctx (some lesson) none emitter w =
      { results := none, err := some verify.ErrRepositoryNil, world := w, trace := [] } ∧
    (run.Execute host ctx none stepEmitter w).results = none ∧
    (run.Execute host ctx none stepEmitter w).err ≠ none ∧
    (run.Execute host ctx none stepEmitter w).trace = [] ∧
    (run.Execute host ctx none stepEmitter w).world = w := by
  refine ⟨rfl, rfl, rfl, ?_, rfl, rfl⟩
  simp [run.Execute]

/-- C11: in every catalog reached by calls of `Register` from the empty
catalog, registering a lesson whose ID is bound returns an error that wraps
`errCatalogSet` (text `lesson already registered`), and leaves the catalog as
it was: `Get` of that ID returns the lesson registered first under it, before
and after the call, and `List` returns the same list. -/
theorem C11_duplicate_lesson_rejected {W : Type} (calls : List (Option (lessons.Lesson W)))
    (l : lessons.Lesson W)
    (hreg : ((lessons.Catalog.registerAll lessons.Catalog.empty calls).catalog l.ID).isSome
      = true) :
    ∃ (err : GoError) (first : lessons.Lesson W),
      ((lessons.Catalog.registerAll lessons.Catalog.empty calls).Register (some l)).1
        = some err ∧
      err.Is lessons.errCatalogSet = true ∧
      err.Error = "lesson already registered" ++ ": " ++ l.ID ∧
      first ∈ lessons.Catalog.accepted calls lessons.Catalog.empty ∧
      first.ID = l.ID ∧
      (lessons.Catalog.registerAll lessons.Catalog.empty calls).Get l.ID = (some first, none) ∧
      ((lessons.Catalog.registerAll lessons.Catalog.empty calls).Register (some l)).2.Get l.ID
        = (some first, none) ∧
      ((lessons.Catalog.registerAll lessons.Catalog.empty calls).Register (some l)).2.List
        = (lessons.Catalog.registerAll lessons.Catalog.empty calls).List ∧
      ((lessons.Catalog.registerAll lessons.Catalog.empty calls).Register (some l)).2
        = lessons.Catalog.registerAll lessons.Catalog.empty calls := by
  rw [lessons.catalog_registerAll] at hreg
  obtain ⟨first, hmem, hid, hne, hmap⟩ :=
    Keyed.bound_is_taken (fun l : lessons.Lesson W => l.ID) calls l.ID hreg
  replace hmap : (lessons.Catalog.registerAll lessons.Catalog.empty calls).catalog l.ID
      = some (some first) := by
    rw [lessons.catalog_registerAll]
    exact hmap
  have hmem2 : first ∈ lessons.Catalog.accepted calls lessons.Catalog.empty := by
    rw [lessons.accepted_eq_taken]
    exact hmem
  have hreg2 : ((lessons.Catalog.registerAll lessons.Catalog.empty calls).Register (some l))
      = (some (GoError.wrapError (lessons.errCatalogSet.Error ++ ": " ++ l.ID)
          lessons.errCatalogSet),
        lessons.Catalog.registerAll lessons.Catalog.empty calls) := by
    simp [lessons.Catalog.Register, hne, hmap]
  have hget : (lessons.Catalog.registerAll lessons.Catalog.empty calls).Get l.ID
      = (some first, none) := by
    simp [lessons.Catalog.Get, hmap]
  refine ⟨_, first, by rw [hreg2], ?_, ?_, hmem2, hid, hget, ?_, ?_, ?_⟩
  · simp [GoError.Is, lessons.errCatalogSet]
  · simp [GoError.Error, lessons.errCatalogSet]
  · rw [hreg2]
    exact hget
  · rw [hreg2]
  · rw [hreg2]

/-- C11, evaluated as in `TestCatalogRegistration`: after a lesson with ID
`test` is registered, a second lesson with that ID is rejected. -/
theorem C11_duplicate_lesson_witness :
    ∃ (err : GoError) (first : lessons.Lesson Examples.World),
      ((lessons.Catalog.registerAll lessons.Catalog.empty
          [some Examples.testLesson]).Register (some Examples.duplicateLesson)).1 = some err ∧
      err.Is lessons.errCatalogSet = true ∧
      err.Error = "lesson already registered" ++ ": " ++ Examples.duplicateLesson.ID ∧
      first ∈ lessons.Catalog.accepted [some Examples.testLesson] lessons.Catalog.empty ∧
      first.ID = Examples.duplicateLesson.ID ∧
      (lessons.Catalog.registerAll lessons.Catalog.empty
          [some Examples.testLesson]).Get Examples.duplicateLesson.ID = (some first, none) ∧
      ((lessons.Catalog.registerAll lessons.Catalog.empty
          [some Examples.testLesson]).Register
            (some Examples.duplicateLesson)).2.Get Examples.duplicateLesson.ID
        = (some first, none) ∧
      ((lessons.Catalog.registerAll lessons.Catalog.empty
          [some Examples.testLesson]).Register (some Examples.duplicateLesson)).2.List
        = (lessons.Catalog.registerAll lessons.Catalog.empty [some Examples.testLesson]).List ∧
      ((lessons.Catalog.registerAll lessons.Catalog.empty
          [some Examples.testLesson]).Register (some Examples.duplicateLesson)).2
        = lessons.Catalog.registerAll lessons.Catalog.empty [some Examples.testLesson] :=
  C11_duplicate_lesson_rejected [some Examples.testLesson] Examples.duplicateLesson (by decide)

/-- C12: after any sequence of calls of `Register` from the empty catalog,
`lessons.List` holds exactly the lessons whose registration returned a nil
error: it is a rearrangement of them, their IDs are pairwise different, no
element is nil, and the IDs appear in strictly ascending order. The same holds
for `run.List` and the scripts that `run.Register` registered. -/
theorem C12_list_is_sorted_registered {W : Type} (calls : List (Option (lessons.Lesson W)))
    (scripts : List (Option run.Script)) :
    ((lessons.Catalog.registerAll lessons.Catalog.empty calls).List.Perm
        ((lessons.Catalog.accepted calls lessons.Catalog.empty).map some) ∧
      ((lessons.Catalog.accepted calls lessons.Catalog.empty).map (fun l => l.ID)).Nodup ∧
      ∃ ls : List (lessons.Lesson W),
        (lessons.Catalog.registerAll lessons.Catalog.empty calls).List = ls.map some ∧
        (ls.map (fun l => l.ID)).Sorted (fun a b => a < b)) ∧
    ((run.Registry.registerAll run.Registry.empty scripts).List.Perm
        ((run.Registry.accepted scripts run.Registry.empty).map some) ∧
      ((run.Registry.accepted scripts run.Registry.empty).map (fun sc => sc.ID)).Nodup ∧
      ∃ ls : List run.Script,
        (run.Registry.registerAll run.Registry.empty scripts).List = ls.map some ∧
        (ls.map (fun sc => sc.ID)).Sorted (fun a b => a < b)) := by
  constructor
  · have h := Keyed.listing_addAll_empty (fun l : lessons.Lesson W => l.ID) calls
    have hl : (lessons.Catalog.registerAll lessons.Catalog.empty calls).List =
        Keyed.listing (Keyed.addAll (fun l : lessons.Lesson W => l.ID)
          { map := fun _ => none, order := [] } calls) := by
      have := lessons.toStore_registerAll calls (lessons.Catalog.empty : lessons.Catalog W)
      rw [show (lessons.Catalog.empty : lessons.Catalog W).toStore =
        { map := fun _ => none, order := [] } from rfl] at this
      rw [← this]
      rfl
    rw [hl, lessons.accepted_eq_taken]
    obtain ⟨h1, h2, ls, h3, _, h5⟩ := h
    exact ⟨h1, h2, ls, h3, h5⟩
  · have h := Keyed.listing_addAll_empty (fun sc : run.Script => sc.ID) scripts
    have hl : (run.Registry.registerAll run.Registry.empty scripts).List =
        Keyed.listing (Keyed.addAll (fun sc : run.Script => sc.ID)
          { map := fun _ => none, order := [] } scripts) := by
      have := run.registry_toStore_registerAll scripts run.Registry.empty
      rw [show run.Registry.empty.toStore =
        { map := fun _ => none, order := [] } from rfl] at this
      rw [← this]
      rfl
    rw [hl, run.scripts_accepted_eq_taken]
    obtain ⟨h1, h2, ls, h3, _, h5⟩ := h
    exact ⟨h1, h2, ls, h3, h5⟩

/-- C13: once `Register` has returned a nil error for a lesson, `Get` of its
ID returns that lesson and a nil error, also after any further calls of
`Register`; in a catalog reached from the empty one, a lesson returned by
`Get` has the ID asked for, and `Get` of an ID under which no lesson was
registered returns a nil lesson and an error that wraps `errLessonDNE` (text
`lesson not found`); `run.Get` of an ID under which no script was registered
answers false. -/
theorem C13_get_round_trip {W : Type} (s : lessons.Catalog W) (l : lessons.Lesson W)
    (later calls : List (Option (lessons.Lesson W))) (scripts : List (Option run.Script))
    (id : String) :
    ((s.Register (some l)).1 = none →
      (lessons.Catalog.registerAll (s.Register (some l)).2 later).Get l.ID = (some l, none)) ∧
    (∀ found : lessons.Lesson W,
      ((lessons.Catalog.registerAll lessons.Catalog.empty calls).Get id).1 = some found →
      found.ID = id) ∧
    ((∀ r ∈ lessons.Catalog.accepted calls lessons.Catalog.empty, r.ID ≠ id) →
      ∃ err : GoError,
        (lessons.Catalog.registerAll lessons.Catalog.empty calls).Get id = (none, some err) ∧
        err.Is lessons.errLessonDNE = true ∧
        err.Error = "lesson not found" ++ ": " ++ id) ∧
    ((∀ r ∈ run.Registry.accepted scripts run.Registry.empty, r.ID ≠ id) →
      (run.Registry.registerAll run.Registry.empty scripts).Get id = (none, false)) := by
  refine ⟨?_, ?_, ?_, ?_⟩
  · intro hnil
    obtain ⟨l', hl', hk, hb⟩ := (lessons.Register_nil_iff s (some l)).1 hnil
    cases hl'
    have h1 : (s.Register (some l)).2.catalog l.ID = some (some l) := by
      simp [lessons.Catalog.Register, hk, hb]
    have h2 : (lessons.Catalog.registerAll (s.Register (some l)).2 later).catalog l.ID
        = some (some l) := by
      rw [lessons.catalog_registerAll]
      rw [Keyed.addAll_map_of_bound _ later _ l.ID (by
        show ((s.Register (some l)).2.catalog l.ID).isSome = true
        rw [h1]; rfl)]
      exact h1
    simp [lessons.Catalog.Get, h2]
  · intro found hfound
    cases hm : (lessons.Catalog.registerAll lessons.Catalog.empty calls).catalog id with
    | none => simp [lessons.Catalog.Get, hm] at hfound
    | some v =>
      have hb : ((Keyed.addAll (fun l : lessons.Lesson W => l.ID)
          { map := fun _ => none, order := [] } calls).map id).isSome = true := by
        have := hm
        rw [lessons.catalog_registerAll] at this
        show ((Keyed.addAll (fun l : lessons.Lesson W => l.ID)
          (lessons.Catalog.empty : lessons.Catalog W).toStore calls).map id).isSome = true
        rw [this]; rfl
      obtain ⟨a, _, hka, _, hmap⟩ := Keyed.bound_is_taken _ calls id hb
      have hm2 := hm
      rw [lessons.catalog_registerAll] at hm2
      have hva : some v = some (some a) := by
        rw [← hm2]
        exact hmap
      simp only [lessons.Catalog.Get, hm] at hfound
      have : found = a := by
        cases hva
        simp at hfound
        exact hfound.symm
      rw [this]
      exact hka
  · intro hnone
    have hm : (lessons.Catalog.registerAll lessons.Catalog.empty calls).catalog id = none := by
      rw [lessons.catalog_registerAll]
      rw [Keyed.addAll_map_of_not_taken _ calls _ id (by
        rw [← lessons.accepted_eq_taken]
        exact hnone)]
      rfl
    refine ⟨GoError.wrapError (lessons.errLessonDNE.Error ++ ": " ++ id) lessons.errLessonDNE,
      by simp [lessons.Catalog.Get, hm], ?_, ?_⟩
    · simp [GoError.Is, lessons.errLessonDNE]
    · simp [GoError.Error, lessons.errLessonDNE]
  · intro hnone
    have hm : (run.Registry.registerAll run.Registry.empty scripts).registry id = none := by
      rw [run.registry_registerAll]
      rw [Keyed.addAll_map_of_not_taken _ scripts _ id (by
        rw [← run.scripts_accepted_eq_taken]
        exact hnone)]
      rfl
    simp [run.Registry.Get, hm]

/-- C13, evaluated: a lesson registered in the empty catalog is found under
its ID after a duplicate and another lesson were offered, and an ID that was
never registered is not found. -/
theorem C13_get_round_trip_witness :
    (lessons.Catalog.registerAll
        ((lessons.Catalog.empty : lessons.Catalog Examples.World).Register
          (some Examples.testLesson)).2
        [some Examples.duplicateLesson, some Examples.otherLesson]).Get Examples.testLesson.ID
      = (some Examples.testLesson, none) ∧
    (run.Registry.registerAll run.Registry.empty [some Examples.testScript]).Get "absent"
      = (none, false) :=
  ⟨(C13_get_round_trip (lessons.Catalog.empty : lessons.Catalog Examples.World)
      Examples.testLesson [some Examples.duplicateLesson, some Examples.otherLesson]
      [] [] "").1 (by decide),
   (C13_get_round_trip (lessons.Catalog.empty : lessons.Catalog Examples.World)
      Examples.testLesson [] [] [some Examples.testScript] "absent").2.2.2 (by decide)⟩

/-- C14: `run.Register` called with nil, with a script whose ID is empty, or
with a script whose ID is bound leaves the registry, and so `List` and `Get`,
as they were; in a registry reached from the empty one, `Get` of a bound ID
keeps returning the script registered first under it. Called with a script
whose ID is non-empty and unbound, it binds that ID to the script, changes no
other binding and adds that one ID to the list; in a registry reached from the
empty one, `List` then holds that script in addition to what it held. -/
theorem C14_script_duplicate_ignored (s : run.Registry) (sc : run.Script)
    (scripts : List (Option run.Script)) :
    s.Register none = s ∧
    (sc.ID = "" → s.Register (some sc) = s) ∧
    ((s.registry sc.ID).isSome = true →
      s.Register (some sc) = s ∧ (s.Register (some sc)).List = s.List ∧
        (s.Register (some sc)).Get sc.ID = s.Get sc.ID) ∧
    (((run.Registry.registerAll run.Registry.empty scripts).registry sc.ID).isSome = true →
      ∃ first : run.Script, first ∈ run.Registry.accepted scripts run.Registry.empty ∧
        first.ID = sc.ID ∧
        ((run.Registry.registerAll run.Registry.empty scripts).Register (some sc)).Get sc.ID
          = (some first, true)) ∧
    (sc.ID ≠ "" → s.registry sc.ID = none →
      (s.Register (some sc)).Get sc.ID = (some sc, true) ∧
        (∀ id, id ≠ sc.ID → (s.Register (some sc)).Get id = s.Get id) ∧
        (s.Register (some sc)).scriptList.Perm (sc.ID :: s.scriptList)) ∧
    (sc.ID ≠ "" → (run.Registry.registerAll run.Registry.empty scripts).registry sc.ID = none →
      ((run.Registry.registerAll run.Registry.empty scripts).Register (some sc)).List.Perm
        (some sc :: (run.Registry.registerAll run.Registry.empty scripts).List)) := by
  have hbound : ∀ t : run.Registry, (t.registry sc.ID).isSome = true →
      t.Register (some sc) = t := by
    intro t hb
    by_cases hk : sc.ID = ""
    · simp [run.Registry.Register, hk]
    · simp [run.Registry.Register, hk, hb]
  refine ⟨rfl, ?_, ?_, ?_, ?_, ?_⟩
  · intro hk
    simp [run.Registry.Register, hk]
  · intro hb
    rw [hbound s hb]
    exact ⟨rfl, rfl, rfl⟩
  · intro hb
    rw [hbound _ hb]
    rw [run.registry_registerAll] at hb
    obtain ⟨first, hmem, hid, _, hmap⟩ :=
      Keyed.bound_is_taken (fun sc : run.Script => sc.ID) scripts sc.ID hb
    refine ⟨first, ?_, hid, ?_⟩
    · rw [run.scripts_accepted_eq_taken]
      exact hmem
    · have hm : (run.Registry.registerAll run.Registry.empty scripts).registry sc.ID
          = some (some first) := by
        rw [run.registry_registerAll]
        exact hmap
      simp [run.Registry.Get, hm]
  · intro hk hb
    refine ⟨?_, ?_, ?_⟩
    · simp [run.Registry.Get, run.Registry.Register, hk, hb]
    · intro id hne
      simp [run.Registry.Get, run.Registry.Register, hk, hb, hne]
    · have h1 : (s.Register (some sc)).scriptList = sort.Strings (s.scriptList ++ [sc.ID]) := by
        simp [run.Registry.Register, hk, hb]
      rw [h1]
      refine (sort.Strings_perm _).trans ?_
      simp
  · intro hk hb
    have hall : (run.Registry.registerAll run.Registry.empty scripts).Register (some sc) =
        run.Registry.registerAll run.Registry.empty (scripts ++ [some sc]) := by
      simp [run.Registry.registerAll, List.foldl_append]
    have hlist : ∀ cs : List (Option run.Script),
        (run.Registry.registerAll run.Registry.empty cs).List =
          Keyed.listing (Keyed.addAll (fun sc : run.Script => sc.ID)
            { map := fun _ => none, order := [] } cs) := by
      intro cs
      have := run.registry_toStore_registerAll cs run.Registry.empty
      rw [show run.Registry.empty.toStore =
        { map := fun _ => none, order := [] } from rfl] at this
      rw [← this]
      rfl
    rw [hall, hlist, hlist]
    have h1 := (Keyed.listing_addAll_empty (fun sc : run.Script => sc.ID)
      (scripts ++ [some sc])).1
    have h2 := (Keyed.listing_addAll_empty (fun sc : run.Script => sc.ID) scripts).1
    refine h1.trans ?_
    rw [Keyed.taken_append]
    have hb2 : (Keyed.addAll (fun sc : run.Script => sc.ID)
        { map := fun _ => none, order := [] } scripts).map sc.ID = none := by
      rw [run.registry_registerAll] at hb
      exact hb
    rw [Keyed.taken_cons_fresh (fun sc : run.Script => sc.ID) sc [] _ hk hb2]
    simp only [Keyed.taken, List.map_append, List.map_cons, List.map_nil]
    refine List.perm_append_singleton _ _ |>.trans ?_
    exact List.Perm.cons _ h2.symm

/-- C14, evaluated: after a script with ID `test` is registered, a second
script with that ID changes nothing, and a script with a new ID is found. -/
theorem C14_script_duplicate_witness :
    (run.Registry.registerAll run.Registry.empty [some Examples.testScript]).Register
        (some Examples.duplicateScript)
      = run.Registry.registerAll run.Registry.empty [some Examples.testScript] ∧
    ((run.Registry.registerAll run.Registry.empty [some Examples.testScript]).Register
        (some Examples.otherScript)).Get Examples.otherScript.ID
      = (some Examples.otherScript, true) :=
  ⟨((C14_script_duplicate_ignored
      (run.Registry.registerAll run.Registry.empty [some Examples.testScript])
      Examples.duplicateScript []).2.2.1 (by decide)).1,
   ((C14_script_duplicate_ignored
      (run.Registry.registerAll run.Registry.empty [some Examples.testScript])
      Examples.otherScript []).2.2.2.2.1 (by decide) (by decide)).1⟩

/-- C15: the seven checks of the default lessons are paired in `queryErrors`
with the repository query each makes. For each of them, when the query returns
an error the `CheckResult` holds exactly that error with `Passed` false, and
when the query returns no error the `CheckResult` has no error. A result with
an error makes `AllPassed` false. -/
theorem C15_query_error_becomes_check_error {W : Type} (host : GitHost W) :
    (lessons.queryErrors host).map (fun p => p.1) =
      (lessons.lessonInitBasics host).Checks ++ (lessons.lessonBranchBasics host).Checks ∧
    (lessons.queryErrors host).map (fun p => p.1.ID) =
      ["first-commit", "readme-exists", "commit-message", "branch-exists", "branch-current",
        "branch-commit", "commit-message-tag"] ∧
    (∀ p ∈ lessons.queryErrors host, ∀ (ctx : Context W) (r : gitutil.Repository) (w : W),
      (∀ e : GoError, p.2 ctx r w = some e →
        (p.1.Verify ctx (some r) w).1 = { Passed := false, Message := "", Err := some e }) ∧
      (p.2 ctx r w = none → (p.1.Verify ctx (some r) w).1.Err = none)) ∧
    (∀ (m : verifyui.Model W) (res : verify.Result W), res ∈ m.results →
      res.Outcome.Err ≠ none → m.AllPassed = false) := by
  refine ⟨rfl, rfl, ?_, ?_⟩
  · intro p hp ctx r w
    simp only [lessons.queryErrors, List.mem_cons, List.mem_singleton, List.not_mem_nil,
      or_false] at hp
    rcases hp with rfl | rfl | rfl | rfl | rfl | rfl | rfl
    · constructor
      · intro e he
        simp only [] at he
        simp [lessons.lessonInitBasics.firstCommit, he]
      · intro he
        simp only [] at he
        simp only [lessons.lessonInitBasics.firstCommit, he]
        split <;> rfl
    · constructor
      · intro e he
        simp only [] at he
        simp [lessons.lessonInitBasics.readmeExists, he]
      · intro he
        simp only [] at he
        simp only [lessons.lessonInitBasics.readmeExists, he]
        split <;> rfl
    · constructor
      · intro e he
        simp only [] at he
        simp [lessons.lessonInitBasics.commitMessage, he]
      · intro he
        simp only [] at he
        simp only [lessons.lessonInitBasics.commitMessage, he]
        split <;> rfl
    · constructor
      · intro e he
        simp only [] at he
        simp [lessons.lessonBranchBasics.branchExists, he]
      · intro he
        simp only [] at he
        simp only [lessons.lessonBranchBasics.branchExists, he]
        split <;> rfl
    · constructor
      · intro e he
        simp only [] at he
        simp [lessons.lessonBranchBasics.branchCurrent, he]
      · intro he
        simp only [] at he
        simp only [lessons.lessonBranchBasics.branchCurrent, he]
        split <;> rfl
    · constructor
      · intro e he
        simp only [] at he
        simp [lessons.lessonBranchBasics.branchCommit, he]
      · intro he
        simp only [] at he
        simp only [lessons.lessonBranchBasics.branchCommit, he]
        split <;> rfl
    · constructor
      · intro e he
        simp only [] at he
        simp [lessons.lessonBranchBasics.commitMessageTag, he]
      · intro he
        simp only [] at he
        simp only [lessons.lessonBranchBasics.commitMessageTag, he]
        split <;> rfl
  · intro m res hres herr
    cases h : m.AllPassed with
    | false => rfl
    | true =>
      unfold verifyui.Model.AllPassed at h
      by_cases hl : m.results.length = m.lesson.Checks.length
      · simp only [hl, ne_eq, not_true_eq_false, if_false] at h
        exact absurd (((verifyui.checks_loop_iff m.results).1 h) res hres).2 herr
      · simp [hl] at h

/-- C15, evaluated: on a host where the README cannot be inspected, the
check `readme-exists` reports that error and is not passed. -/
theorem C15_query_error_witness :
    ((lessons.lessonInitBasics.readmeExists Examples.emptyRepoHost).Verify Examples.background
        (some Examples.testRepo) (0, 0)).1 =
      { Passed := false, Message := "",
        Err := some (GoError.errorString "permission denied") } :=
  ((C15_query_error_becomes_check_error Examples.emptyRepoHost).2.2.1
      (lessons.lessonInitBasics.readmeExists Examples.emptyRepoHost,
        fun _ r w => (r.FileExists Examples.emptyRepoHost "README.md" w).1.2)
      (List.mem_cons_of_mem _ (List.mem_cons_self _ _))
      Examples.background Examples.testRepo (0, 0)).1
    (GoError.errorString "permission denied") rfl

/-- C16: `lessons.Register` returns an error for a nil lesson and for a
lesson with an empty ID; every call that returns an error leaves the catalog
map and the listing order as they were; a call that returns nil binds the ID
of its lesson, which was unbound, to that lesson, changes no other binding,
and adds that one ID to the listing order. -/
theorem C16_register_all_or_nothing {W : Type} (s : lessons.Catalog W)
    (l : lessons.Lesson W) (c : Option (lessons.Lesson W)) :
    (s.Register none).1 ≠ none ∧
    (l.ID = "" → (s.Register (some l)).1 ≠ none) ∧
    ((s.Register c).1 ≠ none → (s.Register c).2 = s) ∧
    ((s.Register c).1 = none →
      ∃ r : lessons.Lesson W, c = some r ∧ s.catalog r.ID = none ∧
        (s.Register c).2.catalog r.ID = some (some r) ∧
        (∀ id, id ≠ r.ID → (s.Register c).2.catalog id = s.catalog id) ∧
        (s.Register c).2.lessonOrder.Perm (r.ID :: s.lessonOrder) ∧
        (s.Register c).2.lessonOrder.length = s.lessonOrder.length + 1) := by
  refine ⟨?_, ?_, lessons.Register_unchanged_of_err s c, ?_⟩
  · simp [lessons.Catalog.Register]
  · intro hk
    simp [lessons.Catalog.Register, hk]
  · intro hnil
    obtain ⟨r, hr, hk, hb⟩ := (lessons.Register_nil_iff s c).1 hnil
    cases hr
    have hperm : (s.Register (some r)).2.lessonOrder.Perm (r.ID :: s.lessonOrder) := by
      have h1 : (s.Register (some r)).2.lessonOrder = sort.Strings (s.lessonOrder ++ [r.ID]) := by
        simp [lessons.Catalog.Register, hk, hb]
      rw [h1]
      refine (sort.Strings_perm _).trans ?_
      simp
    refine ⟨r, rfl, hb, ?_, ?_, hperm, ?_⟩
    · simp [lessons.Catalog.Register, hk, hb]
    · intro id hne
      simp [lessons.Catalog.Register, hk, hb, hne]
    · rw [hperm.length_eq]
      rfl

/-- C16, evaluated: registering the test lesson in the empty catalog returns
nil and binds its ID; registering it again returns an error and changes
nothing. -/
theorem C16_register_witness :
    ((lessons.Catalog.empty : lessons.Catalog Examples.World).Register
        (some Examples.testLesson)).2.lessonOrder.length = 1 ∧
    ((lessons.Catalog.registerAll (lessons.Catalog.empty : lessons.Catalog Examples.World)
        [some Examples.testLesson]).Register (some Examples.duplicateLesson)).2
      = lessons.Catalog.registerAll lessons.Catalog.empty [some Examples.testLesson] :=
  ⟨by
    obtain ⟨_, _, _, _, _, _, hlen⟩ :=
      (C16_register_all_or_nothing (lessons.Catalog.empty : lessons.Catalog Examples.World)
        Examples.testLesson (some Examples.testLesson)).2.2.2 (by decide)
    exact hlen,
   (C16_register_all_or_nothing
      (lessons.Catalog.registerAll (lessons.Catalog.empty : lessons.Catalog Examples.World)
        [some Examples.testLesson])
      Examples.duplicateLesson (some Examples.duplicateLesson)).2.2.1 (by decide)⟩

/-- C17: `IsNoCommits` holds of an error exactly when its text contains
`does not have any commits yet` or
`unknown revision or path not in the working tree`. When the git command of
`CommitCount` fails with such an error, `CommitCount` returns 0 and a nil
error; when it fails with another error, it returns 0 and that error; when
git succeeds and its output cannot be scanned, it returns 0 and an error that
wraps the scan error; otherwise it returns the scanned integer and a nil
error. So the check `first-commit` on a repository without commits is not
passed and has no error. -/
theorem C17_no_commits_counts_zero {W : Type} (host : GitHost W) (ctx : Context W)
    (r : gitutil.Repository) (w : W) :
    (gitutil.IsNoCommits none = false ∧
      ∀ e : GoError, gitutil.IsNoCommits (some e) = true ↔
        ("does not have any commits yet".data <:+: e.Error.data ∨
          "unknown revision or path not in the working tree".data <:+: e.Error.data)) ∧
    (∀ gitErr : GoError,
      (r.git host ctx ["rev-list", "--count", "HEAD"] w).1.2 = some gitErr →
      gitutil.IsNoCommits (some gitErr) = true →
      (r.CommitCount host ctx w).1 = (0, none)) ∧
    (∀ gitErr : GoError,
      (r.git host ctx ["rev-list", "--count", "HEAD"] w).1.2 = some gitErr →
      gitutil.IsNoCommits (some gitErr) = false →
      (r.CommitCount host ctx w).1 = (0, some gitErr)) ∧
    (∀ scanErr : GoError,
      (r.git host ctx ["rev-list", "--count", "HEAD"] w).1.2 = none →
      (host.sscanD (host.trimSpace
        (r.git host ctx ["rev-list", "--count", "HEAD"] w).1.1)).2 = some scanErr →
      ∃ err : GoError, (r.CommitCount host ctx w).1 = (0, some err) ∧
        err.Is scanErr = true) ∧
    ((r.git host ctx ["rev-list", "--count", "HEAD"] w).1.2 = none →
      (host.sscanD (host.trimSpace
        (r.git host ctx ["rev-list", "--count", "HEAD"] w).1.1)).2 = none →
      (r.CommitCount host ctx w).1 =
        ((host.sscanD (host.trimSpace
          (r.git host ctx ["rev-list", "--count", "HEAD"] w).1.1)).1, none)) ∧
    (∀ gitErr : GoError,
      (r.git host ctx ["rev-list", "--count", "HEAD"] w).1.2 = some gitErr →
      gitutil.IsNoCommits (some gitErr) = true →
      ((lessons.lessonInitBasics.firstCommit host).Verify ctx (some r) w).1 =
        { Passed := false,
          Message := "No commits detected. Run git commit to create your first snapshot.",
          Err := none }) := by
  have hzero : ∀ gitErr : GoError,
      (r.git host ctx ["rev-list", "--count", "HEAD"] w).1.2 = some gitErr →
      gitutil.IsNoCommits (some gitErr) = true →
      (r.CommitCount host ctx w).1 = (0, none) := by
    intro gitErr hg hno
    simp [gitutil.Repository.CommitCount, hg, hno]
  refine ⟨⟨rfl, ?_⟩, hzero, ?_, ?_, ?_, ?_⟩
  · intro e
    simp only [gitutil.IsNoCommits, Bool.or_eq_true, strings.Contains_iff]
  · intro gitErr hg hno
    simp [gitutil.Repository.CommitCount, hg, hno]
  · intro scanErr hg hs
    refine ⟨GoError.wrapError ("gitutil: parse commit count: " ++ scanErr.Error) scanErr,
      by simp [gitutil.Repository.CommitCount, hg, hs], ?_⟩
    have hself : scanErr.Is scanErr = true := by
      cases scanErr <;> simp [GoError.Is]
    simp [GoError.Is, hself]
  · intro hg hs
    simp [gitutil.Repository.CommitCount, hg, hs]
  · intro gitErr hg hno
    have h := hzero gitErr hg hno
    have h1 : (r.CommitCount host ctx w).1.2 = none := by rw [h]
    have h2 : (r.CommitCount host ctx w).1.1 = 0 := by rw [h]
    simp [lessons.lessonInitBasics.firstCommit, h1, h2]

/-- C17, evaluated on a host where git fails as it does on `HEAD` in a
repository without commits: the commit count is 0 with a nil error, and the
check `first-commit` is not passed and has no error. -/
theorem C17_no_commits_witness :
    (Examples.testRepo.CommitCount Examples.emptyRepoHost Examples.background (0, 0)).1
      = (0, none) ∧
    ((lessons.lessonInitBasics.firstCommit Examples.emptyRepoHost).Verify Examples.background
        (some Examples.testRepo) (0, 0)).1 =
      { Passed := false,
        Message := "No commits detected. Run git commit to create your first snapshot.",
        Err := none } :=
  ⟨(C17_no_commits_counts_zero Examples.emptyRepoHost Examples.background Examples.testRepo
      (0, 0)).2.1
      (GoError.wrapError
        ("git command failed: git " ++ strings.Join ["rev-list", "--count", "HEAD"] " " ++ ": "
          ++ "exit status 128" ++ ": "
          ++ "fatal: ambiguous argument: unknown revision or path not in the working tree.")
        (GoError.exitError (some 128) "exit status 128"))
      rfl (by decide),
   (C17_no_commits_counts_zero Examples.emptyRepoHost Examples.background Examples.testRepo
      (0, 0)).2.2.2.2.2
      (GoError.wrapError
        ("git command failed: git " ++ strings.Join ["rev-list", "--count", "HEAD"] " " ++ ": "
          ++ "exit status 128" ++ ": "
          ++ "fatal: ambiguous argument: unknown revision or path not in the working tree.")
        (GoError.exitError (some 128) "exit status 128"))
      rfl (by decide)⟩

/-- C18: `run` returns 1 for an empty argument list, for an unknown command,
for `verify` without a lesson ID after its flags, for `verify` with an unknown
lesson ID, when the repository cannot be opened, when a terminal program
returns an error, for `run` without a script ID and for `run` with an unknown
script ID; it returns 0 for `help`, `version`, `lessons` and `list` (the
latter two on registries reached from the empty ones); and once the terminal
program of `verify` or `run` has ended without error, it returns 0 when
`AllPassed` of the model is true and 2 otherwise. -/
theorem C18_exit_codes {W : Type} (env : main.Env W) (cat : lessons.Catalog W)
    (reg : run.Registry) (w : W) :
    (main.run env cat reg [] w).1 = some 1 ∧
    (∀ (cmd : String) (rest : List String),
      cmd ∉ ["help", "--help", "-h", "version", "--version", "-v", "lessons", "list",
        "verify", "run"] →
      (main.run env cat reg (cmd :: rest) w).1 = some 1) ∧
    (∀ (cmd : String) (rest : List String),
      cmd ∈ ["help", "--help", "-h", "version", "--version", "-v"] →
      (main.run env cat reg (cmd :: rest) w).1 = some 0) ∧
    (∀ (cmd : String) (rest : List String) (calls : List (Option (lessons.Lesson W)))
      (scripts : List (Option run.Script)), cmd ∈ ["lessons", "list"] →
      (main.run env (lessons.Catalog.registerAll lessons.Catalog.empty calls)
        (run.Registry.registerAll run.Registry.empty scripts) (cmd :: rest) w).1 = some 0) ∧
    (∀ rest : List String, (env.flagParse rest w).1.err = none →
      (env.flagParse rest w).1.remaining = [] →
      (main.run env cat reg ("verify" :: rest) w).1 = some 1) ∧
    (∀ (rest : List String) (id : String) (more : List String),
      (env.flagParse rest w).1.err = none →
      (env.flagParse rest w).1.remaining = id :: more →
      (cat.Get id).2 ≠ none →
      (main.run env cat reg ("verify" :: rest) w).1 = some 1) ∧
    (∀ (rest : List String) (id : String) (more : List String) (lesson : lessons.Lesson W),
      (env.flagParse rest w).1.err = none →
      (env.flagParse rest w).1.remaining = id :: more →
      cat.Get id = (some lesson, none) →
      (gitutil.Open env.host Context.Background (env.flagParse rest w).1.path
        (env.flagParse rest w).2).1.2 ≠ none →
      (main.run env cat reg ("verify" :: rest) w).1 = some 1) ∧
    (∀ (rest : List String) (id : String) (more : List String) (lesson : lessons.Lesson W),
      (env.flagParse rest w).1.err = none →
      (env.flagParse rest w).1.remaining = id :: more →
      cat.Get id = (some lesson, none) →
      (gitutil.Open env.host Context.Background (env.flagParse rest w).1.path
        (env.flagParse rest w).2).1.2 = none →
      (main.run env cat reg ("verify" :: rest) w).1 =
        (match (env.runVerifyUI
            (verifyui.NewModel lesson
              (gitutil.Open env.host Context.Background (env.flagParse rest w).1.path
                (env.flagParse rest w).2).1.1)
            (gitutil.Open env.host Context.Background (env.flagParse rest w).1.path
              (env.flagParse rest w).2).2).1 with
          | (_, some _) => some 1
          | (final, none) => if final.AllPassed = true then some 0 else some 2)) ∧
    (main.run env cat reg ["run"] w).1 = some 1 ∧
    (∀ (id : String) (more : List String), (reg.Get id).2 = false →
      (main.run env cat reg ("run" :: id :: more) w).1 = some 1) ∧
    (∀ (id : String) (more : List String) (script : run.Script),
      reg.Get id = (some script, true) →
      (main.run env cat reg ("run" :: id :: more) w).1 =
        (match (env.runRunUI (runui.NewModel script) w).1 with
          | (_, some _) => some 1
          | (final, none) => if final.AllPassed = true then some 0 else some 2)) := by
  refine ⟨rfl, ?_, ?_, ?_, ?_, ?_, ?_, ?_, rfl, ?_, ?_⟩
  · intro cmd rest hcmd
    simp only [List.mem_cons, List.mem_singleton, List.not_mem_nil, or_false, not_or] at hcmd
    obtain ⟨h1, h2, h3, h4, h5, h6, h7, h8, h9, h10⟩ := hcmd
    simp [main.run, h1, h2, h3, h4, h5, h6, h7, h8, h9, h10]
  · intro cmd rest hcmd
    simp only [List.mem_cons, List.mem_singleton, List.not_mem_nil, or_false] at hcmd
    rcases hcmd with rfl | rfl | rfl | rfl | rfl | rfl <;> simp [main.run]
  · intro cmd rest calls scripts hcmd
    have hok := main.printLessons_ok env calls scripts w
    simp only [List.mem_cons, List.mem_singleton, List.not_mem_nil, or_false] at hcmd
    rcases hcmd with rfl | rfl <;> simp [main.run, hok]
  · intro rest herr hrem
    simp [main.run, main.handleVerify, herr, hrem]
  · intro rest id more herr hrem hget
    cases hg : cat.Get id with
    | mk found gerr =>
      cases gerr with
      | none => rw [hg] at hget; exact absurd rfl hget
      | some e => simp [main.run, main.handleVerify, herr, hrem, hg]
  · intro rest id more lesson herr hrem hget hopen
    cases ho : (gitutil.Open env.host Context.Background (env.flagParse rest w).1.path
        (env.flagParse rest w).2).1.2 with
    | none => exact absurd ho hopen
    | some e => simp [main.run, main.handleVerify, herr, hrem, hget, ho]
  · intro rest id more lesson herr hrem hget hopen
    simp only [main.run, main.handleVerify, herr, hrem, hget, hopen]
    simp only [String.reduceEq, or_self, if_false, if_true]
    cases hui : (env.runVerifyUI
        (verifyui.NewModel lesson
          (gitutil.Open env.host Context.Background (env.flagParse rest w).1.path
            (env.flagParse rest w).2).1.1)
        (gitutil.Open env.host Context.Background (env.flagParse rest w).1.path
          (env.flagParse rest w).2).2).1 with
    | mk final uerr =>
      cases uerr with
      | some e => simp
      | none =>
        simp only []
        cases final.AllPassed <;> simp
  · intro id more hget
    cases hg : reg.Get id with
    | mk found ok =>
      rw [hg] at hget
      simp only [] at hget
      subst hget
      simp [main.run, main.handleRun, hg]
  · intro id more script hget
    simp only [main.run, main.handleRun, hget]
    simp only [String.reduceEq, or_self, if_false, if_true]
    cases hui : (env.runRunUI (runui.NewModel script) w).1 with
    | mk final uerr =>
      cases uerr with
      | some e => simp
      | none =>
        simp only []
        cases final.AllPassed <;> simp

/-- C18, evaluated in an environment whose terminal programs end at once:
an unknown command gives 1, an unknown script gives 1, a script of two steps
that ends without results gives 2, and a script without steps gives 0. -/
theorem C18_exit_codes_witness :
    (main.run Examples.cliEnv lessons.Catalog.empty run.Registry.empty ["frobnicate"] (0, 0)).1
      = some 1 ∧
    (main.run Examples.cliEnv lessons.Catalog.empty
      (run.Registry.registerAll run.Registry.empty [some Examples.testScript])
      ["run", "absent"] (0, 0)).1 = some 1 ∧
    (main.run Examples.cliEnv lessons.Catalog.empty
      (run.Registry.registerAll run.Registry.empty [some Examples.testScript])
      ["run", "test"] (0, 0)).1 = some 2 ∧
    (main.run Examples.cliEnv lessons.Catalog.empty
      (run.Registry.registerAll run.Registry.empty [some Examples.emptyScript])
      ["run", "empty"] (0, 0)).1 = some 0 :=
  ⟨(C18_exit_codes Examples.cliEnv lessons.Catalog.empty run.Registry.empty (0, 0)).2.1
      "frobnicate" [] (by decide),
   (C18_exit_codes Examples.cliEnv lessons.Catalog.empty
      (run.Registry.registerAll run.Registry.empty [some Examples.testScript])
      (0, 0)).2.2.2.2.2.2.2.2.2.1 "absent" [] (by decide),
   (C18_exit_codes Examples.cliEnv lessons.Catalog.empty
      (run.Registry.registerAll run.Registry.empty [some Examples.testScript])
      (0, 0)).2.2.2.2.2.2.2.2.2.2 "test" [] Examples.testScript (by decide),
   (C18_exit_codes Examples.cliEnv lessons.Catalog.empty
      (run.Registry.registerAll run.Registry.empty [some Examples.emptyScript])
      (0, 0)).2.2.2.2.2.2.2.2.2.2 "empty" [] Examples.emptyScript (by decide)⟩

/-- C19: the `Failures` of `RunStep` are, in this order: the text of the
execution error when there is one, otherwise the reason
`expected exit code E, got A` when `ExpectExitCode = E` is not negative and
differs from the exit code `A`, otherwise nothing; then one `stdout missing`
reason for each string of `ExpectStdout` that stdout does not contain, in the
order of `ExpectStdout`. The expected strings are checked also when the
command returned an error, and there are at most `1 + len(ExpectStdout)`
failures. -/
theorem C19_failures_in_order {W : Type} (host : Host W) (ctx : Context W)
    (step : run.Step) (w : W) :
    (run.RunStep host ctx step w).1.Failures =
      (match (run.runCommand host ctx step.Command w).1.err with
        | some execErr => [execErr.Error]
        | none =>
          if 0 ≤ step.ExpectExitCode ∧
              step.ExpectExitCode ≠ (run.runCommand host ctx step.Command w).1.exitCode then
            ["expected exit code " ++ fmt.verbD step.ExpectExitCode ++ ", got "
              ++ fmt.verbD (run.runCommand host ctx step.Command w).1.exitCode]
          else []) ++
      (step.ExpectStdout.filter
          (fun e => !strings.Contains (run.runCommand host ctx step.Command w).1.stdout e)).map
        (fun e => "stdout missing " ++ host.quote e) ∧
    (∀ (execErr : GoError) (e : String),
      (run.runCommand host ctx step.Command w).1.err = some execErr →
      e ∈ step.ExpectStdout →
      strings.Contains (run.runCommand host ctx step.Command w).1.stdout e = false →
      ("stdout missing " ++ host.quote e) ∈ (run.RunStep host ctx step w).1.Failures) ∧
    (run.RunStep host ctx step w).1.Failures.length ≤ 1 + step.ExpectStdout.length := by
  have hF := run.RunStep_failures host ctx step w
  refine ⟨?_, ?_, ?_⟩
  · rw [hF]
    cases (run.runCommand host ctx step.Command w).1.err with
    | some e => rfl
    | none => rfl
  · intro execErr e _ he hc
    rw [hF]
    apply List.mem_append_right
    rw [List.mem_map]
    exact ⟨e, List.mem_filter.2 ⟨he, by simp [hc]⟩, rfl⟩
  · rw [hF, List.length_append, List.length_map]
    have h1 : (match (run.runCommand host ctx step.Command w).1.err with
        | none =>
          if step.ExpectExitCode ≥ 0 ∧
              step.ExpectExitCode ≠ (run.runCommand host ctx step.Command w).1.exitCode then
            ["expected exit code " ++ fmt.verbD step.ExpectExitCode ++ ", got "
              ++ fmt.verbD (run.runCommand host ctx step.Command w).1.exitCode]
          else []
        | some execErr => [execErr.Error]).length ≤ 1 := by
      cases (run.runCommand host ctx step.Command w).1.err with
      | some e => simp
      | none =>
        simp only []
        split <;> simp
    have h2 := List.length_filter_le
      (fun e => !strings.Contains (run.runCommand host ctx step.Command w).1.stdout e)
      step.ExpectStdout
    omega

/-- C19, evaluated on a step whose command cannot be started and that
expects two strings: the error text comes first, then the two missing
strings in their order. -/
theorem C19_failures_in_order_witness :
    (run.RunStep Examples.shellHost Examples.background Examples.unstartedStep (0, 0)).1.Failures
      = ["exec: not started", "stdout missing \"hello\"", "stdout missing \"world\""] ∧
    ("stdout missing " ++ Examples.shellHost.quote "world") ∈
      (run.RunStep Examples.shellHost Examples.background Examples.unstartedStep
        (0, 0)).1.Failures :=
  ⟨by decide,
   (C19_failures_in_order Examples.shellHost Examples.background Examples.unstartedStep
      (0, 0)).2.1 (GoError.errorString "exec: not started") "world" (by decide) (by decide)
      (by decide)⟩

/-- C20: on a lesson without checks `verify.Run` returns an empty, non-nil
result list and a nil error whatever the state of the context, and so does
`run.Execute` on a script without steps; when the context is not cancelled at
any of the checks made before the items, both return all results and a nil
error, whatever the context becomes once the last item has started. -/
theorem C20_cancellation_seen_before_items_only {Wv Wr : Type}
    (now : Wv → Int) (ctxv : Context Wv) (lesson : lessons.Lesson Wv)
    (repo : gitutil.Repository) (emitter : Option (verify.Emitter Wv)) (wv : Wv)
    (host : Host Wr) (ctxr : Context Wr) (script : run.Script)
    (stepEmitter : Option (run.StepResult → Wr → Wr)) (wr : Wr) :
    (lesson.Checks = [] →
      verify.Run now ctxv (some lesson) (some repo) emitter wv =
        { results := some [], err := none, world := wv, trace := [] }) ∧
    (script.Steps = [] →
      run.Execute host ctxr (some script) stepEmitter wr =
        { results := some [], err := none, world := wr, trace := [] }) ∧
    ((∀ j, j < lesson.Checks.length →
        ctxv.Err (verify.Run.stateAt now ctxv (some repo) emitter lesson.Checks wv j).world
          = none) →
      (verify.Run now ctxv (some lesson) (some repo) emitter wv).err = none ∧
      ∃ rs : List (verify.Result Wv),
        (verify.Run now ctxv (some lesson) (some repo) emitter wv).results = some rs ∧
        rs.length = lesson.Checks.length ∧
        (verify.Run now ctxv (some lesson) (some repo) emitter wv).world =
          (verify.Run.stateAt now ctxv (some repo) emitter lesson.Checks wv
            lesson.Checks.length).world) ∧
    ((∀ j, j < script.Steps.length →
        ctxr.Err (run.Execute.stateAt host ctxr stepEmitter script.Steps wr j).world = none) →
      (run.Execute host ctxr (some script) stepEmitter wr).err = none ∧
      ∃ rs : List run.StepResult,
        (run.Execute host ctxr (some script) stepEmitter wr).results = some rs ∧
        rs.length = script.Steps.length ∧
        (run.Execute host ctxr (some script) stepEmitter wr).world =
          (run.Execute.stateAt host ctxr stepEmitter script.Steps wr
            script.Steps.length).world) := by
  refine ⟨?_, ?_, ?_, ?_⟩
  · intro h
    simp [verify.Run, h, verify.Run.loop]
  · intro h
    simp [run.Execute, h, run.Execute.loop]
  · intro h
    simp only [verify.Run_stateAt_eq] at h ⊢
    rw [verify.Run_eq_loop, Seq.loop_complete _ _ _ _ h]
    refine ⟨rfl, _, rfl, ?_, ?_⟩
    · simp [Seq.foldl_results_length]
    · simp
  · intro h
    simp only [run.Execute_stateAt_eq] at h ⊢
    rw [run.Execute_eq_loop, Seq.loop_complete _ _ _ _ h]
    refine ⟨rfl, _, rfl, ?_, ?_⟩
    · simp [Seq.foldl_results_length]
    · simp

/-- C20, evaluated: an already cancelled context and a lesson without checks
give an empty result list and no error; a context that is cancelled once two
items have run and the lesson of two checks give no error, and the context is
cancelled in the world the call leaves behind. -/
theorem C20_cancellation_witness :
    verify.Run Examples.shellHost.now (Examples.cancelledAfter 0) (some Examples.emptyLesson)
        (some Examples.testRepo) none (0, 0) =
      { results := some [], err := none, world := (0, 0), trace := [] } ∧
    (verify.Run Examples.shellHost.now (Examples.cancelledAfter 2) (some Examples.testLesson)
        (some Examples.testRepo) none (0, 0)).err = none ∧
    (Examples.cancelledAfter 0).Err (0, 0) ≠ none ∧
    (Examples.cancelledAfter 2).Err
      (verify.Run Examples.shellHost.now (Examples.cancelledAfter 2) (some Examples.testLesson)
        (some Examples.testRepo) none (0, 0)).world ≠ none :=
  ⟨(C20_cancellation_seen_before_items_only Examples.shellHost.now (Examples.cancelledAfter 0)
      Examples.emptyLesson Examples.testRepo none (0, 0) Examples.shellHost
      (Examples.cancelledAfter 0) Examples.emptyScript none (0, 0)).1 rfl,
   ((C20_cancellation_seen_before_items_only Examples.shellHost.now (Examples.cancelledAfter 2)
      Examples.testLesson Examples.testRepo none (0, 0) Examples.shellHost
      (Examples.cancelledAfter 2) Examples.testScript none (0, 0)).2.2.1 (by decide)).1,
   by decide, by decide⟩

/-- C21: after any sequence of calls of `lessons.Register` from the empty
catalog, `lessonOrder` is sorted ascending and has no duplicates, an ID is in
it exactly when the catalog map binds it, and every binding of the map is a
non-nil lesson whose ID is its key; `List` has no nil element, the IDs of its
elements are `lessonOrder`, and its length is the number of calls that
returned a nil error. The same holds for `registry` and `scriptList` after any
sequence of calls of `run.Register`. -/
theorem C21_registry_invariant {W : Type} (calls : List (Option (lessons.Lesson W)))
    (scripts : List (Option run.Script)) :
    ((lessons.Catalog.registerAll lessons.Catalog.empty calls).lessonOrder.Sorted
        (fun a b => a ≤ b) ∧
      (lessons.Catalog.registerAll lessons.Catalog.empty calls).lessonOrder.Nodup ∧
      (∀ id : String,
        id ∈ (lessons.Catalog.registerAll lessons.Catalog.empty calls).lessonOrder ↔
          ((lessons.Catalog.registerAll lessons.Catalog.empty calls).catalog id).isSome
            = true) ∧
      (∀ (id : String) (p : Option (lessons.Lesson W)),
        (lessons.Catalog.registerAll lessons.Catalog.empty calls).catalog id = some p →
        ∃ l : lessons.Lesson W, p = some l ∧ l.ID = id) ∧
      (∃ ls : List (lessons.Lesson W),
        (lessons.Catalog.registerAll lessons.Catalog.empty calls).List = ls.map some ∧
        ls.map (fun l => l.ID) =
          (lessons.Catalog.registerAll lessons.Catalog.empty calls).lessonOrder) ∧
      (lessons.Catalog.registerAll lessons.Catalog.empty calls).List.length =
        (lessons.Catalog.accepted calls lessons.Catalog.empty).length) ∧
    ((run.Registry.registerAll run.Registry.empty scripts).scriptList.Sorted
        (fun a b => a ≤ b) ∧
      (run.Registry.registerAll run.Registry.empty scripts).scriptList.Nodup ∧
      (∀ id : String,
        id ∈ (run.Registry.registerAll run.Registry.empty scripts).scriptList ↔
          ((run.Registry.registerAll run.Registry.empty scripts).registry id).isSome = true) ∧
      (∀ (id : String) (p : Option run.Script),
        (run.Registry.registerAll run.Registry.empty scripts).registry id = some p →
        ∃ sc : run.Script, p = some sc ∧ sc.ID = id) ∧
      (∃ ls : List run.Script,
        (run.Registry.registerAll run.Registry.empty scripts).List = ls.map some ∧
        ls.map (fun sc => sc.ID) =
          (run.Registry.registerAll run.Registry.empty scripts).scriptList) ∧
      (run.Registry.registerAll run.Registry.empty scripts).List.length =
        (run.Registry.accepted scripts run.Registry.empty).length) := by
  constructor
  · have h := Keyed.invariant_addAll_empty (fun l : lessons.Lesson W => l.ID) calls
    rw [← lessons.store_registerAll_empty calls] at h
    rw [lessons.accepted_eq_taken]
    exact h
  · have h := Keyed.invariant_addAll_empty (fun sc : run.Script => sc.ID) scripts
    rw [← run.registry_store_registerAll_empty scripts] at h
    rw [run.scripts_accepted_eq_taken]
    exact h

/-- C22: in a program of the verification model started by `Init`, whatever
messages arrive and whichever pending function the runtime runs next, the only
function still to be run is the one that `runCheckCmd` makes for the check at
index `len(results)` (none when there is no such check); so there are never
more results than checks, the result at each position holds the check at that
position, and `done` is set exactly when there are as many results as checks.
For a lesson without checks `Init` sets `done`, returns `tea.Quit`, and
`AllPassed` is true. The same holds for the run model with steps and
`runStepCmd`. -/
theorem C22_ui_results_follow_items {W : Type} (now : W → Int) (host : Host W)
    (lesson : lessons.Lesson W) (repo : Option gitutil.Repository) (script : run.Script)
    (w : W) (inputs scriptInputs : List tea.Input) :
    (((verifyui.Session.start now lesson repo w).run now inputs).model.lesson = lesson ∧
      ((verifyui.Session.start now lesson repo w).run now inputs).pending =
        tea.execs (verifyui.runCheckCmd now lesson repo
          ((verifyui.Session.start now lesson repo w).run now inputs).model.results.length) ∧
      ((verifyui.Session.start now lesson repo w).run now inputs).model.results.length
        ≤ lesson.Checks.length ∧
      (∀ (i : Nat) (r : verify.Result W),
        ((verifyui.Session.start now lesson repo w).run now inputs).model.results[i]?
          = some r →
        lesson.Checks[i]? = some r.Check) ∧
      (((verifyui.Session.start now lesson repo w).run now inputs).model.done = true ↔
        ((verifyui.Session.start now lesson repo w).run now inputs).model.results.length
          = lesson.Checks.length)) ∧
    (lesson.Checks = [] →
      ((verifyui.NewModel lesson repo).Init now).1.done = true ∧
      ((verifyui.NewModel lesson repo).Init now).1.AllPassed = true ∧
      ((verifyui.NewModel lesson repo).Init now).2 = tea.Quit) ∧
    (((runui.Session.start host script w).run host scriptInputs).model.script = script ∧
      ((runui.Session.start host script w).run host scriptInputs).pending =
        tea.execs (runui.runStepCmd host script
          ((runui.Session.start host script w).run host scriptInputs).model.results.length) ∧
      ((runui.Session.start host script w).run host scriptInputs).model.results.length
        ≤ script.Steps.length ∧
      (∀ (i : Nat) (r : run.StepResult),
        ((runui.Session.start host script w).run host scriptInputs).model.results[i]?
          = some r →
        script.Steps[i]? = some r.Step) ∧
      (((runui.Session.start host script w).run host scriptInputs).model.done = true ↔
        ((runui.Session.start host script w).run host scriptInputs).model.results.length
          = script.Steps.length)) ∧
    (script.Steps = [] →
      ((runui.NewModel script).Init host).1.done = true ∧
      ((runui.NewModel script).Init host).1.AllPassed = true ∧
      ((runui.NewModel script).Init host).2 = tea.Quit) := by
  have hv := verifyui.run_sound now lesson repo inputs _
    (verifyui.start_sound now lesson repo w)
  have hr := runui.script_run_sound host script scriptInputs _
    (runui.script_start_sound host script w)
  obtain ⟨v1, _, v3, v4, v5⟩ := hv
  obtain ⟨r1, r3, r4, r5⟩ := hr
  refine ⟨⟨v1, v3, ?_, ?_, v5⟩, ?_, ⟨r1, r3, ?_, ?_, r5⟩, ?_⟩
  · have hlen := congrArg List.length v4
    rw [List.length_map, List.length_take] at hlen
    omega
  · intro i r hi
    have hlt : i < ((verifyui.Session.start now lesson repo w).run now
        inputs).model.results.length := by
      by_contra hc
      rw [List.getElem?_eq_none (by omega)] at hi
      exact Option.noConfusion hi
    have h1 : (List.map (fun r : verify.Result W => r.Check)
        ((verifyui.Session.start now lesson repo w).run now inputs).model.results)[i]?
          = some r.Check := by
      rw [List.getElem?_map, hi]
      rfl
    rw [v4, List.getElem?_take_of_lt hlt] at h1
    exact h1
  · intro h0
    simp [verifyui.Model.Init, verifyui.NewModel, h0, verifyui.Model.AllPassed,
      verifyui.Model.AllPassed.loop]
  · have hlen := congrArg List.length r4
    rw [List.length_map, List.length_take] at hlen
    omega
  · intro i r hi
    have hlt : i < ((runui.Session.start host script w).run host
        scriptInputs).model.results.length := by
      by_contra hc
      rw [List.getElem?_eq_none (by omega)] at hi
      exact Option.noConfusion hi
    have h1 : (List.map (fun r : run.StepResult => r.Step)
        ((runui.Session.start host script w).run host scriptInputs).model.results)[i]?
          = some r.Step := by
      rw [List.getElem?_map, hi]
      rfl
    rw [r4, List.getElem?_take_of_lt hlt] at h1
    exact h1
  · intro h0
    simp [runui.Model.Init, runui.NewModel, h0, runui.Model.AllPassed,
      runui.Model.AllPassed.loop]

/-- C22, evaluated: for the lesson and the script without items `Init` sets
`done` and `AllPassed` is true; for the lesson of two checks, after both
pending functions were run, with a key press in between, there are two results
and `done` is set, and after only one was run `done` is not set. -/
theorem C22_ui_witness :
    ((verifyui.NewModel Examples.emptyLesson (some Examples.testRepo)).Init
        Examples.shellHost.now).1.done = true ∧
    ((runui.NewModel Examples.emptyScript).Init Examples.shellHost).1.AllPassed = true ∧
    ((verifyui.Session.start Examples.shellHost.now Examples.testLesson
        (some Examples.testRepo) (0, 0)).run Examples.shellHost.now
        [tea.Input.deliver 0, tea.Input.key "x", tea.Input.deliver 0]).model.results.length
      = 2 ∧
    ((verifyui.Session.start Examples.shellHost.now Examples.testLesson
        (some Examples.testRepo) (0, 0)).run Examples.shellHost.now
        [tea.Input.deliver 0, tea.Input.key "x", tea.Input.deliver 0]).model.done = true ∧
    ((verifyui.Session.start Examples.shellHost.now Examples.testLesson
        (some Examples.testRepo) (0, 0)).run Examples.shellHost.now
        [tea.Input.deliver 0, tea.Input.key "q"]).model.done = false :=
  ⟨((C22_ui_results_follow_items Examples.shellHost.now Examples.shellHost
      Examples.emptyLesson (some Examples.testRepo) Examples.emptyScript (0, 0) [] []).2.1
      rfl).1,
   ((C22_ui_results_follow_items Examples.shellHost.now Examples.shellHost
      Examples.emptyLesson (some Examples.testRepo) Examples.emptyScript (0, 0) [] []).2.2.2
      rfl).2.1,
   by decide, by decide, by decide⟩

end tscgit
